import Mathlib

/-!
Verification of the reconciliation, governance and integration-job core of the
thin-CMDB service (`app/services/reconciliation.py`, `app/services/governance.py`,
`app/services/lifecycle.py`, `app/services/sync_jobs.py`, `app/core/security.py`,
`app/routers/approvals.py`, `app/services/integrations.py`).

The Python code is shallowly embedded: the SQLAlchemy session becomes an explicit
`Db` record threaded through pure functions, `datetime` instants become integer
seconds (UTC-naive), dynamic JSON dicts become an explicit `Json` sum type, and
each service function is translated statement by statement.  All definitions are
executable so that claims can be checked on concrete states.
-/

namespace CMDB

/-! ## Time (`app/core/time.py`)

A timezone-naive UTC instant is an integer count of seconds.  A Python
`datetime` value that may still carry a timezone is embedded as `PyDateTime`:
an `aware` value remembers the UTC instant it denotes, which is what
`astimezone(timezone.utc).replace(tzinfo=None)` extracts. -/

abbrev Timestamp := Int

inductive PyDateTime where
  | naive (t : Timestamp)
  | aware (utc : Timestamp)
  deriving DecidableEq

/-- Embedding of `normalize_utc_naive`: `None` stays `None`, a naive datetime is
returned as is, an aware one is converted to its UTC-naive instant. -/
def normalize_utc_naive : Option PyDateTime → Option Timestamp
  | none => none
  | some (.naive t) => some t
  | some (.aware u) => some u

/-! ## Settings (`app/core/config.py`)

Only the fields the verified subsystems read. -/

structure Settings where
  source_precedence : List String
  lifecycle_staging_days : Int
  lifecycle_review_days : Int
  lifecycle_retired_days : Int
  sync_job_retry_base_seconds : Int
  maker_checker_enabled : Bool
  maker_checker_bind_requester : Bool
  deriving DecidableEq

/-- The defaults of `Settings` in `app/core/config.py` (with maker-checker
switched on, as required for a gated deployment). -/
def defaultSettings : Settings :=
  { source_precedence := ["manual", "azure", "vcenter", "zabbix", "k8s"]
    lifecycle_staging_days := 30
    lifecycle_review_days := 90
    lifecycle_retired_days := 120
    sync_job_retry_base_seconds := 5
    maker_checker_enabled := true
    maker_checker_bind_requester := true }

/-! ## JSON values (`json` module as used by the code)

Python dict payloads are embedded as a `Json` sum.  Numbers are restricted to
integers: JSON floats are floating-point values and are outside this embedding.
The mutual shape (`Json` / `JsonList` / `JsonObj`) replaces nested `List`s so
that structural recursion and induction behave well. -/

mutual
inductive Json where
  | null
  | bool (b : Bool)
  | num (n : Int)
  | str (s : String)
  | arr (xs : JsonList)
  | obj (kvs : JsonObj)
  deriving DecidableEq
inductive JsonList where
  | nil
  | cons (hd : Json) (tl : JsonList)
  deriving DecidableEq
inductive JsonObj where
  | nil
  | cons (k : String) (v : Json) (tl : JsonObj)
  deriving DecidableEq
end

/-! ## Data model (`app/models.py`)

Rows become records, tables become lists kept in insertion order (the order in
which `db.add` was called), and fresh primary keys come from explicit counters.
Audit payload dicts and Jira issue details are reduced to the event type plus
the CI they refer to, which is all any claim inspects. -/

inductive CIStatus where
  | ACTIVE
  | STAGING
  | RETIREMENT_REVIEW
  | RETIRED
  deriving DecidableEq

inductive CollisionStatus where
  | OPEN
  | RESOLVED
  deriving DecidableEq

structure CIRec where
  id : Nat
  name : String
  ci_type : String
  source : String
  owner : Option String
  status : CIStatus
  attributes : JsonObj
  last_seen_at : Timestamp
  deriving DecidableEq

structure IdentityRec where
  ci_id : Nat
  scheme : String
  value : String
  deriving DecidableEq

structure RelationshipRec where
  source_ci_id : Nat
  target_ci_id : Nat
  relation_type : String
  source : String
  deriving DecidableEq

structure CollisionRec where
  id : Nat
  scheme : String
  value : String
  existing_ci_id : Nat
  incoming_ci_id : Nat
  status : CollisionStatus
  resolution_note : Option String
  resolved_at : Option Timestamp
  deriving DecidableEq

structure AuditRec where
  event_type : String
  ci_id : Option Nat
  deriving DecidableEq

structure JiraIssue where
  summary : String
  ci_id : Option Nat
  deriving DecidableEq

structure Db where
  cis : List CIRec
  identities : List IdentityRec
  relationships : List RelationshipRec
  collisions : List CollisionRec
  audit : List AuditRec
  jira : List JiraIssue
  next_ci_id : Nat
  next_collision_id : Nat
  deriving DecidableEq

def emptyDb : Db :=
  { cis := [], identities := [], relationships := [], collisions := [],
    audit := [], jira := [], next_ci_id := 0, next_collision_id := 0 }

/-- Embedding of `append_audit_event`: the event is added to the append-only log. -/
def append_audit_event (db : Db) (event_type : String) (ci_id : Option Nat) : Db :=
  { db with audit := db.audit ++ [{ event_type := event_type, ci_id := ci_id }] }

/-- Embedding of `jira_client.create_issue` as recording the outbound
notification (the claims only count notifications per CI). -/
def jira_create_issue (db : Db) (summary : String) (ci_id : Option Nat) : Db :=
  { db with jira := db.jira ++ [{ summary := summary, ci_id := ci_id }] }

/-- First CI row with the given id (`db.get(CI, id)` / the join target). -/
def getCI (db : Db) (id : Nat) : Option CIRec :=
  db.cis.find? (fun c => c.id == id)

/-- Replace the CI row with the given id by its updated version (the ORM
mutates the mapped object in place). -/
def updateCI (db : Db) (id : Nat) (f : CIRec → CIRec) : Db :=
  { db with cis := db.cis.map (fun c => if c.id == id then f c else c) }

/-! ## Reconciler (`app/services/reconciliation.py`) -/

structure IdentityPayload where
  scheme : String
  value : String
  deriving DecidableEq

/-- Embedding of `CIPayload` (`app/schemas.py`).  `identities` is a plain list:
the schema places no lower bound on its length. -/
structure CIPayload where
  name : String
  ci_type : String
  owner : Option String
  attributes : JsonObj
  identities : List IdentityPayload
  last_seen_at : Option PyDateTime
  deriving DecidableEq

/-- Embedding of `_source_rank`: `list.index` with the `ValueError` fallback to
`len(list)`.  `List.indexOf` returns the length when the element is absent,
which is exactly that behaviour. -/
def _source_rank (st : Settings) (source : String) : Nat :=
  st.source_precedence.indexOf source

/-- Embedding of `_incoming_has_precedence`: lower-or-equal rank wins. -/
def _incoming_has_precedence (st : Settings) (existing_source incoming_source : String) : Bool :=
  _source_rank st incoming_source ≤ _source_rank st existing_source

/-- First identity row with the given scheme and value (the `(scheme, value)`
unique constraint makes this row unique in well-formed states). -/
def findIdentity (db : Db) (scheme value : String) : Option IdentityRec :=
  db.identities.find? (fun i => i.scheme == scheme && i.value == value)

/-- Embedding of `_find_ci_by_identity`: the CI joined through the identity row. -/
def _find_ci_by_identity (db : Db) (scheme value : String) : Option CIRec :=
  match findIdentity db scheme value with
  | none => none
  | some i => getCI db i.ci_id

/-- Does an OPEN collision row for this exact quadruple already exist? -/
def hasOpenCollision (db : Db) (scheme value : String) (existing incoming : Nat) : Bool :=
  db.collisions.any (fun c =>
    c.scheme == scheme && c.value == value &&
    c.existing_ci_id == existing && c.incoming_ci_id == incoming &&
    c.status == CollisionStatus.OPEN)

/-- Embedding of `_create_collision`: idempotent on an existing OPEN row,
otherwise insert an OPEN row, append a `governance.collision.detected` audit
event and file a Jira issue. -/
def _create_collision (db : Db) (scheme value : String) (existing incoming : Nat) : Db :=
  if hasOpenCollision db scheme value existing incoming then db
  else
    let collision : CollisionRec :=
      { id := db.next_collision_id, scheme := scheme, value := value,
        existing_ci_id := existing, incoming_ci_id := incoming,
        status := CollisionStatus.OPEN, resolution_note := none, resolved_at := none }
    let db := { db with collisions := db.collisions ++ [collision],
                        next_collision_id := db.next_collision_id + 1 }
    let db := append_audit_event db "governance.collision.detected" (some existing)
    jira_create_issue db "Identity collision" (some existing)

/-- One step of the `_ensure_identities` loop for a single payload identity. -/
def ensureIdentityStep (ci_id : Nat) (acc : Db × Nat) (ident : IdentityPayload) : Db × Nat :=
  let db := acc.1
  match findIdentity db ident.scheme ident.value with
  | none =>
      ({ db with identities :=
          db.identities ++ [{ ci_id := ci_id, scheme := ident.scheme, value := ident.value }] },
       acc.2)
  | some m =>
      if m.ci_id ≠ ci_id then
        (_create_collision db ident.scheme ident.value m.ci_id ci_id, acc.2 + 1)
      else acc

/-- Embedding of `_ensure_identities`: create missing identity rows for the CI,
record a collision for each identity already bound to a different CI, and
return the collision count. -/
def _ensure_identities (db : Db) (ci_id : Nat) (payload : CIPayload) : Db × Nat :=
  payload.identities.foldl (ensureIdentityStep ci_id) (db, 0)

/-- One step of the match loop of `reconcile_ci_payload` (lines 111-115):
append the CI owning this identity unless it is already collected. -/
def matchStep (db : Db) (acc : List CIRec) (ident : IdentityPayload) : List CIRec :=
  match _find_ci_by_identity db ident.scheme ident.value with
  | some m => if acc.any (fun c => c.id == m.id) then acc else acc ++ [m]
  | none => acc

/-- The ordered list `M` of distinct CIs matched by the payload identities. -/
def matchedCIs (db : Db) (idents : List IdentityPayload) : List CIRec :=
  idents.foldl (matchStep db) []

/-- Python truthiness of the optional owner: `not ci.owner` is true for `None`
and for the empty string. -/
def ownerMissing : Option String → Bool
  | none => true
  | some s => s == ""

/-- One step of the extra-match collision loop of `reconcile_ci_payload`
(lines 144-156): for a fixed conflicting CI, walk every payload identity and
record a collision whenever that identity is currently bound to some CI. -/
def conflictPass (survivor_id : Nat) (conflict_id : Nat)
    (idents : List IdentityPayload) (acc : Db × Nat) : Db × Nat :=
  idents.foldl
    (fun acc ident =>
      if ((_find_ci_by_identity acc.1 ident.scheme ident.value).isSome
            && conflict_id ≠ survivor_id : Bool) then
        (_create_collision acc.1 ident.scheme ident.value survivor_id conflict_id, acc.2 + 1)
      else acc)
    acc

/-- Result of `reconcile_ci_payload`: the new database state, the surviving or
created CI id, the `created` flag and the collision count. -/
structure ReconcileResult where
  db : Db
  ci_id : Nat
  created : Bool
  collisions : Nat
  deriving DecidableEq

/-- The no-match branch of `reconcile_ci_payload` (lines 117-140): create the
CI, write its identities, record `ci.created` and the missing-owner follow-up.
`now` is the already-normalized incoming timestamp. -/
def reconcileCreate (db : Db) (source : String) (payload : CIPayload)
    (now : Timestamp) : ReconcileResult :=
  let ci : CIRec :=
    { id := db.next_ci_id, name := payload.name, ci_type := payload.ci_type,
      source := source, owner := payload.owner, status := CIStatus.ACTIVE,
      attributes := payload.attributes, last_seen_at := now }
  let db1 := { db with cis := db.cis ++ [ci], next_ci_id := db.next_ci_id + 1 }
  let step := _ensure_identities db1 ci.id payload
  let db2 := append_audit_event step.1 "ci.created" (some ci.id)
  let db3 :=
    if ownerMissing ci.owner then
      append_audit_event (jira_create_issue db2 "Missing CI ownership" (some ci.id))
        "governance.owner.missing" (some ci.id)
    else db2
  { db := db3, ci_id := ci.id, created := true, collisions := step.2 }

/-- The matched branch of `reconcile_ci_payload` (lines 142-180): collision
pass over the extra matches, source-precedence merge, unconditional
`last_seen_at` write, identity upkeep and the missing-owner follow-up. -/
def reconcileMatched (st : Settings) (db : Db) (source : String) (payload : CIPayload)
    (now : Timestamp) (ci : CIRec) (rest : List CIRec) : ReconcileResult :=
  let pass :=
    rest.foldl (fun acc conflict => conflictPass ci.id conflict.id payload.identities acc)
      (db, 0)
  let db1 := pass.1
  let db2 :=
    if _incoming_has_precedence st ci.source source then
      append_audit_event
        (updateCI db1 ci.id (fun c =>
          { c with name := payload.name, ci_type := payload.ci_type,
                   owner := payload.owner, attributes := payload.attributes,
                   source := source }))
        "ci.updated" (some ci.id)
    else
      append_audit_event db1 "ci.reconcile.skipped_by_precedence" (some ci.id)
  let db3 := updateCI db2 ci.id (fun c => { c with last_seen_at := now })
  let step := _ensure_identities db3 ci.id payload
  let db4 := step.1
  let effOwner := if _incoming_has_precedence st ci.source source then payload.owner else ci.owner
  let db5 :=
    if ownerMissing effOwner then
      append_audit_event (jira_create_issue db4 "Missing CI ownership" (some ci.id))
        "governance.owner.missing" (some ci.id)
    else db4
  { db := db5, ci_id := ci.id, created := false, collisions := pass.2 + step.2 }

/-- Embedding of `reconcile_ci_payload`.  `nowAmbient` is the value `utcnow()`
would return during the call. -/
def reconcile_ci_payload (st : Settings) (db : Db) (source : String)
    (payload : CIPayload) (nowAmbient : Timestamp) : ReconcileResult :=
  let now := (normalize_utc_naive payload.last_seen_at).getD nowAmbient
  match matchedCIs db payload.identities with
  | [] => reconcileCreate db source payload now
  | ci :: rest => reconcileMatched st db source payload now ci rest

/-! ## Governance (`app/services/governance.py`) -/

/-- Collision row with the given primary key (`db.get(GovernanceCollision, id)`). -/
def findCollision (db : Db) (cid : Nat) : Option CollisionRec :=
  db.collisions.find? (fun c => c.id == cid)

/-- Replace the collision row with the given id by its updated version. -/
def updateCollision (db : Db) (cid : Nat) (f : CollisionRec → CollisionRec) : Db :=
  { db with collisions := db.collisions.map (fun c => if c.id == cid then f c else c) }

/-- Embedding of `resolve_collision`: a missing id leaves the state unchanged
(the router turns the `None` into a 404); otherwise the row is marked RESOLVED
with the note and timestamp and a `governance.collision.resolved` event is
appended. -/
def resolve_collision (db : Db) (cid : Nat) (resolution_note : String) (now : Timestamp) :
    Db × Bool :=
  match findCollision db cid with
  | none => (db, false)
  | some c =>
      let db := updateCollision db cid (fun c =>
        { c with status := CollisionStatus.RESOLVED,
                 resolution_note := some resolution_note, resolved_at := some now })
      (append_audit_event db "governance.collision.resolved" (some c.existing_ci_id), true)

/-- Embedding of `reopen_collision`: the row is set back to OPEN, the
resolution note and timestamp are cleared, and a
`governance.collision.reopened` event is appended. -/
def reopen_collision (db : Db) (cid : Nat) : Db × Bool :=
  match findCollision db cid with
  | none => (db, false)
  | some c =>
      let db := updateCollision db cid (fun c =>
        { c with status := CollisionStatus.OPEN,
                 resolution_note := none, resolved_at := none })
      (append_audit_event db "governance.collision.reopened" (some c.existing_ci_id), true)

/-- The operations that touch collision rows: reconciliation, resolve, reopen. -/
inductive GovOp where
  | reconcile (source : String) (payload : CIPayload) (now : Timestamp)
  | resolve (cid : Nat) (note : String) (now : Timestamp)
  | reopen (cid : Nat)
  deriving DecidableEq

def applyGovOp (st : Settings) (db : Db) : GovOp → Db
  | .reconcile source payload now => (reconcile_ci_payload st db source payload now).db
  | .resolve cid note now => (resolve_collision db cid note now).1
  | .reopen cid => (reopen_collision db cid).1

def runGovOps (st : Settings) (db : Db) (ops : List GovOp) : Db :=
  ops.foldl (applyGovOp st) db

/-- Two collision rows claim the same `(scheme, value, existing, incoming)`
quadruple. -/
def SameQuad (a b : CollisionRec) : Prop :=
  a.scheme = b.scheme ∧ a.value = b.value ∧
  a.existing_ci_id = b.existing_ci_id ∧ a.incoming_ci_id = b.incoming_ci_id

instance : DecidableRel SameQuad := fun a b => by unfold SameQuad; infer_instance

/-- At most one OPEN row per quadruple inside a collision list: no two
distinct rows are both OPEN with the same quadruple. -/
def OpenUniqueL (l : List CollisionRec) : Prop :=
  l.Pairwise (fun a b =>
    a.status = CollisionStatus.OPEN → b.status = CollisionStatus.OPEN → ¬ SameQuad a b)

instance (l : List CollisionRec) : Decidable (OpenUniqueL l) := by
  unfold OpenUniqueL; infer_instance

/-- The governance invariant from the spec: at most one OPEN collision row per
`(scheme, value, existing, incoming)` quadruple. -/
def OpenUnique (db : Db) : Prop :=
  OpenUniqueL db.collisions

instance (db : Db) : Decidable (OpenUnique db) := by unfold OpenUnique; infer_instance

/-- Does this operation reopen a collision? -/
def GovOp.isReopen : GovOp → Bool
  | .reopen _ => true
  | _ => false

/-! ## Lifecycle engine (`app/services/lifecycle.py`)

The `OFFSET`/`LIMIT` batching of `_process_batch` pages exactly once through
the CI table ordered by id while only mutating statuses, so the pass is
embedded as one left fold over the id-ordered row list.  Jira tasks are
collected during the fold and appended after it, mirroring the post-flush
dispatch. -/

/-- The lifecycle target-state table of `_process_batch` (lines 46-53). -/
def targetStatus (st : Settings) (inactive_days : Int) : CIStatus :=
  if st.lifecycle_retired_days ≤ inactive_days then CIStatus.RETIRED
  else if st.lifecycle_review_days ≤ inactive_days then CIStatus.RETIREMENT_REVIEW
  else if st.lifecycle_staging_days ≤ inactive_days then CIStatus.STAGING
  else CIStatus.ACTIVE

/-- Python `(now - last_seen).days`: floor division of the difference in
seconds by one day. -/
def inactiveDays (now last_seen : Timestamp) : Int :=
  (now - last_seen).fdiv 86400

/-- Accumulator of the lifecycle pass: processed rows, the audit log, the
collected Jira tasks, the per-run notification dedup set and the transition
count. -/
structure LifeAcc where
  cis : List CIRec
  audit : List AuditRec
  jira_tasks : List JiraIssue
  notified : List Nat
  transitioned : Nat
  deriving DecidableEq

/-- Embedding of the loop body of `_process_batch` for one CI: update the
status, record a transition event (plus a deduped retirement-review Jira
task), then run the orphan check against the same dedup set. -/
def processCI (st : Settings) (now : Timestamp) (relIds : List Nat)
    (acc : LifeAcc) (ci : CIRec) : LifeAcc :=
  let days := inactiveDays now ci.last_seen_at
  let newStatus := targetStatus st days
  let ci2 := { ci with status := newStatus }
  let acc :=
    if newStatus ≠ ci.status then
      let acc := { acc with
        transitioned := acc.transitioned + 1,
        audit := acc.audit ++ [{ event_type := "ci.lifecycle.transitioned", ci_id := some ci.id }] }
      if newStatus = CIStatus.RETIREMENT_REVIEW ∧ ci.id ∉ acc.notified then
        { acc with notified := acc.notified ++ [ci.id],
                   jira_tasks := acc.jira_tasks ++
                     [{ summary := "CI retirement review", ci_id := some ci.id }] }
      else acc
    else acc
  let acc :=
    if ci.id ∉ relIds ∧ ci.id ∉ acc.notified then
      { acc with notified := acc.notified ++ [ci.id],
                 audit := acc.audit ++
                   [{ event_type := "governance.orphan.detected", ci_id := some ci.id }],
                 jira_tasks := acc.jira_tasks ++
                   [{ summary := "Orphan CI detected", ci_id := some ci.id }] }
    else acc
  { acc with cis := acc.cis ++ [ci2] }

/-- Every CI id mentioned by any relationship row (the up-front membership set
of `run_lifecycle`). -/
def relationshipCiIds (db : Db) : List Nat :=
  db.relationships.foldl (fun acc r => acc ++ [r.source_ci_id, r.target_ci_id]) []

/-- Embedding of `run_lifecycle`: one pass over all CIs ordered by id,
returning the updated state and the number of transitions. -/
def run_lifecycle (st : Settings) (db : Db) (now : Timestamp) : Db × Nat :=
  let relIds := relationshipCiIds db
  let ordered := db.cis.insertionSort (fun a b => a.id ≤ b.id)
  let acc := ordered.foldl (processCI st now relIds)
    { cis := [], audit := db.audit, jira_tasks := [], notified := [], transitioned := 0 }
  ({ db with cis := acc.cis, audit := acc.audit, jira := db.jira ++ acc.jira_tasks },
   acc.transitioned)

/-- Number of audit events of a given type for a given CI reference in a log. -/
def countEventsL (l : List AuditRec) (ty : String) (cid : Option Nat) : Nat :=
  (l.filter (fun e => e.event_type == ty && e.ci_id == cid)).length

/-- Number of audit events of a given type for a given CI reference. -/
def countEvents (db : Db) (ty : String) (cid : Option Nat) : Nat :=
  countEventsL db.audit ty cid

/-- Number of Jira issues with a given summary for a given CI reference in a list. -/
def countJiraL (l : List JiraIssue) (summary : String) (cid : Option Nat) : Nat :=
  (l.filter (fun i => i.summary == summary && i.ci_id == cid)).length

/-- Number of Jira issues with a given summary for a given CI reference. -/
def countJira (db : Db) (summary : String) (cid : Option Nat) : Nat :=
  countJiraL db.jira summary cid

/-! ## Sync-job queue failure path (`app/services/sync_jobs.py`) -/

inductive SyncJobStatus where
  | QUEUED
  | RUNNING
  | SUCCEEDED
  | FAILED
  deriving DecidableEq

structure SyncJobRec where
  id : Nat
  job_type : String
  status : SyncJobStatus
  attempt_count : Int
  max_attempts : Int
  next_run_at : Timestamp
  last_error : Option String
  completed_at : Option Timestamp
  deriving DecidableEq

/-- Embedding of `_retry_delay_seconds`: exponential backoff with a clamped
base and exponent. -/
def _retry_delay_seconds (st : Settings) (attempt_count : Int) : Int :=
  let base := max 1 st.sync_job_retry_base_seconds
  let exponent := max 0 (attempt_count - 1)
  base * 2 ^ exponent.toNat

/-- Result of `_complete_job_failure`: the updated job row, the audit events
appended in its transaction and the telemetry ticks recorded after commit. -/
structure JobFailureResult where
  job : SyncJobRec
  events : List AuditRec
  telemetry : List String
  deriving DecidableEq

/-- Embedding of `_complete_job_failure` (lines 273-314): below the attempt
budget the job is re-queued with backoff and a retry event; at the budget it
is terminally failed with a failure event and a `sync.job_failed` tick. -/
def _complete_job_failure (st : Settings) (job : SyncJobRec) (error_message : String)
    (now : Timestamp) : JobFailureResult :=
  let job1 := { job with last_error := some error_message }
  if job.attempt_count < job.max_attempts then
    { job := { job1 with status := SyncJobStatus.QUEUED,
                         next_run_at := now + _retry_delay_seconds st job.attempt_count },
      events := [{ event_type := "integration.job.retry_scheduled", ci_id := none }],
      telemetry := [] }
  else
    { job := { job1 with status := SyncJobStatus.FAILED, completed_at := some now },
      events := [{ event_type := "integration.job.failed", ci_id := none }],
      telemetry := ["sync.job_failed"] }

/-- Whether a CI transitions into RETIREMENT_REVIEW in this pass (the code
checks the transition first, then the review target). -/
def becomesReview (st : Settings) (now : Timestamp) (ci : CIRec) : Prop :=
  targetStatus st (inactiveDays now ci.last_seen_at) ≠ ci.status ∧
  targetStatus st (inactiveDays now ci.last_seen_at) = CIStatus.RETIREMENT_REVIEW

instance (st : Settings) (now : Timestamp) (ci : CIRec) :
    Decidable (becomesReview st now ci) := by unfold becomesReview; infer_instance

/-! ## Canonical JSON serialization (`json.dumps(..., sort_keys=True, separators=(",", ":"))`)

The serializer mirrors CPython's `json.dumps` with `ensure_ascii=True` on the
embedded `Json` fragment: integers print in decimal, strings escape `"`,
`\`, the control shorthands, and every non-printable or non-ASCII character
as `\uXXXX` (astral characters as a surrogate pair), and object keys are
sorted by code points (Python string comparison).  Lean strings contain
Unicode scalar values, so texts whose escapes denote lone surrogates fall
outside the embedding and are rejected by the parser. -/

/-- Code-point lexicographic comparison of character lists (Python `str` \<). -/
def charsLt : List Char → List Char → Bool
  | [], [] => false
  | [], _ :: _ => true
  | _ :: _, [] => false
  | a :: as, b :: bs =>
    if a.toNat < b.toNat then true
    else if b.toNat < a.toNat then false
    else charsLt as bs

/-- Python string comparison, by code points. -/
def strLtb (a b : String) : Bool := charsLt a.data b.data

/-- Decimal digits of a natural number, with structural fuel (one unit per
digit; any fuel at least the digit count of `n` gives `str(n)`). -/
def natToCharsAux : Nat → Nat → List Char
  | 0, n => [Char.ofNat (48 + n % 10)]
  | fuel + 1, n =>
      if n < 10 then [Char.ofNat (48 + n)]
      else natToCharsAux fuel (n / 10) ++ [Char.ofNat (48 + n % 10)]

/-- Decimal digits of a natural number (`str(n)` for `n : Nat`): `n` itself
always exceeds its digit count, so it serves as fuel. -/
def natToChars (n : Nat) : List Char := natToCharsAux n n

/-- Decimal rendering of a Python integer (`str(i)`). -/
def intToChars (i : Int) : List Char :=
  if i < 0 then '-' :: natToChars (-i).toNat else natToChars i.toNat

/-- Lowercase hex digit. -/
def hexDigit (n : Nat) : Char :=
  Char.ofNat (if n < 10 then 48 + n else 87 + n)

/-- Four lowercase hex digits of a value below `0x10000`. -/
def hex4 (n : Nat) : List Char :=
  [hexDigit (n / 4096 % 16), hexDigit (n / 256 % 16), hexDigit (n / 16 % 16), hexDigit (n % 16)]

/-- JSON escape of one character under `ensure_ascii=True`. -/
def escapeChar (c : Char) : List Char :=
  let n := c.toNat
  if c = '"' then ['\\', '"']
  else if c = '\\' then ['\\', '\\']
  else if c = '\n' then ['\\', 'n']
  else if c = '\r' then ['\\', 'r']
  else if c = '\t' then ['\\', 't']
  else if n = 8 then ['\\', 'b']
  else if n = 12 then ['\\', 'f']
  else if n < 32 then '\\' :: 'u' :: hex4 n
  else if n < 127 then [c]
  else if n < 65536 then '\\' :: 'u' :: hex4 n
  else
    '\\' :: 'u' :: hex4 (55296 + (n - 65536) / 1024)
      ++ '\\' :: 'u' :: hex4 (56320 + (n - 65536) % 1024)

/-- JSON escape of a character list. -/
def escapeChars : List Char → List Char
  | [] => []
  | c :: rest => escapeChar c ++ escapeChars rest

/-- Stable insertion of a key/value pair into a key-sorted object (used to
model `sorted(d.items())`). -/
def insertObj (k : String) (v : Json) : JsonObj → JsonObj
  | .nil => .cons k v .nil
  | .cons k2 v2 tl =>
      if strLtb k2 k then .cons k2 v2 (insertObj k v tl)
      else .cons k v (.cons k2 v2 tl)

/-- Stable insertion sort of object entries by key (Python `sorted` on keys). -/
def sortObj : JsonObj → JsonObj
  | .nil => .nil
  | .cons k v tl => insertObj k v (sortObj tl)

mutual
/-- Recursively sort every object's entries by key: the normal form whose
plain serialization equals `json.dumps(..., sort_keys=True)` of the value. -/
def deepSort : Json → Json
  | .null => .null
  | .bool b => .bool b
  | .num n => .num n
  | .str s => .str s
  | .arr xs => .arr (deepSortL xs)
  | .obj kvs => .obj (sortObj (deepSortO kvs))
/-- Recursive key sorting inside array elements. -/
def deepSortL : JsonList → JsonList
  | .nil => .nil
  | .cons x tl => .cons (deepSort x) (deepSortL tl)
/-- Recursive key sorting inside object values. -/
def deepSortO : JsonObj → JsonObj
  | .nil => .nil
  | .cons k v tl => .cons k (deepSort v) (deepSortO tl)
end

mutual
/-- Characters of the plain serialization of a value (object entries are
emitted in stored order; `dumps` sorts first via `deepSort`). -/
def dumpJson : Json → List Char
  | .null => "null".data
  | .bool true => "true".data
  | .bool false => "false".data
  | .num n => intToChars n
  | .str s => '"' :: (escapeChars s.data ++ ['"'])
  | .arr xs => '[' :: (dumpList xs ++ [']'])
  | .obj kvs => '\x7b' :: (dumpObj kvs ++ ['\x7d'])
/-- Comma-joined serialization of array elements. -/
def dumpList : JsonList → List Char
  | .nil => []
  | .cons x .nil => dumpJson x
  | .cons x (.cons y tl) => dumpJson x ++ ',' :: dumpList (.cons y tl)
/-- Comma-joined serialization of (already sorted) object entries with the
compact `":"` separator. -/
def dumpObj : JsonObj → List Char
  | .nil => []
  | .cons k v .nil => '"' :: (escapeChars k.data ++ '"' :: ':' :: dumpJson v)
  | .cons k v (.cons k2 v2 tl) =>
      ('"' :: (escapeChars k.data ++ '"' :: ':' :: dumpJson v))
        ++ ',' :: dumpObj (.cons k2 v2 tl)
end

/-- Canonical serialization as a string (`_normalize_json_bytes` before UTF-8
encoding): serialize with every object's keys sorted and compact separators. -/
def dumps (v : Json) : String := String.mk (dumpJson (deepSort v))

/-! ## JSON parsing (`json.loads` on the embedded fragment)

A strict recursive-descent parser over the character list, with an explicit
fuel argument bounded by the input length.  Numbers are restricted to
integers and follow the JSON number token (`0`, or a nonzero digit followed
by a digit run: after a leading `0` no further digit is consumed, so `01`
fails as trailing data exactly as in Python), raw control characters inside
strings are rejected (`strict=True`)
and surrogate-pair escapes are combined; escapes denoting lone surrogates are
rejected (they would produce a non-scalar Python string, which a Lean string
cannot represent). -/

/-- JSON whitespace accepted between tokens. -/
def isJsonWs (c : Char) : Bool :=
  c = ' ' || c = '\t' || c = '\n' || c = '\r'

/-- Skip insignificant whitespace. -/
def skipWs : List Char → List Char
  | [] => []
  | c :: rest => if isJsonWs c then skipWs rest else c :: rest

/-- Value of one hex digit (both cases accepted, as in Python). -/
def parseHexDigit (c : Char) : Option Nat :=
  let n := c.toNat
  if 48 ≤ n ∧ n ≤ 57 then some (n - 48)
  else if 97 ≤ n ∧ n ≤ 102 then some (n - 87)
  else if 65 ≤ n ∧ n ≤ 70 then some (n - 55)
  else none

/-- Parse exactly four hex digits. -/
def parseHex4 : List Char → Option (Nat × List Char)
  | c1 :: c2 :: c3 :: c4 :: rest =>
      match parseHexDigit c1, parseHexDigit c2, parseHexDigit c3, parseHexDigit c4 with
      | some d1, some d2, some d3, some d4 =>
          some (d1 * 4096 + d2 * 256 + d3 * 16 + d4, rest)
      | _, _, _, _ => none
  | _ => none

/-- Decode one escape sequence after the backslash, returning the decoded
character and the remaining input.  A `\uXXXX` escape in the high-surrogate
range must be followed by a low-surrogate escape (the pair combines into one
astral character); escapes denoting lone surrogates are rejected. -/
def parseEscape : List Char → Option (Char × List Char)
  | '"' :: r => some ('"', r)
  | '\\' :: r => some ('\\', r)
  | '/' :: r => some ('/', r)
  | 'b' :: r => some (Char.ofNat 8, r)
  | 'f' :: r => some (Char.ofNat 12, r)
  | 'n' :: r => some ('\n', r)
  | 'r' :: r => some ('\r', r)
  | 't' :: r => some ('\t', r)
  | 'u' :: c1 :: c2 :: c3 :: c4 :: r =>
      match parseHex4 (c1 :: c2 :: c3 :: [c4]) with
      | none => none
      | some (n, _) =>
        if 55296 ≤ n ∧ n ≤ 56319 then
          match r with
          | b1 :: b2 :: d1 :: d2 :: d3 :: d4 :: r2 =>
            if b1 = '\\' ∧ b2 = 'u' then
              match parseHex4 (d1 :: d2 :: d3 :: [d4]) with
              | none => none
              | some (m, _) =>
                if 56320 ≤ m ∧ m ≤ 57343 then
                  some (Char.ofNat (65536 + (n - 55296) * 1024 + (m - 56320)), r2)
                else none
            else none
          | _ => none
        else if 56320 ≤ n ∧ n ≤ 57343 then none
        else some (Char.ofNat n, r)
  | _ => none

/-- Parse the body of a string literal after the opening quote, returning the
decoded characters and the input after the closing quote.  Fuel-bounded (one
unit per decoded character; callers pass the input length, which more than
suffices since every character consumes input). -/
def parseStringBody : Nat → List Char → Option (List Char × List Char)
  | 0, _ => none
  | fuel + 1, l =>
    match l with
    | [] => none
    | c :: rest =>
      if c = '"' then some ([], rest)
      else if c = '\\' then
        match parseEscape rest with
        | none => none
        | some (ch, rest2) =>
          match parseStringBody fuel rest2 with
          | none => none
          | some (s, r) => some (ch :: s, r)
      else if c.toNat < 32 then none
      else
        match parseStringBody fuel rest with
        | none => none
        | some (s, r) => some (c :: s, r)

/-- Greedy run of decimal digits. -/
def parseDigits : List Char → Nat → Nat × List Char
  | [], acc => (acc, [])
  | c :: rest, acc =>
      if c.isDigit then parseDigits rest (acc * 10 + (c.toNat - 48))
      else (acc, c :: rest)

/-- Python dict insertion: a duplicate key keeps its position and takes the
new value, a fresh key is appended. -/
def objInsert (k : String) (v : Json) : JsonObj → JsonObj
  | .nil => .cons k v .nil
  | .cons k2 v2 tl => if k = k2 then .cons k2 v tl else .cons k2 v2 (objInsert k v tl)

mutual
/-- Parse one JSON value (fuel-bounded recursive descent). -/
def parseVal : Nat → List Char → Option (Json × List Char)
  | 0, _ => none
  | fuel + 1, l =>
    match skipWs l with
    | [] => none
    | c :: rest =>
      if c = 'n' then
        match rest with
        | 'u' :: 'l' :: 'l' :: r => some (.null, r)
        | _ => none
      else if c = 't' then
        match rest with
        | 'r' :: 'u' :: 'e' :: r => some (.bool true, r)
        | _ => none
      else if c = 'f' then
        match rest with
        | 'a' :: 'l' :: 's' :: 'e' :: r => some (.bool false, r)
        | _ => none
      else if c = '"' then
        (parseStringBody (rest.length + 1) rest).map (fun p => (.str (String.mk p.1), p.2))
      else if c = '-' then
        match rest with
        | d :: r2 =>
            if d.isDigit then
              if d = '0' then some (.num (-(0 : Int)), r2)
              else
                let p := parseDigits (d :: r2) 0
                some (.num (-(p.1 : Int)), p.2)
            else none
        | [] => none
      else if c.isDigit then
        if c = '0' then some (.num 0, rest)
        else
          let p := parseDigits (c :: rest) 0
          some (.num (p.1 : Int), p.2)
      else if c = '[' then
        match skipWs rest with
        | c2 :: r2 =>
            if c2 = ']' then some (.arr .nil, r2)
            else parseElems fuel (c2 :: r2)
        | [] => none
      else if c = '\x7b' then
        match skipWs rest with
        | c2 :: r2 =>
            if c2 = '\x7d' then some (.obj .nil, r2)
            else parseMembers fuel (c2 :: r2) JsonObj.nil
        | [] => none
      else none
/-- Parse one or more comma-separated array elements and the closing bracket. -/
def parseElems : Nat → List Char → Option (Json × List Char)
  | 0, _ => none
  | fuel + 1, l =>
    match parseVal fuel l with
    | none => none
    | some (v, r) =>
      match skipWs r with
      | ',' :: r2 =>
          match parseElems fuel r2 with
          | some (Json.arr tl, r3) => some (.arr (.cons v tl), r3)
          | _ => none
      | ']' :: r2 => some (.arr (.cons v .nil), r2)
      | _ => none
/-- Parse one or more comma-separated object members and the closing brace,
accumulating with Python dict insertion (duplicate keys keep the first
position and the last value). -/
def parseMembers : Nat → List Char → JsonObj → Option (Json × List Char)
  | 0, _, _ => none
  | fuel + 1, l, acc =>
    match skipWs l with
    | c :: rest =>
      if c = '"' then
        match parseStringBody (rest.length + 1) rest with
        | none => none
        | some (ks, r1) =>
          match skipWs r1 with
          | ':' :: r2 =>
            match parseVal fuel r2 with
            | none => none
            | some (v, r3) =>
              let acc2 := objInsert (String.mk ks) v acc
              match skipWs r3 with
              | ',' :: r4 => parseMembers fuel r4 acc2
              | c5 :: r5 => if c5 = '\x7d' then some (.obj acc2, r5) else none
              | [] => none
          | _ => none
      else none
    | [] => none
end

/-- Embedding of `json.loads` on the integer fragment: parse one value and
require only whitespace to remain (`raw_decode` plus the end check). -/
def loads (s : String) : Option Json :=
  match parseVal (s.length + 1) s.data with
  | some (v, rest) => if skipWs rest = [] then some v else none
  | none => none

/-! ## SHA-256 (`hashlib.sha256(...).hexdigest()`)

A byte is a `Nat` below 256; 32-bit words are `Nat`s reduced `% 2^32` after
every arithmetic step, exactly as the spec of SHA-256 prescribes. -/

/-- UTF-8 encoding of one Unicode scalar value. -/
def utf8EncodeChar (n : Nat) : List Nat :=
  if n < 128 then [n]
  else if n < 2048 then [192 + n / 64, 128 + n % 64]
  else if n < 65536 then [224 + n / 4096, 128 + n / 64 % 64, 128 + n % 64]
  else [240 + n / 262144, 128 + n / 4096 % 64, 128 + n / 64 % 64, 128 + n % 64]

/-- UTF-8 bytes of a string (`str.encode("utf-8")`). -/
def utf8Bytes (s : String) : List Nat :=
  s.data.foldr (fun c acc => utf8EncodeChar c.toNat ++ acc) []

def shaH0 : List Nat :=
  [1779033703, 3144134277, 1013904242, 2773480762,
   1359893119, 2600822924, 528734635, 1541459225]

def shaK : List Nat :=
  [1116352408, 1899447441, 3049323471, 3921009573, 961987163, 1508970993, 2453635748, 2870763221,
   3624381080, 310598401, 607225278, 1426881987, 1925078388, 2162078206, 2614888103, 3248222580,
   3835390401, 4022224774, 264347078, 604807628, 770255983, 1249150122, 1555081692, 1996064986,
   2554220882, 2821834349, 2952996808, 3210313671, 3336571891, 3584528711, 113926993, 338241895,
   666307205, 773529912, 1294757372, 1396182291, 1695183700, 1986661051, 2177026350, 2456956037,
   2730485921, 2820302411, 3259730800, 3345764771, 3516065817, 3600352804, 4094571909, 275423344,
   430227734, 506948616, 659060556, 883997877, 958139571, 1322822218, 1537002063, 1747873779,
   1955562222, 2024104815, 2227730452, 2361852424, 2428436474, 2756734187, 3204031479, 3329325298]

/-- Right rotation of a 32-bit word. -/
def shaRotr (x n : Nat) : Nat := x / 2 ^ n + x % 2 ^ n * 2 ^ (32 - n)

/-- Big-endian 8-byte length field of the padding. -/
def shaLenBytes (bitLen : Nat) : List Nat :=
  [bitLen / 2 ^ 56 % 256, bitLen / 2 ^ 48 % 256, bitLen / 2 ^ 40 % 256, bitLen / 2 ^ 32 % 256,
   bitLen / 2 ^ 24 % 256, bitLen / 2 ^ 16 % 256, bitLen / 2 ^ 8 % 256, bitLen % 256]

/-- SHA-256 padding: `0x80`, zeros to 56 mod 64, then the bit length. -/
def shaPad (msg : List Nat) : List Nat :=
  let z := (64 + 55 - msg.length % 64) % 64
  msg ++ 128 :: (List.replicate z 0 ++ shaLenBytes (msg.length * 8))

/-- Take a 64-byte chunk off the front. -/
def splitChunk : Nat → List Nat → List Nat × List Nat
  | 0, l => ([], l)
  | _, [] => ([], [])
  | k + 1, b :: rest =>
      let p := splitChunk k rest
      (b :: p.1, p.2)

/-- Split a byte list into 64-byte chunks (structural fuel: one unit per
chunk, so the list length is more than enough). -/
def toChunksAux : Nat → List Nat → List (List Nat)
  | 0, _ => []
  | fuel + 1, l =>
      match l with
      | [] => []
      | b :: rest =>
          let p := splitChunk 64 (b :: rest)
          p.1 :: toChunksAux fuel p.2

/-- Split a byte list into 64-byte chunks. -/
def toChunks (l : List Nat) : List (List Nat) := toChunksAux l.length l

/-- Big-endian 32-bit words of one chunk. -/
def wordsOfChunk : List Nat → List Nat
  | b1 :: b2 :: b3 :: b4 :: rest =>
      (b1 * 16777216 + b2 * 65536 + b3 * 256 + b4) :: wordsOfChunk rest
  | _ => []

/-- Message-schedule extension from 16 to 64 words. -/
def shaSchedule (ws : List Nat) : List Nat :=
  (List.range 48).foldl
    (fun w _ =>
      let n := w.length
      let w15 := w.getD (n - 15) 0
      let w2 := w.getD (n - 2) 0
      let s0 := Nat.xor (shaRotr w15 7) (Nat.xor (shaRotr w15 18) (w15 / 2 ^ 3))
      let s1 := Nat.xor (shaRotr w2 17) (Nat.xor (shaRotr w2 19) (w2 / 2 ^ 10))
      w ++ [(w.getD (n - 16) 0 + s0 + w.getD (n - 7) 0 + s1) % 2 ^ 32])
    ws

/-- One compression round. -/
def shaRound (st : List Nat) (wk : Nat × Nat) : List Nat :=
  let a := st.getD 0 0
  let b := st.getD 1 0
  let c := st.getD 2 0
  let d := st.getD 3 0
  let e := st.getD 4 0
  let f := st.getD 5 0
  let g := st.getD 6 0
  let h := st.getD 7 0
  let S1 := Nat.xor (shaRotr e 6) (Nat.xor (shaRotr e 11) (shaRotr e 25))
  let ch := Nat.xor (Nat.land e f) (Nat.land (4294967295 - e) g)
  let t1 := (h + S1 + ch + wk.2 + wk.1) % 2 ^ 32
  let S0 := Nat.xor (shaRotr a 2) (Nat.xor (shaRotr a 13) (shaRotr a 22))
  let mj := Nat.xor (Nat.land a b) (Nat.xor (Nat.land a c) (Nat.land b c))
  let t2 := (S0 + mj) % 2 ^ 32
  [(t1 + t2) % 2 ^ 32, a, b, c, (d + t1) % 2 ^ 32, e, f, g]

/-- Compress one 64-byte chunk into the running hash state. -/
def shaCompress (hs : List Nat) (chunk : List Nat) : List Nat :=
  let w := shaSchedule (wordsOfChunk chunk)
  let fin := (w.zip shaK).foldl shaRound hs
  (hs.zip fin).map (fun p => (p.1 + p.2) % 2 ^ 32)

/-- Eight lowercase hex digits of one 32-bit word. -/
def hex8 (w : Nat) : List Char := hex4 (w / 65536) ++ hex4 (w % 65536)

/-- SHA-256 hex digest of a byte list. -/
def sha256hexOfBytes (msg : List Nat) : String :=
  String.mk (((toChunks (shaPad msg)).foldl shaCompress shaH0).foldr
    (fun w acc => hex8 w ++ acc) [])

/-! ## Canonical payload hash (`app/core/security.py`)

The body is modelled as the decoded text: a byte sequence that is not valid
UTF-8 cannot be represented, but it takes the same raw-bytes fallback branch
as undecodable or unparsable text does in the code.  `content_type.lower()`
is ASCII lowering (media types are ASCII). -/

/-- Does the pattern occur at the head of the text? -/
def charsStartsWith : List Char → List Char → Bool
  | [], _ => true
  | _ :: _, [] => false
  | p :: ps, t :: ts => p == t && charsStartsWith ps ts

/-- Substring containment (Python `pat in text`). -/
def containsSub : List Char → List Char → Bool
  | [], pat => pat.isEmpty
  | c :: rest, pat => charsStartsWith pat (c :: rest) || containsSub rest pat

/-- ASCII lowering of one character (`str.lower()` on media types). -/
def asciiLower (c : Char) : Char :=
  if 65 ≤ c.toNat ∧ c.toNat ≤ 90 then Char.ofNat (c.toNat + 32) else c

/-- The exact byte text fed to SHA-256 by `canonical_payload_hash`: for a
non-empty body declared `application/json` that parses, the canonical
re-serialization; otherwise the raw body. -/
def canonicalPayload (body : String) (content_type : Option String) : String :=
  let ctv := (content_type.getD "").data.map asciiLower
  if body ≠ "" ∧ containsSub ctv "application/json".data then
    match loads body with
    | some v => dumps v
    | none => body
  else body

/-- Embedding of `canonical_payload_hash`. -/
def canonical_payload_hash (body : String) (content_type : Option String) : String :=
  sha256hexOfBytes (utf8Bytes (canonicalPayload body content_type))

/-- Embedding of `canonical_payload_hash_from_object` (used when an approval
is created): `None` hashes the empty byte string, any other payload hashes
its canonical serialization. -/
def canonical_payload_hash_from_object (payload : Option Json) : String :=
  match payload with
  | none => sha256hexOfBytes []
  | some v => sha256hexOfBytes (utf8Bytes (dumps v))

/-! ## Canonical-form predicates for the round-trip development -/

/-- Numeric value of a run of decimal digit characters. -/
def charsVal (ds : List Char) : Nat :=
  ds.foldl (fun a c => a * 10 + (c.toNat - 48)) 0

/-- A list whose head would not extend a greedy digit run. -/
def headNotDigit : List Char → Prop
  | [] => True
  | c :: _ => c.isDigit = false

instance (l : List Char) : Decidable (headNotDigit l) := by
  unfold headNotDigit; cases l <;> infer_instance

/-- Is the key absent from the object? -/
def keyAbsent (k : String) : JsonObj → Bool
  | .nil => true
  | .cons k2 _ tl => !(k == k2) && keyAbsent k tl

/-- Are consecutive keys weakly ascending (Python-sorted order)? -/
def objSortedLe : JsonObj → Bool
  | .nil => true
  | .cons _ _ .nil => true
  | .cons k1 _ (.cons k2 v2 tl) => !(strLtb k2 k1) && objSortedLe (.cons k2 v2 tl)

mutual
/-- No object in the value has a duplicate key (Python dicts cannot). -/
def nodupV : Json → Bool
  | .null => true
  | .bool _ => true
  | .num _ => true
  | .str _ => true
  | .arr xs => nodupL xs
  | .obj kvs => nodupO kvs
def nodupL : JsonList → Bool
  | .nil => true
  | .cons x tl => nodupV x && nodupL tl
def nodupO : JsonObj → Bool
  | .nil => true
  | .cons k v tl => keyAbsent k tl && nodupV v && nodupO tl
end

mutual
/-- Canonical form: every object's keys are sorted and duplicate-free, at all
levels.  `deepSort` maps duplicate-free values into this form, and the parser
followed by `deepSort` always lands in it. -/
def canonV : Json → Bool
  | .null => true
  | .bool _ => true
  | .num _ => true
  | .str _ => true
  | .arr xs => canonL xs
  | .obj kvs => objSortedLe kvs && canonO kvs
def canonL : JsonList → Bool
  | .nil => true
  | .cons x tl => canonV x && canonL tl
def canonO : JsonObj → Bool
  | .nil => true
  | .cons _ v tl => canonV v && canonO tl
end

/-- Concatenation of object entry lists. -/
def oconc : JsonObj → JsonObj → JsonObj
  | .nil, o => o
  | .cons k v tl, o => .cons k v (oconc tl o)

/-- Left fold of Python dict insertions, as performed by the member parser. -/
def objAppend : JsonObj → JsonObj → JsonObj
  | acc, .nil => acc
  | acc, .cons k v tl => objAppend (objInsert k v acc) tl

/-- Is every key of the second object absent from the first? -/
def keysAbsent : JsonObj → JsonObj → Bool
  | _, .nil => true
  | acc, .cons k _ tl => keyAbsent k acc && keysAbsent acc tl

mutual
/-- Depth of nested fuel-consuming parser calls needed to re-parse a value:
the recursion depth bound used to relate the parser fuel to the input
length. -/
def depthV : Json → Nat
  | .null => 1
  | .bool _ => 1
  | .num _ => 1
  | .str _ => 1
  | .arr xs => 1 + depthL xs
  | .obj kvs => 1 + depthO kvs
/-- Call depth needed by the element parser. -/
def depthL : JsonList → Nat
  | .nil => 0
  | .cons x tl => 1 + max (depthV x) (depthL tl)
/-- Call depth needed by the member parser. -/
def depthO : JsonObj → Nat
  | .nil => 0
  | .cons _ v tl => 1 + max (depthV v) (depthO tl)
end

/-! ## Change approvals (`models.ChangeApproval`, `routers/approvals.py`,
`core/security.py`) -/

/-- `ApprovalStatus` enum. -/
inductive ApprovalStatus where
  | PENDING
  | APPROVED
  | REJECTED
  | CONSUMED
deriving DecidableEq

/-- A `ChangeApproval` row (columns relevant to the approval workflow). -/
structure ApprovalRec where
  id : Nat
  method : String
  request_path : String
  payload_hash : String
  requested_by : String
  status : ApprovalStatus
  decided_by : Option String
  decision_note : Option String
  expires_at : Timestamp
  decided_at : Option Timestamp
  consumed_at : Option Timestamp
deriving DecidableEq

/-- `db.get(ChangeApproval, approval_id)`. -/
def findApproval (l : List ApprovalRec) (id : Nat) : Option ApprovalRec :=
  l.find? (fun a => a.id == id)

/-- In-place update of the row `db.get` returns (the first with this primary
key). -/
def updApproval : List ApprovalRec → Nat → (ApprovalRec → ApprovalRec) → List ApprovalRec
  | [], _, _ => []
  | a :: tl, id, f => if a.id == id then f a :: tl else a :: updApproval tl id f

/-- The `expire_pending_approvals` UPDATE applied to one row: a PENDING row
past its expiry becomes REJECTED, decided by `system:approval-cleaner`. -/
def expireApproval (now : Timestamp) (a : ApprovalRec) : ApprovalRec :=
  if a.status = ApprovalStatus.PENDING ∧ a.expires_at ≤ now then
    { a with status := .REJECTED, decided_by := some "system:approval-cleaner",
             decision_note := some "expired", decided_at := some now }
  else a

/-- `expire_pending_approvals`: sweep every PENDING row past expiry. -/
def expire_pending_approvals (now : Timestamp) (l : List ApprovalRec) : List ApprovalRec :=
  l.map (expireApproval now)

/-- Approvals store plus its audit trail (event types only). -/
structure ApprovalsDb where
  approvals : List ApprovalRec
  events : List String
deriving DecidableEq

/-- How many rows the expiry sweep touches (`rowcount` of the UPDATE). -/
def countExpiredPending (now : Timestamp) (l : List ApprovalRec) : Nat :=
  (l.filter (fun a => decide (a.status = ApprovalStatus.PENDING ∧ a.expires_at ≤ now))).length

/-- The sweep-and-commit prologue every approvals endpoint runs first. -/
def sweepApprovals (db : ApprovalsDb) (now : Timestamp) : ApprovalsDb :=
  { approvals := expire_pending_approvals now db.approvals,
    events := if 0 < countExpiredPending now db.approvals
              then db.events ++ ["approval.expired"] else db.events }

/-- `POST /approvals`: create a PENDING approval owned by the caller. -/
def create_approval (db : ApprovalsDb) (newId : Nat) (method path payload_hash : String)
    (reason : Option String) (principal : String) (expires_at now : Timestamp) :
    ApprovalsDb × Option Nat :=
  let db1 := sweepApprovals db now
  ({ approvals := db1.approvals ++
       [{ id := newId, method := method, request_path := path,
          payload_hash := payload_hash, requested_by := principal,
          status := .PENDING, decided_by := none, decision_note := reason,
          expires_at := expires_at, decided_at := none, consumed_at := none }],
     events := db1.events ++ ["approval.requested"] }, none)

/-- `POST /approvals/:id/approve`: the sweep commits first; then the decision
is validated and, on success, recorded and committed.  The second component
is the HTTP error status, `none` on success. -/
def approve_approval (db : ApprovalsDb) (approval_id : Nat) (note : Option String)
    (approver : String) (now : Timestamp) : ApprovalsDb × Option Nat :=
  let db1 := sweepApprovals db now
  match findApproval db1.approvals approval_id with
  | none => (db1, some 404)
  | some a =>
    if a.status ≠ ApprovalStatus.PENDING then (db1, some 409)
    else if a.expires_at ≤ now then (db1, some 409)
    else if a.requested_by = approver then (db1, some 409)
    else
      ({ approvals := updApproval db1.approvals approval_id (fun b =>
           { b with status := .APPROVED, decided_by := some approver,
                    decision_note := note, decided_at := some now }),
         events := db1.events ++ ["approval.approved"] }, none)

/-- `POST /approvals/:id/reject` (no expiry re-check, unlike approve). -/
def reject_approval (db : ApprovalsDb) (approval_id : Nat) (note : Option String)
    (approver : String) (now : Timestamp) : ApprovalsDb × Option Nat :=
  let db1 := sweepApprovals db now
  match findApproval db1.approvals approval_id with
  | none => (db1, some 404)
  | some a =>
    if a.status ≠ ApprovalStatus.PENDING then (db1, some 409)
    else if a.requested_by = approver then (db1, some 409)
    else
      ({ approvals := updApproval db1.approvals approval_id (fun b =>
           { b with status := .REJECTED, decided_by := some approver,
                    decision_note := note, decided_at := some now }),
         events := db1.events ++ ["approval.rejected"] }, none)

/-- Outcome of the maker-checker gate (`_enforce_maker_checker`): pass with
the flushed-but-uncommitted session state, fail with an HTTP status, or not
applicable. -/
inductive GateResult where
  | passed : List ApprovalRec → GateResult
  | failed : Nat → GateResult
  | skipped : GateResult
deriving DecidableEq

/-- `_enforce_maker_checker`: validate the `x-cmdb-approval-id` header against
the stored approval and, on success, flush it to CONSUMED in the shared
session.  `approval_id = none` models a missing/blank header; `method` is the
request method uppercased and `req_path` the canonical request path. -/
def enforce_maker_checker (enabled bind_requester : Bool) (path : String)
    (approval_id : Option Nat) (approvals : List ApprovalRec) (now : Timestamp)
    (principal method req_path body : String) (content_type : Option String) : GateResult :=
  if ¬ enabled then .skipped
  else if charsStartsWith "/approvals".data path.data then .skipped
  else match approval_id with
  | none => .failed 428
  | some aid =>
    match findApproval approvals aid with
    | none => .failed 404
    | some a =>
      if a.status ≠ ApprovalStatus.APPROVED then .failed 409
      else if a.expires_at ≤ now then .failed 409
      else if bind_requester ∧ a.requested_by ≠ principal then .failed 403
      else if a.method ≠ method then .failed 409
      else if a.request_path ≠ req_path then .failed 409
      else if a.payload_hash ≠ canonical_payload_hash body content_type then .failed 409
      else .passed (updApproval approvals aid (fun b =>
        { b with status := .CONSUMED, consumed_at := some now }))

/-- Whether the mutating handler's transaction commits or raises. -/
inductive HandlerOutcome where
  | committed
  | failed
deriving DecidableEq

/-- One gated mutating request over the approvals table.  The gate and the
handler share one session (`Depends(get_db)`); the handler's `db.commit()`
persists the gate's CONSUMED flush, while an exception ends the request and
`get_db` closes the session without committing, discarding the flush.  The
second component is the HTTP error status, `none` on success. -/
def run_gated_mutation (enabled bind_requester : Bool) (path : String)
    (approval_id : Option Nat) (committed : List ApprovalRec) (now : Timestamp)
    (principal method req_path body : String) (content_type : Option String)
    (outcome : HandlerOutcome) : List ApprovalRec × Option Nat :=
  match enforce_maker_checker enabled bind_requester path approval_id committed now
      principal method req_path body content_type with
  | .failed code => (committed, some code)
  | .skipped =>
      match outcome with
      | .committed => (committed, none)
      | .failed => (committed, some 500)
  | .passed sess =>
      match outcome with
      | .committed => (sess, none)
      | .failed => (committed, some 500)

/-- Principals minted by authentication: `service:<fingerprint>` for static
or mTLS tokens, `oidc:<subject>` for OIDC bearers. -/
def isPrincipal (s : String) : Bool :=
  charsStartsWith "service:".data s.data || charsStartsWith "oidc:".data s.data

/-- One operation on the approvals store: the approvals endpoints (each
running the expiry sweep first) and the maker-checker consumption of an
APPROVED row by a committing gated request. -/
inductive ApprovalOp where
  | create (newId : Nat) (method path payload_hash : String) (reason : Option String)
      (principal : String) (expires_at now : Timestamp)
  | approve (id : Nat) (note : Option String) (approver : String) (now : Timestamp)
  | reject (id : Nat) (note : Option String) (approver : String) (now : Timestamp)
  | sweep (now : Timestamp)
  | consume (path : String) (id : Nat) (principal method req_path body : String)
      (content_type : Option String) (outcome : HandlerOutcome) (now : Timestamp)

/-- Apply one operation to the approvals store. -/
def applyApprovalOp (db : ApprovalsDb) : ApprovalOp → ApprovalsDb
  | .create newId method path payload_hash reason principal expires_at now =>
      (create_approval db newId method path payload_hash reason principal expires_at now).1
  | .approve id note approver now => (approve_approval db id note approver now).1
  | .reject id note approver now => (reject_approval db id note approver now).1
  | .sweep now => sweepApprovals db now
  | .consume path id principal method req_path body content_type outcome now =>
      { db with approvals := (run_gated_mutation true true path (some id) db.approvals now
          principal method req_path body content_type outcome).1 }

/-- Run a sequence of approval operations. -/
def runApprovalOps (db : ApprovalsDb) (ops : List ApprovalOp) : ApprovalsDb :=
  ops.foldl applyApprovalOp db

/-- Does every create in the list carry an authenticated principal? -/
def opsPrincipals : List ApprovalOp → Bool
  | [] => true
  | .create _ _ _ _ _ principal _ _ :: rest => isPrincipal principal && opsPrincipals rest
  | _ :: rest => opsPrincipals rest

/-- The per-row shape maintained by the workflow: the requester is an
authenticated principal and any decider differs from it. -/
def approvalRowOk (a : ApprovalRec) : Bool :=
  isPrincipal a.requested_by &&
    match a.decided_by with
    | none => true
    | some d => !(d == a.requested_by)

/-- All rows are well-shaped. -/
def approvalsOk (l : List ApprovalRec) : Bool := l.all approvalRowOk

/-! ## NetBox import watermarks (`services/integrations.py`) -/

/-- One paginated NetBox API object (only `last_updated` matters for the
watermark; it is `None` when the field is absent or unparsable). -/
structure NbItem where
  last_updated : Option Timestamp
deriving DecidableEq

/-- One NetBox API page: its `results` and whether `next` is a nonempty URL. -/
structure NbPage where
  results : List NbItem
  has_next : Bool
deriving DecidableEq

/-- Track the maximum observed `last_updated` across collected items. -/
def nbMaxUpd (m : Option Timestamp) (i : NbItem) : Option Timestamp :=
  match i.last_updated with
  | none => m
  | some t =>
    match m with
    | none => some t
    | some m0 => if m0 < t then some t else some m0

/-- The inner `for result in results` loop of `_netbox_collect`: append items
and fold the maximum until `max_items` is reached. -/
def nbConsume (max_items : Nat) : List NbItem → List NbItem → Option Timestamp →
    List NbItem × Option Timestamp
  | [], acc, m => (acc, m)
  | r :: rs, acc, m =>
      let acc2 := acc ++ [r]
      let m2 := nbMaxUpd m r
      if max_items ≤ acc2.length then (acc2, m2) else nbConsume max_items rs acc2 m2

/-- The page loop of `_netbox_collect` over the chain of pages the API serves:
returns the items, the `exhausted` flag and the maximum `last_updated`.
`exhausted` is cleared exactly when a further page remained while the item
limit was already reached. -/
def netboxCollectAux (max_items : Nat) : List NbPage → List NbItem → Option Timestamp →
    List NbItem × Bool × Option Timestamp
  | [], acc, m => (acc, true, m)
  | p :: ps, acc, m =>
      if max_items ≤ acc.length then (acc, true, m)
      else
        let r := nbConsume max_items p.results acc m
        if p.has_next ∧ max_items ≤ r.1.length then (r.1, false, r.2)
        else if p.has_next then netboxCollectAux max_items ps r.1 r.2
        else (r.1, true, r.2)

/-- `_netbox_collect endpoint max_items`, with the server's page chain as
input. -/
def netbox_collect (max_items : Nat) (pages : List NbPage) :
    List NbItem × Bool × Option Timestamp :=
  netboxCollectAux max_items pages [] none

def NETBOX_DEVICE_WATERMARK_KEY : String := "netbox.import.devices.last_updated"

def NETBOX_VM_WATERMARK_KEY : String := "netbox.import.vms.last_updated"

/-- `_read_sync_state`. -/
def readSync (kv : List (String × String)) (key : String) : Option String :=
  (kv.find? (fun p => p.1 == key)).map (fun p => p.2)

/-- `_write_sync_state`: update in place or append. -/
def writeSync (kv : List (String × String)) (key value : String) : List (String × String) :=
  if (kv.find? (fun p => p.1 == key)).isSome then
    kv.map (fun p => if p.1 == key then (p.1, value) else p)
  else kv ++ [(key, value)]

/-- The per-endpoint summary `fetch_netbox_cis_incremental` reports:
`(exhausted, max_last_updated as ISO text)`.  `isoOf` stands for
`_to_iso_datetime` on the maximum datetime. -/
def fetch_netbox_incremental (limit : Nat) (devPages vmPages : List NbPage)
    (isoOf : Timestamp → String) : (Bool × Option String) × (Bool × Option String) :=
  if limit < 1 then ((true, none), (true, none))
  else
    let half := max 1 (limit / 2)
    let d := netbox_collect half devPages
    let v := netbox_collect (max 1 (limit - half)) vmPages
    ((d.2.1, d.2.2.map isoOf), (v.2.1, v.2.2.map isoOf))

/-- The sync-state effect of `run_netbox_import`: each endpoint's watermark is
written exactly when the run is non-dry-run and incremental, the endpoint was
exhausted, and a nonempty maximum `last_updated` string was observed.  (The
reconciliation loop over the fetched payloads writes only CI tables — it is
`reconcile_ci_payload` above — and never touches `SyncState`.) -/
def run_netbox_import_sync (kv : List (String × String)) (limit : Nat)
    (dry_run incremental : Bool) (devPages vmPages : List NbPage)
    (isoOf : Timestamp → String) : List (String × String) :=
  let batch := fetch_netbox_incremental limit devPages vmPages isoOf
  if ¬ dry_run ∧ incremental then
    let kv1 :=
      match batch.1.2 with
      | some s => if batch.1.1 ∧ s ≠ "" then writeSync kv NETBOX_DEVICE_WATERMARK_KEY s else kv
      | none => kv
    match batch.2.2 with
    | some s => if batch.2.1 ∧ s ≠ "" then writeSync kv1 NETBOX_VM_WATERMARK_KEY s else kv1
    | none => kv1
  else kv

/-! ## Concrete states used to check claims on explicit inputs -/

/-- An APPROVED approval bound to a gated `POST /cis` request with empty
body. -/
def exGateApproval : ApprovalRec :=
  { id := 1, method := "POST", request_path := "/cis",
    payload_hash := canonical_payload_hash "" none, requested_by := "service:ops",
    status := .APPROVED, decided_by := some "service:approver", decision_note := none,
    expires_at := 100, decided_at := some 1, consumed_at := none }

/-- A PENDING approval owned by `service:ops`, already past its expiry. -/
def exSelfApproval : ApprovalRec :=
  { id := 0, method := "POST", request_path := "/cis", payload_hash := "h",
    requested_by := "service:ops", status := .PENDING, decided_by := none,
    decision_note := none, expires_at := 10, decided_at := none, consumed_at := none }

/-- Two device pages is one too many under a device budget of 1. -/
def exDevPages : List NbPage := [{ results := [{ last_updated := some 5 }], has_next := false }]

/-- A VM page chain cut short by the limit. -/
def exVmPages : List NbPage :=
  [{ results := [{ last_updated := some 7 }], has_next := true },
   { results := [{ last_updated := some 9 }], has_next := false }]

/-- The `(hostname, web-01)` identity of the precedence scenario. -/
def exIdent : IdentityPayload := { scheme := "hostname", value := "web-01" }

/-- First ingest: from `azure`, explicit `last_seen_at` of 200. -/
def exPayloadOld : CIPayload :=
  { name := "old", ci_type := "vm", owner := some "x", attributes := JsonObj.nil,
    identities := [exIdent], last_seen_at := some (PyDateTime.naive 200) }

/-- Second ingest of the same identity: from `manual`, explicit `last_seen_at`
of 100 — an instant older than the stored one. -/
def exPayloadNew : CIPayload :=
  { name := "new", ci_type := "vm", owner := some "x", attributes := JsonObj.nil,
    identities := [exIdent], last_seen_at := some (PyDateTime.naive 100) }

/-- State after ingesting `exPayloadOld` into an empty database. -/
def exStep1 : ReconcileResult :=
  reconcile_ci_payload defaultSettings emptyDb "azure" exPayloadOld 0

/-- The CI row stored by `exStep1`. -/
def exExistingCI : CIRec :=
  { id := 0, name := "old", ci_type := "vm", source := "azure", owner := some "x",
    status := CIStatus.ACTIVE, attributes := JsonObj.nil, last_seen_at := 200 }

/-- State after re-ingesting the identity with the older timestamp. -/
def exStep2 : ReconcileResult :=
  reconcile_ci_payload defaultSettings exStep1.db "manual" exPayloadNew 0

/-- Payload of CI-A carrying identity `(scheme-x, id-a)`. -/
def exPayloadA : CIPayload :=
  { name := "A", ci_type := "t", owner := some "o", attributes := JsonObj.nil,
    identities := [{ scheme := "scheme-x", value := "id-a" }], last_seen_at := none }

/-- Payload of CI-B carrying identity `(scheme-x, id-b)`. -/
def exPayloadB : CIPayload :=
  { name := "B", ci_type := "t", owner := some "o", attributes := JsonObj.nil,
    identities := [{ scheme := "scheme-x", value := "id-b" }], last_seen_at := none }

/-- Payload carrying both identities, in the order `[id-b, id-a]`. -/
def exPayloadBoth : CIPayload :=
  { name := "C", ci_type := "t", owner := some "o", attributes := JsonObj.nil,
    identities := [{ scheme := "scheme-x", value := "id-b" },
                   { scheme := "scheme-x", value := "id-a" }], last_seen_at := none }

/-- A sequence that detects a collision, resolves it, re-detects it (a fresh
OPEN row, since the old one is RESOLVED) and finally reopens the old row. -/
def exGovOps : List GovOp :=
  [GovOp.reconcile "manual" exPayloadA 1,
   GovOp.reconcile "azure" exPayloadB 2,
   GovOp.reconcile "manual" exPayloadBoth 3,
   GovOp.resolve 0 "rebound after review" 4,
   GovOp.reconcile "manual" exPayloadBoth 5,
   GovOp.reopen 0]

/-- The state after running `exGovOps` from the empty database. -/
def exGovDb : Db := runGovOps defaultSettings emptyDb exGovOps

/-- A lone ACTIVE CI last seen at instant 0 that no relationship mentions. -/
def exLifeCI : CIRec :=
  { id := 0, name := "web", ci_type := "vm", source := "azure", owner := some "o",
    status := CIStatus.ACTIVE, attributes := JsonObj.nil, last_seen_at := 0 }

/-- A database containing only `exLifeCI` and no relationships. -/
def exLifeDb : Db := { emptyDb with cis := [exLifeCI] }

/-- A claimed job on its first attempt with budget to spare. -/
def exJobRetry : SyncJobRec :=
  { id := 0, job_type := "netbox.import", status := SyncJobStatus.RUNNING,
    attempt_count := 1, max_attempts := 3, next_run_at := 0,
    last_error := none, completed_at := none }

/-- A claimed job on its final attempt. -/
def exJobLast : SyncJobRec :=
  { id := 1, job_type := "netbox.import", status := SyncJobStatus.RUNNING,
    attempt_count := 3, max_attempts := 3, next_run_at := 0,
    last_error := none, completed_at := none }

/-! ## Bookkeeping lemmas for the reconciler -/

theorem getCI_congr {db1 db2 : Db} (h : db1.cis = db2.cis) (id : Nat) :
    getCI db1 id = getCI db2 id := by
  unfold getCI; rw [h]

theorem cis_append_audit (db : Db) (ty : String) (cid : Option Nat) :
    (append_audit_event db ty cid).cis = db.cis := rfl

theorem cis_jira (db : Db) (s : String) (cid : Option Nat) :
    (jira_create_issue db s cid).cis = db.cis := rfl

theorem cis_create_collision (db : Db) (s v : String) (e i : Nat) :
    (_create_collision db s v e i).cis = db.cis := by
  unfold _create_collision
  split
  · rfl
  · rfl

theorem cis_ensureIdentityStep (cid : Nat) (acc : Db × Nat) (ident : IdentityPayload) :
    (ensureIdentityStep cid acc ident).1.cis = acc.1.cis := by
  simp only [ensureIdentityStep]
  rcases h : findIdentity acc.1 ident.scheme ident.value with _ | m
  · rfl
  · simp only
    split
    · exact cis_create_collision _ _ _ _ _
    · rfl

theorem cis_ensure_fold (cid : Nat) (l : List IdentityPayload) (acc : Db × Nat) :
    (l.foldl (ensureIdentityStep cid) acc).1.cis = acc.1.cis := by
  induction l generalizing acc with
  | nil => rfl
  | cons x xs ih => rw [List.foldl_cons, ih, cis_ensureIdentityStep]

theorem cis_ensure_identities (db : Db) (cid : Nat) (payload : CIPayload) :
    (_ensure_identities db cid payload).1.cis = db.cis :=
  cis_ensure_fold cid payload.identities (db, 0)

theorem cis_conflictPass (sid cid : Nat) (idents : List IdentityPayload) (acc : Db × Nat) :
    (conflictPass sid cid idents acc).1.cis = acc.1.cis := by
  unfold conflictPass
  induction idents generalizing acc with
  | nil => rfl
  | cons x xs ih =>
      rw [List.foldl_cons, ih]
      split
      · exact cis_create_collision _ _ _ _ _
      · rfl

theorem cis_conflictFold (sid : Nat) (idents : List IdentityPayload)
    (rest : List CIRec) (acc : Db × Nat) :
    (rest.foldl (fun acc conflict => conflictPass sid conflict.id idents acc) acc).1.cis
      = acc.1.cis := by
  induction rest generalizing acc with
  | nil => rfl
  | cons x xs ih => rw [List.foldl_cons, ih, cis_conflictPass]

theorem find?_map_update (l : List CIRec) (id : Nat) (f : CIRec → CIRec)
    (hf : ∀ c, (f c).id = c.id) :
    (l.map (fun c => if c.id == id then f c else c)).find? (fun c => c.id == id)
      = (l.find? (fun c => c.id == id)).map f := by
  induction l with
  | nil => rfl
  | cons c tl ih =>
      by_cases h : (c.id == id) = true
      · have hfc : ((f c).id == id) = true := by
          have hid : c.id = id := by simpa using h
          simp [hf c, hid]
        rw [List.map_cons, if_pos h,
            List.find?_cons_of_pos (p := fun x : CIRec => x.id == id) _ hfc,
            List.find?_cons_of_pos (p := fun x : CIRec => x.id == id) _ h]
        rfl
      · rw [List.map_cons, if_neg h,
            List.find?_cons_of_neg (p := fun x : CIRec => x.id == id) _ h,
            List.find?_cons_of_neg (p := fun x : CIRec => x.id == id) _ h]
        exact ih

theorem getCI_updateCI_self (db : Db) (id : Nat) (f : CIRec → CIRec)
    (hf : ∀ c, (f c).id = c.id) :
    getCI (updateCI db id f) id = (getCI db id).map f := by
  unfold getCI updateCI
  exact find?_map_update db.cis id f hf

theorem getCI_self_of_getCI {db : Db} {x : Nat} {c : CIRec}
    (h : getCI db x = some c) : getCI db c.id = some c := by
  have hp := List.find?_some h
  have : c.id = x := by simpa using hp
  rw [this]; exact h

theorem matchStep_sub {db : Db} {acc : List CIRec} {ident : IdentityPayload} {y : CIRec}
    (hy : y ∈ matchStep db acc ident) :
    y ∈ acc ∨ _find_ci_by_identity db ident.scheme ident.value = some y := by
  unfold matchStep at hy
  rcases hfind : _find_ci_by_identity db ident.scheme ident.value with _ | m
  · rw [hfind] at hy
    exact Or.inl hy
  · rw [hfind] at hy
    simp only at hy
    by_cases hin : (acc.any (fun c => c.id == m.id)) = true
    · rw [if_pos hin] at hy
      exact Or.inl hy
    · rw [if_neg hin] at hy
      rcases List.mem_append.mp hy with hz | hz
      · exact Or.inl hz
      · rcases List.mem_singleton.mp hz with rfl
        exact Or.inr rfl

theorem matchedCIs_mem {db : Db} {idents : List IdentityPayload} {x : CIRec}
    (hx : x ∈ matchedCIs db idents) :
    ∃ s v, _find_ci_by_identity db s v = some x := by
  unfold matchedCIs at hx
  suffices h : ∀ (l : List IdentityPayload) (acc : List CIRec),
      (∀ y ∈ acc, ∃ s v, _find_ci_by_identity db s v = some y) →
      ∀ y ∈ l.foldl (matchStep db) acc, ∃ s v, _find_ci_by_identity db s v = some y by
    exact h idents [] (by simp) x hx
  intro l
  induction l with
  | nil => intro acc hacc y hy; exact hacc y hy
  | cons i tl ih =>
      intro acc hacc y hy
      rw [List.foldl_cons] at hy
      refine ih (matchStep db acc i) ?_ y hy
      intro z hz
      rcases matchStep_sub hz with hz | hz
      · exact hacc z hz
      · exact ⟨i.scheme, i.value, hz⟩

theorem matched_head_getCI {db : Db} {idents : List IdentityPayload}
    {c : CIRec} {rest : List CIRec} (h : matchedCIs db idents = c :: rest) :
    getCI db c.id = some c := by
  have hc : c ∈ matchedCIs db idents := by rw [h]; exact List.mem_cons_self _ _
  rcases matchedCIs_mem hc with ⟨s, v, hfind⟩
  unfold _find_ci_by_identity at hfind
  rcases hI : findIdentity db s v with _ | i
  · rw [hI] at hfind; cases hfind
  · rw [hI] at hfind
    exact getCI_self_of_getCI hfind

theorem getCI_append_audit (db : Db) (ty : String) (cid : Option Nat) (x : Nat) :
    getCI (append_audit_event db ty cid) x = getCI db x := rfl

theorem getCI_jira (db : Db) (s : String) (cid : Option Nat) (x : Nat) :
    getCI (jira_create_issue db s cid) x = getCI db x := rfl

theorem getCI_ensure (db : Db) (cid : Nat) (payload : CIPayload) (x : Nat) :
    getCI (_ensure_identities db cid payload).1 x = getCI db x :=
  getCI_congr (cis_ensure_identities db cid payload) x

theorem getCI_conflictFold (sid : Nat) (idents : List IdentityPayload)
    (rest : List CIRec) (db : Db) (n : Nat) (x : Nat) :
    getCI (rest.foldl (fun acc conflict => conflictPass sid conflict.id idents acc) (db, n)).1 x
      = getCI db x :=
  getCI_congr (cis_conflictFold sid idents rest (db, n)) x

theorem getCI_update_last_seen (db : Db) (id : Nat) (now : Timestamp) :
    getCI (updateCI db id (fun c => { c with last_seen_at := now })) id
      = (getCI db id).map (fun c => { c with last_seen_at := now }) :=
  getCI_updateCI_self _ _ _ (fun _ => rfl)

theorem getCI_update_merge (db : Db) (id : Nat) (payload : CIPayload) (source : String) :
    getCI (updateCI db id (fun c =>
        { c with name := payload.name, ci_type := payload.ci_type,
                 owner := payload.owner, attributes := payload.attributes,
                 source := source })) id
      = (getCI db id).map (fun c =>
          { c with name := payload.name, ci_type := payload.ci_type,
                   owner := payload.owner, attributes := payload.attributes,
                   source := source }) :=
  getCI_updateCI_self _ _ _ (fun _ => rfl)

/-- Normal form of the surviving CI after the matched branch: the
source-precedence merge decides the five overwritten fields and
`last_seen_at` is set to the incoming instant in both cases. -/
theorem getCI_reconcileMatched (st : Settings) (db : Db) (source : String)
    (payload : CIPayload) (now : Timestamp) (c : CIRec) (rest : List CIRec)
    (hc : getCI db c.id = some c) :
    getCI (reconcileMatched st db source payload now c rest).db c.id =
      some (if _incoming_has_precedence st c.source source then
              { c with name := payload.name, ci_type := payload.ci_type,
                       owner := payload.owner, attributes := payload.attributes,
                       source := source, last_seen_at := now }
            else { c with last_seen_at := now }) := by
  unfold reconcileMatched
  simp only
  by_cases hp : _incoming_has_precedence st c.source source = true
  · simp only [if_pos hp]
    by_cases ho : ownerMissing payload.owner = true
    · simp only [if_pos ho]
      rw [getCI_append_audit, getCI_jira, getCI_ensure, getCI_update_last_seen,
          getCI_append_audit, getCI_update_merge, getCI_conflictFold, hc]
      rfl
    · simp only [if_neg ho]
      rw [getCI_ensure, getCI_update_last_seen, getCI_append_audit, getCI_update_merge,
          getCI_conflictFold, hc]
      rfl
  · simp only [if_neg hp]
    by_cases ho : ownerMissing c.owner = true
    · simp only [if_pos ho]
      rw [getCI_append_audit, getCI_jira, getCI_ensure, getCI_update_last_seen,
          getCI_append_audit, getCI_conflictFold, hc]
      rfl
    · simp only [if_neg ho]
      rw [getCI_ensure, getCI_update_last_seen, getCI_append_audit,
          getCI_conflictFold, hc]
      rfl

/-! ## Audit-event counting lemmas -/

theorem countEventsL_append (l1 l2 : List AuditRec) (ty : String) (cid : Option Nat) :
    countEventsL (l1 ++ l2) ty cid = countEventsL l1 ty cid + countEventsL l2 ty cid := by
  simp [countEventsL, List.filter_append]

theorem countEvents_append_audit (db : Db) (ty2 : String) (cid2 : Option Nat)
    (ty : String) (cid : Option Nat) :
    countEvents (append_audit_event db ty2 cid2) ty cid
      = countEvents db ty cid + (if ty2 == ty && cid2 == cid then 1 else 0) := by
  unfold countEvents append_audit_event
  rw [countEventsL_append]
  congr 1
  by_cases hb : (ty2 == ty && cid2 == cid) = true
  · simp [countEventsL, hb]
  · have hb2 : (ty2 == ty && cid2 == cid) = false := by simpa using hb
    simp [countEventsL, hb2]

theorem countEvents_jira (db : Db) (s : String) (cid2 : Option Nat)
    (ty : String) (cid : Option Nat) :
    countEvents (jira_create_issue db s cid2) ty cid = countEvents db ty cid := rfl

theorem countEvents_updateCI (db : Db) (i : Nat) (f : CIRec → CIRec)
    (ty : String) (cid : Option Nat) :
    countEvents (updateCI db i f) ty cid = countEvents db ty cid := rfl

theorem countEvents_create_collision (db : Db) (s v : String) (e i : Nat)
    (ty : String) (cid : Option Nat) (hne : (ty == "governance.collision.detected") = false) :
    countEvents (_create_collision db s v e i) ty cid = countEvents db ty cid := by
  unfold _create_collision
  split
  · rfl
  · simp only
    rw [countEvents_jira, countEvents_append_audit]
    have hb : ("governance.collision.detected" == ty) = false := by
      simp only [beq_eq_false_iff_ne] at hne ⊢
      exact fun h => hne h.symm
    simp [hb]
    rfl

theorem countEvents_ensureIdentityStep (cid0 : Nat) (acc : Db × Nat) (ident : IdentityPayload)
    (ty : String) (cid : Option Nat) (hne : (ty == "governance.collision.detected") = false) :
    countEvents (ensureIdentityStep cid0 acc ident).1 ty cid = countEvents acc.1 ty cid := by
  simp only [ensureIdentityStep]
  rcases h : findIdentity acc.1 ident.scheme ident.value with _ | m
  · rfl
  · simp only
    split
    · exact countEvents_create_collision _ _ _ _ _ _ _ hne
    · rfl

theorem countEvents_ensure_fold (cid0 : Nat) (l : List IdentityPayload) (acc : Db × Nat)
    (ty : String) (cid : Option Nat) (hne : (ty == "governance.collision.detected") = false) :
    countEvents (l.foldl (ensureIdentityStep cid0) acc).1 ty cid = countEvents acc.1 ty cid := by
  induction l generalizing acc with
  | nil => rfl
  | cons x xs ih => rw [List.foldl_cons, ih, countEvents_ensureIdentityStep _ _ _ _ _ hne]

theorem countEvents_ensure (db : Db) (cid0 : Nat) (payload : CIPayload)
    (ty : String) (cid : Option Nat) (hne : (ty == "governance.collision.detected") = false) :
    countEvents (_ensure_identities db cid0 payload).1 ty cid = countEvents db ty cid :=
  countEvents_ensure_fold cid0 payload.identities (db, 0) ty cid hne

theorem countEvents_conflictPass (sid cid0 : Nat) (idents : List IdentityPayload)
    (acc : Db × Nat) (ty : String) (cid : Option Nat)
    (hne : (ty == "governance.collision.detected") = false) :
    countEvents (conflictPass sid cid0 idents acc).1 ty cid = countEvents acc.1 ty cid := by
  unfold conflictPass
  induction idents generalizing acc with
  | nil => rfl
  | cons x xs ih =>
      rw [List.foldl_cons, ih]
      split
      · exact countEvents_create_collision _ _ _ _ _ _ _ hne
      · rfl

theorem countEvents_conflictFold (sid : Nat) (idents : List IdentityPayload)
    (rest : List CIRec) (acc : Db × Nat) (ty : String) (cid : Option Nat)
    (hne : (ty == "governance.collision.detected") = false) :
    countEvents (rest.foldl (fun acc conflict => conflictPass sid conflict.id idents acc) acc).1
        ty cid = countEvents acc.1 ty cid := by
  induction rest generalizing acc with
  | nil => rfl
  | cons x xs ih => rw [List.foldl_cons, ih, countEvents_conflictPass _ _ _ _ _ _ hne]

theorem countEvents_owner_branch (dbx : Db) (b : Bool) (cidn : Nat)
    (ty : String) (cid : Option Nat) (h2 : (ty == "governance.owner.missing") = false) :
    countEvents (if b then
        append_audit_event (jira_create_issue dbx "Missing CI ownership" (some cidn))
          "governance.owner.missing" (some cidn)
      else dbx) ty cid = countEvents dbx ty cid := by
  cases b with
  | false => rfl
  | true =>
      rw [if_pos rfl, countEvents_append_audit, countEvents_jira]
      have hb : ("governance.owner.missing" == ty) = false := by
        simp only [beq_eq_false_iff_ne] at h2 ⊢
        exact fun h => h2 h.symm
      simp [hb]

/-- Audit-event delta of the matched branch for any event type other than the
collision and owner follow-ups: exactly the one precedence-dependent event. -/
theorem countEvents_reconcileMatched (st : Settings) (db : Db) (source : String)
    (payload : CIPayload) (now : Timestamp) (c : CIRec) (rest : List CIRec)
    (ty : String) (cid : Option Nat)
    (h1 : (ty == "governance.collision.detected") = false)
    (h2 : (ty == "governance.owner.missing") = false) :
    countEvents (reconcileMatched st db source payload now c rest).db ty cid
      = countEvents db ty cid +
        (if _incoming_has_precedence st c.source source then
           (if "ci.updated" == ty && (some c.id : Option Nat) == cid then 1 else 0)
         else
           (if "ci.reconcile.skipped_by_precedence" == ty
                && (some c.id : Option Nat) == cid then 1 else 0)) := by
  unfold reconcileMatched
  simp only
  by_cases hp : _incoming_has_precedence st c.source source = true
  · simp only [if_pos hp]
    rw [countEvents_owner_branch _ _ _ _ _ h2,
        countEvents_ensure _ _ _ _ _ h1, countEvents_updateCI, countEvents_append_audit,
        countEvents_updateCI, countEvents_conflictFold _ _ _ _ _ _ h1]
  · simp only [if_neg hp]
    rw [countEvents_owner_branch _ _ _ _ _ h2,
        countEvents_ensure _ _ _ _ _ h1, countEvents_updateCI, countEvents_append_audit,
        countEvents_conflictFold _ _ _ _ _ _ h1]

/-! ## Lifecycle counting lemmas -/

theorem countEventsL_singleton (e : AuditRec) (ty : String) (cid : Option Nat) :
    countEventsL [e] ty cid = if e.event_type == ty && e.ci_id == cid then 1 else 0 := by
  by_cases hb : (e.event_type == ty && e.ci_id == cid) = true
  · simp [countEventsL, hb]
  · have hb2 : (e.event_type == ty && e.ci_id == cid) = false := by simpa using hb
    simp [countEventsL, hb2]

theorem countEventsL_nil (ty : String) (cid : Option Nat) : countEventsL [] ty cid = 0 := rfl

theorem countEventsL_cons (e : AuditRec) (l : List AuditRec) (ty : String) (cid : Option Nat) :
    countEventsL (e :: l) ty cid
      = (if e.event_type == ty && e.ci_id == cid then 1 else 0) + countEventsL l ty cid := by
  have h := countEventsL_append [e] l ty cid
  rw [List.singleton_append] at h
  rw [h, countEventsL_singleton]

theorem countJiraL_append (l1 l2 : List JiraIssue) (s : String) (cid : Option Nat) :
    countJiraL (l1 ++ l2) s cid = countJiraL l1 s cid + countJiraL l2 s cid := by
  simp [countJiraL, List.filter_append]

theorem countJiraL_singleton (i : JiraIssue) (s : String) (cid : Option Nat) :
    countJiraL [i] s cid = if i.summary == s && i.ci_id == cid then 1 else 0 := by
  by_cases hb : (i.summary == s && i.ci_id == cid) = true
  · simp [countJiraL, hb]
  · have hb2 : (i.summary == s && i.ci_id == cid) = false := by simpa using hb
    simp [countJiraL, hb2]

theorem countJiraL_nil (s : String) (cid : Option Nat) : countJiraL [] s cid = 0 := rfl

theorem countJiraL_cons (i : JiraIssue) (l : List JiraIssue) (s : String) (cid : Option Nat) :
    countJiraL (i :: l) s cid
      = (if i.summary == s && i.ci_id == cid then 1 else 0) + countJiraL l s cid := by
  have h := countJiraL_append [i] l s cid
  rw [List.singleton_append] at h
  rw [h, countJiraL_singleton]

/-- Processing a CI with a different id touches neither the orphan counters
for `t` nor the membership of `t` in the dedup set. -/
theorem processCI_other (st : Settings) (now : Timestamp) (relIds : List Nat)
    (acc : LifeAcc) (x : CIRec) (t : Nat) (hne : x.id ≠ t) :
    countEventsL (processCI st now relIds acc x).audit "governance.orphan.detected" (some t)
      = countEventsL acc.audit "governance.orphan.detected" (some t) ∧
    countJiraL (processCI st now relIds acc x).jira_tasks "Orphan CI detected" (some t)
      = countJiraL acc.jira_tasks "Orphan CI detected" (some t) ∧
    (t ∈ (processCI st now relIds acc x).notified ↔ t ∈ acc.notified) := by
  have hbeq : ((some x.id : Option Nat) == some t) = false := by
    simp [hne]
  unfold processCI
  simp only
  split
  · split
    · split
      · refine ⟨?_, ?_, ?_⟩ <;>
          simp [countEventsL_append, countEventsL_singleton, countEventsL_cons, countEventsL_nil,
                countJiraL_append, countJiraL_singleton, countJiraL_cons, countJiraL_nil,
                hbeq, Ne.symm hne]
      · refine ⟨?_, ?_, ?_⟩ <;>
          simp [countEventsL_append, countEventsL_singleton, countEventsL_cons, countEventsL_nil,
                countJiraL_append, countJiraL_singleton, countJiraL_cons, countJiraL_nil,
                hbeq, Ne.symm hne]
    · split
      · refine ⟨?_, ?_, ?_⟩ <;>
          simp [countEventsL_append, countEventsL_singleton, countEventsL_cons, countEventsL_nil,
                countJiraL_append, countJiraL_singleton, countJiraL_cons, countJiraL_nil,
                hbeq, Ne.symm hne]
      · refine ⟨?_, ?_, ?_⟩ <;>
          simp [countEventsL_append, countEventsL_singleton, countEventsL_cons, countEventsL_nil,
                countJiraL_append, countJiraL_singleton, countJiraL_cons, countJiraL_nil,
                hbeq, Ne.symm hne]
  · split
    · refine ⟨?_, ?_, ?_⟩ <;>
        simp [countEventsL_append, countEventsL_singleton, countEventsL_cons, countEventsL_nil,
              countJiraL_append, countJiraL_singleton, countJiraL_cons, countJiraL_nil,
              hbeq, Ne.symm hne]
    · exact ⟨rfl, rfl, Iff.rfl⟩

/-- Processing an unrelated CI that is not yet in the dedup set: the orphan
event and notification are emitted exactly when the CI did not just enter
RETIREMENT_REVIEW (which occupies the shared dedup set first). -/
theorem processCI_self (st : Settings) (now : Timestamp) (relIds : List Nat)
    (acc : LifeAcc) (c : CIRec) (hnot : c.id ∉ acc.notified) (hrel : c.id ∉ relIds) :
    countEventsL (processCI st now relIds acc c).audit "governance.orphan.detected" (some c.id)
      = countEventsL acc.audit "governance.orphan.detected" (some c.id)
        + (if becomesReview st now c then 0 else 1) ∧
    countJiraL (processCI st now relIds acc c).jira_tasks "Orphan CI detected" (some c.id)
      = countJiraL acc.jira_tasks "Orphan CI detected" (some c.id)
        + (if becomesReview st now c then 0 else 1) := by
  unfold processCI
  simp only
  by_cases hch : targetStatus st (inactiveDays now c.last_seen_at) ≠ c.status
  · rw [if_pos hch]
    by_cases hrev : targetStatus st (inactiveDays now c.last_seen_at)
        = CIStatus.RETIREMENT_REVIEW ∧ c.id ∉ acc.notified
    · rw [if_pos hrev]
      have hbr : becomesReview st now c := ⟨hch, hrev.1⟩
      have hin : c.id ∈ acc.notified ++ [c.id] := by simp
      rw [if_neg (by simp [hin])]
      constructor <;>
        simp [countEventsL_append, countEventsL_singleton, countEventsL_cons, countEventsL_nil,
              countJiraL_append, countJiraL_singleton, countJiraL_cons, countJiraL_nil, hbr]
    · have hrev2 : ¬ targetStatus st (inactiveDays now c.last_seen_at)
          = CIStatus.RETIREMENT_REVIEW := by
        intro h
        exact hrev ⟨h, hnot⟩
      rw [if_neg hrev]
      rw [if_pos ⟨hrel, hnot⟩]
      have hbr : ¬ becomesReview st now c := fun h => hrev2 h.2
      constructor <;>
        simp [countEventsL_append, countEventsL_singleton, countEventsL_cons, countEventsL_nil,
              countJiraL_append, countJiraL_singleton, countJiraL_cons, countJiraL_nil, hbr]
  · rw [if_neg hch]
    rw [if_pos ⟨hrel, hnot⟩]
    have hbr : ¬ becomesReview st now c := fun h => hch h.1
    constructor <;>
      simp [countEventsL_append, countEventsL_singleton, countEventsL_cons, countEventsL_nil,
            countJiraL_append, countJiraL_singleton, countJiraL_cons, countJiraL_nil, hbr]

/-- Folding over CIs whose ids all differ from `t` leaves the orphan counters
for `t` and the membership of `t` in the dedup set unchanged. -/
theorem lifecycle_fold_other (st : Settings) (now : Timestamp) (relIds : List Nat)
    (l : List CIRec) (acc : LifeAcc) (t : Nat) (hne : ∀ x ∈ l, x.id ≠ t) :
    countEventsL (l.foldl (processCI st now relIds) acc).audit
        "governance.orphan.detected" (some t)
      = countEventsL acc.audit "governance.orphan.detected" (some t) ∧
    countJiraL (l.foldl (processCI st now relIds) acc).jira_tasks
        "Orphan CI detected" (some t)
      = countJiraL acc.jira_tasks "Orphan CI detected" (some t) ∧
    (t ∈ (l.foldl (processCI st now relIds) acc).notified ↔ t ∈ acc.notified) := by
  induction l generalizing acc with
  | nil => exact ⟨rfl, rfl, Iff.rfl⟩
  | cons x xs ih =>
      rw [List.foldl_cons]
      have hx := processCI_other st now relIds acc x t (hne x (List.mem_cons_self _ _))
      have hxs := ih (processCI st now relIds acc x) (fun y hy => hne y (List.mem_cons_of_mem _ hy))
      exact ⟨hxs.1.trans hx.1, hxs.2.1.trans hx.2.1, hxs.2.2.trans hx.2.2⟩

/-! ## Claim C5 -/

/-- Claim C5: when execution of a claimed job raises, `_complete_job_failure`
re-queues the job with `next_run_at = now + base * 2^(attempt_count - 1)`
seconds and emits `integration.job.retry_scheduled` while
`attempt_count < max_attempts`, and otherwise marks it FAILED, emits
`integration.job.failed`, and records a `sync.job_failed` telemetry tick.
`1 ≤ attempt_count` holds for every claimed job (the claim increments the
counter) and `1 ≤ base` reflects the positive configured retry base (the code
clamps with `max(1, base)`, which is the identity there). -/
theorem job_failure_retry_or_fail (st : Settings) (job : SyncJobRec) (err : String)
    (now : Timestamp) (hbase : 1 ≤ st.sync_job_retry_base_seconds)
    (hatt : 1 ≤ job.attempt_count) :
    (job.attempt_count < job.max_attempts →
      (_complete_job_failure st job err now).job.status = SyncJobStatus.QUEUED ∧
      (_complete_job_failure st job err now).job.next_run_at
        = now + st.sync_job_retry_base_seconds * 2 ^ (job.attempt_count - 1).toNat ∧
      (_complete_job_failure st job err now).events
        = [{ event_type := "integration.job.retry_scheduled", ci_id := none }] ∧
      (_complete_job_failure st job err now).telemetry = []) ∧
    (¬ job.attempt_count < job.max_attempts →
      (_complete_job_failure st job err now).job.status = SyncJobStatus.FAILED ∧
      (_complete_job_failure st job err now).events
        = [{ event_type := "integration.job.failed", ci_id := none }] ∧
      (_complete_job_failure st job err now).telemetry = ["sync.job_failed"]) := by
  have hdelay : _retry_delay_seconds st job.attempt_count
      = st.sync_job_retry_base_seconds * 2 ^ (job.attempt_count - 1).toNat := by
    unfold _retry_delay_seconds
    rw [max_eq_right hbase, max_eq_right (by omega : (0 : Int) ≤ job.attempt_count - 1)]
  constructor
  · intro hlt
    unfold _complete_job_failure
    rw [if_pos hlt]
    exact ⟨rfl, by rw [hdelay], rfl, rfl⟩
  · intro hge
    unfold _complete_job_failure
    rw [if_neg hge]
    exact ⟨rfl, rfl, rfl⟩

/-- Witness for claim C5: a first-attempt job is re-queued 5 seconds out
(base 5, `2^0`), a final-attempt job fails terminally with the telemetry
tick. -/
theorem job_failure_retry_or_fail_witness :
    ((_complete_job_failure defaultSettings exJobRetry "upstream_http_error" 100).job.status
        = SyncJobStatus.QUEUED ∧
      (_complete_job_failure defaultSettings exJobRetry "upstream_http_error" 100).job.next_run_at
        = 105) ∧
    ((_complete_job_failure defaultSettings exJobLast "upstream_http_error" 100).job.status
        = SyncJobStatus.FAILED ∧
      (_complete_job_failure defaultSettings exJobLast "upstream_http_error" 100).telemetry
        = ["sync.job_failed"]) := by
  have h1 := job_failure_retry_or_fail defaultSettings exJobRetry "upstream_http_error" 100
    (by decide) (by decide)
  have h2 := job_failure_retry_or_fail defaultSettings exJobLast "upstream_http_error" 100
    (by decide) (by decide)
  obtain ⟨s1, n1, _, _⟩ := h1.1 (by decide)
  obtain ⟨s2, _, t2⟩ := h2.2 (by decide)
  exact ⟨⟨s1, n1.trans (by decide)⟩, ⟨s2, t2⟩⟩

/-! ## Claim C4 -/

/-- Claim C4, counterexample.  With the default thresholds 30/90/120 a lone CI
inactive for 95 days transitions ACTIVE to RETIREMENT_REVIEW, is entered into
the per-run notification dedup set by that transition, and the orphan check —
which shares the same set — is skipped: no relationship mentions the CI, yet
zero `governance.orphan.detected` events and zero orphan notifications are
produced by the pass. -/
theorem lifecycle_orphan_counterexample :
    relationshipCiIds exLifeDb = [] ∧
    (getCI (run_lifecycle defaultSettings exLifeDb (95 * 86400)).1 0).map (fun c => c.status)
      = some CIStatus.RETIREMENT_REVIEW ∧
    countEvents (run_lifecycle defaultSettings exLifeDb (95 * 86400)).1
        "governance.orphan.detected" (some 0) = 0 ∧
    countJira (run_lifecycle defaultSettings exLifeDb (95 * 86400)).1
        "Orphan CI detected" (some 0) = 0 := by
  refine ⟨by decide, by decide, by decide, by decide⟩

/-- Claim C4, amended: in a single `run_lifecycle` pass, every CI that appears
in no relationship receives exactly one `governance.orphan.detected` event and
exactly one enqueued notification, unless it transitioned into
RETIREMENT_REVIEW in the same pass — the retirement-review notification then
occupies the shared per-run dedup set first and the orphan branch is skipped
for that CI (zero orphan events and notifications). -/
theorem lifecycle_orphan_amended (st : Settings) (db : Db) (now : Timestamp) (c : CIRec)
    (hmem : c ∈ db.cis)
    (hids : db.cis.Pairwise (fun a b => a.id ≠ b.id))
    (horph : c.id ∉ relationshipCiIds db) :
    countEvents (run_lifecycle st db now).1 "governance.orphan.detected" (some c.id)
      = countEvents db "governance.orphan.detected" (some c.id)
        + (if becomesReview st now c then 0 else 1) ∧
    countJira (run_lifecycle st db now).1 "Orphan CI detected" (some c.id)
      = countJira db "Orphan CI detected" (some c.id)
        + (if becomesReview st now c then 0 else 1) := by
  have hperm : (db.cis.insertionSort (fun a b => a.id ≤ b.id)).Perm db.cis :=
    List.perm_insertionSort _ _
  have hmem2 : c ∈ db.cis.insertionSort (fun a b => a.id ≤ b.id) := hperm.mem_iff.mpr hmem
  have hpair : (db.cis.insertionSort (fun a b => a.id ≤ b.id)).Pairwise
      (fun a b => a.id ≠ b.id) :=
    (List.Perm.pairwise_iff (fun h => Ne.symm h) hperm).mpr hids
  obtain ⟨l1, l2, hsplit⟩ := List.append_of_mem hmem2
  rw [hsplit, List.pairwise_append] at hpair
  obtain ⟨hp1, hp2, hp12⟩ := hpair
  have hl1 : ∀ x ∈ l1, x.id ≠ c.id := fun x hx => hp12 x hx c (List.mem_cons_self _ _)
  have hl2 : ∀ x ∈ l2, x.id ≠ c.id := by
    intro x hx
    exact Ne.symm ((List.pairwise_cons.mp hp2).1 x hx)
  unfold run_lifecycle
  simp only
  rw [hsplit, List.foldl_append, List.foldl_cons]
  have hfold1 := lifecycle_fold_other st now (relationshipCiIds db) l1
    { cis := [], audit := db.audit, jira_tasks := [], notified := [], transitioned := 0 }
    c.id hl1
  have hnot1 : c.id ∉ (l1.foldl (processCI st now (relationshipCiIds db))
      { cis := [], audit := db.audit, jira_tasks := [], notified := [],
        transitioned := 0 }).notified := by
    intro hin
    exact absurd (hfold1.2.2.mp hin) (by simp)
  have hself := processCI_self st now (relationshipCiIds db)
    (l1.foldl (processCI st now (relationshipCiIds db))
      { cis := [], audit := db.audit, jira_tasks := [], notified := [], transitioned := 0 })
    c hnot1 horph
  have hfold2 := lifecycle_fold_other st now (relationshipCiIds db) l2
    (processCI st now (relationshipCiIds db)
      (l1.foldl (processCI st now (relationshipCiIds db))
        { cis := [], audit := db.audit, jira_tasks := [], notified := [], transitioned := 0 })
      c) c.id hl2
  constructor
  · show countEventsL _ _ _ = _
    rw [hfold2.1, hself.1, hfold1.1]
    rfl
  · show countJiraL (db.jira ++ _) _ _ = _
    rw [countJiraL_append, hfold2.2.1, hself.2, hfold1.2.1]
    show countJiraL db.jira _ _ + (countJiraL [] _ _ + _) = _
    rw [countJiraL_nil, Nat.zero_add]
    rfl

/-- Witness for the amended C4 theorem: at `now = 0` the lone CI stays ACTIVE
and its orphanhood produces exactly one event and one notification. -/
theorem lifecycle_orphan_amended_witness :
    countEvents (run_lifecycle defaultSettings exLifeDb 0).1
        "governance.orphan.detected" (some 0) = 1 ∧
    countJira (run_lifecycle defaultSettings exLifeDb 0).1
        "Orphan CI detected" (some 0) = 1 := by
  have h := lifecycle_orphan_amended defaultSettings exLifeDb 0 exLifeCI
    (by decide) (by decide) (by decide)
  constructor
  · rw [show (0 : Nat) = exLifeCI.id from rfl, h.1]
    decide
  · rw [show (0 : Nat) = exLifeCI.id from rfl, h.2]
    decide

/-! ## Open-collision uniqueness lemmas -/

theorem find?_map_update_gen {α : Type} (p : α → Bool) (f : α → α)
    (hf : ∀ a, p (f a) = p a) (l : List α) :
    (l.map (fun a => if p a then f a else a)).find? p = (l.find? p).map f := by
  induction l with
  | nil => rfl
  | cons a tl ih =>
      by_cases h : p a = true
      · rw [List.map_cons, if_pos h,
            List.find?_cons_of_pos _ (by rw [hf a]; exact h),
            List.find?_cons_of_pos _ h]
        rfl
      · rw [List.map_cons, if_neg h, List.find?_cons_of_neg _ h,
            List.find?_cons_of_neg _ h]
        exact ih

theorem openUnique_create_collision {db : Db} (s v : String) (e i : Nat)
    (h : OpenUnique db) : OpenUnique (_create_collision db s v e i) := by
  unfold _create_collision
  by_cases hex : hasOpenCollision db s v e i = true
  · rw [if_pos hex]; exact h
  · rw [if_neg hex]
    show OpenUniqueL (db.collisions ++ [_])
    rw [OpenUniqueL, List.pairwise_append]
    refine ⟨h, List.pairwise_singleton _ _, ?_⟩
    intro a ha b hb
    rcases List.mem_singleton.mp hb with rfl
    intro haOpen _ hsq
    apply hex
    unfold hasOpenCollision
    rw [List.any_eq_true]
    refine ⟨a, ha, ?_⟩
    obtain ⟨h1, h2, h3, h4⟩ := hsq
    simp only at h1 h2 h3 h4
    simp [h1, h2, h3, h4, haOpen]

theorem openUnique_ensureIdentityStep {cid : Nat} {acc : Db × Nat} {ident : IdentityPayload}
    (h : OpenUnique acc.1) : OpenUnique (ensureIdentityStep cid acc ident).1 := by
  simp only [ensureIdentityStep]
  rcases hf : findIdentity acc.1 ident.scheme ident.value with _ | m
  · exact h
  · simp only
    split
    · exact openUnique_create_collision _ _ _ _ h
    · exact h

theorem openUnique_ensure_fold (cid : Nat) (l : List IdentityPayload) (acc : Db × Nat)
    (h : OpenUnique acc.1) : OpenUnique (l.foldl (ensureIdentityStep cid) acc).1 := by
  induction l generalizing acc with
  | nil => exact h
  | cons x xs ih => exact ih _ (openUnique_ensureIdentityStep h)

theorem openUnique_conflictPass (sid cid : Nat) (idents : List IdentityPayload)
    (acc : Db × Nat) (h : OpenUnique acc.1) :
    OpenUnique (conflictPass sid cid idents acc).1 := by
  unfold conflictPass
  induction idents generalizing acc with
  | nil => exact h
  | cons x xs ih =>
      rw [List.foldl_cons]
      apply ih
      split
      · exact openUnique_create_collision _ _ _ _ h
      · exact h

theorem openUnique_conflictFold (sid : Nat) (idents : List IdentityPayload)
    (rest : List CIRec) (acc : Db × Nat) (h : OpenUnique acc.1) :
    OpenUnique (rest.foldl (fun acc conflict => conflictPass sid conflict.id idents acc) acc).1 := by
  induction rest generalizing acc with
  | nil => exact h
  | cons x xs ih => exact ih _ (openUnique_conflictPass _ _ _ _ h)

theorem openUnique_owner_branch {dbx : Db} (b : Bool) (cidn : Nat)
    (h : OpenUnique dbx) :
    OpenUnique (if b then
        append_audit_event (jira_create_issue dbx "Missing CI ownership" (some cidn))
          "governance.owner.missing" (some cidn)
      else dbx) := by
  cases b with
  | false => exact h
  | true => exact h

theorem openUnique_reconcile (st : Settings) (db : Db) (source : String)
    (payload : CIPayload) (now : Timestamp) (h : OpenUnique db) :
    OpenUnique (reconcile_ci_payload st db source payload now).db := by
  unfold reconcile_ci_payload
  rcases matchedCIs db payload.identities with _ | ⟨c, rest⟩
  · unfold reconcileCreate
    simp only
    apply openUnique_owner_branch
    exact openUnique_ensure_fold _ _ _ h
  · unfold reconcileMatched
    simp only
    apply openUnique_owner_branch
    apply openUnique_ensure_fold
    show OpenUnique (updateCI (if _ then _ else _) _ _)
    have hpass : OpenUnique (List.foldl
        (fun acc conflict => conflictPass c.id conflict.id payload.identities acc)
        (db, 0) rest).1 := openUnique_conflictFold _ _ _ _ h
    split
    · exact hpass
    · exact hpass

theorem openUnique_resolve (db : Db) (cid : Nat) (note : String) (now : Timestamp)
    (h : OpenUnique db) : OpenUnique (resolve_collision db cid note now).1 := by
  unfold resolve_collision
  rcases hf : findCollision db cid with _ | c
  · exact h
  · simp only
    show OpenUniqueL (db.collisions.map _)
    refine List.Pairwise.map _ ?_ h
    intro a b hab hga hgb hsq
    by_cases ha : (a.id == cid) = true
    · rw [if_pos ha] at hga
      cases hga
    · rw [if_neg ha] at hga hsq
      by_cases hb : (b.id == cid) = true
      · rw [if_pos hb] at hgb
        cases hgb
      · rw [if_neg hb] at hgb hsq
        exact hab hga hgb hsq

theorem openUnique_govop (st : Settings) (db : Db) (op : GovOp)
    (hop : op.isReopen = false) (h : OpenUnique db) :
    OpenUnique (applyGovOp st db op) := by
  cases op with
  | reconcile source payload now => exact openUnique_reconcile st db source payload now h
  | resolve cid note now => exact openUnique_resolve db cid note now h
  | reopen cid => cases hop

/-! ## Claim C2 -/

/-- Claim C2, counterexample.  Detect a collision, resolve it, reconcile the
same payload again (the detection is idempotent only on OPEN rows, so a second
row for the same quadruple is inserted), then reopen the first row: two rows
with the quadruple `(scheme-x, id-b, 1, 0)` are now both OPEN. -/
theorem open_unique_counterexample :
    (∀ op ∈ exGovOps, op = GovOp.reopen 0 ∨ op.isReopen = false) ∧ ¬ OpenUnique exGovDb := by
  refine ⟨by decide, by decide⟩

/-- Claim C2, amended: after any sequence of reconciliation and
collision-resolve operations, at most one GovernanceCollision row per
`(scheme, value, existing_ci_id, incoming_ci_id)` quadruple is OPEN;
`reopen_collision` sets `resolution_note` and `resolved_at` to null, but
reopening a resolved row whose quadruple was re-detected in the meantime can
leave two OPEN rows, so reopen operations are excluded from the uniqueness
statement. -/
theorem open_unique_amended (st : Settings) (db : Db) (ops : List GovOp)
    (h0 : OpenUnique db) (hops : ∀ op ∈ ops, op.isReopen = false) :
    OpenUnique (runGovOps st db ops) ∧
    (∀ (dbx : Db) (cid : Nat) (c : CollisionRec), findCollision dbx cid = some c →
      findCollision (reopen_collision dbx cid).1 cid =
        some { c with status := CollisionStatus.OPEN,
                      resolution_note := none, resolved_at := none }) := by
  constructor
  · induction ops generalizing db with
    | nil => exact h0
    | cons op rest ih =>
        exact ih (applyGovOp st db op)
          (openUnique_govop st db op (hops op (List.mem_cons_self _ _)) h0)
          (fun o ho => hops o (List.mem_cons_of_mem _ ho))
  · intro dbx cid c hf
    unfold reopen_collision
    rw [hf]
    simp only
    show List.find? _ ((updateCollision dbx cid _).collisions) = _
    unfold updateCollision
    simp only
    have hp := List.find?_some hf
    have hgen := find?_map_update_gen (fun x : CollisionRec => x.id == cid)
      (fun x => { x with status := CollisionStatus.OPEN,
                         resolution_note := none, resolved_at := none })
      (fun x => rfl) dbx.collisions
    rw [hgen]
    unfold findCollision at hf
    rw [hf]
    rfl

/-- Witness for the amended C2 theorem: the first five operations of the
scenario (no reopen) keep the invariant, and reopen clears the resolution
fields of row 0. -/
theorem open_unique_amended_witness :
    OpenUnique (runGovOps defaultSettings emptyDb (exGovOps.take 5)) ∧
    findCollision (reopen_collision (runGovOps defaultSettings emptyDb (exGovOps.take 5)) 0).1 0
      = some { id := 0, scheme := "scheme-x", value := "id-b", existing_ci_id := 1,
               incoming_ci_id := 0, status := CollisionStatus.OPEN,
               resolution_note := none, resolved_at := none } := by
  have h := open_unique_amended defaultSettings emptyDb (exGovOps.take 5)
    (by decide) (by decide)
  refine ⟨h.1, ?_⟩
  have h2 := h.2 (runGovOps defaultSettings emptyDb (exGovOps.take 5)) 0
    { id := 0, scheme := "scheme-x", value := "id-b", existing_ci_id := 1,
      incoming_ci_id := 0, status := CollisionStatus.RESOLVED,
      resolution_note := some "rebound after review", resolved_at := some 4 }
    (by decide)
  exact h2.trans (by decide)

/-! ## Claim C1 -/

/-- Claim C1, counterexample.  `reconcile_ci_payload` assigns
`ci.last_seen_at = now` unconditionally (reconciliation.py line 173); there is
no `max` with the stored value.  Ingesting `(hostname, web-01)` with
`last_seen_at = 200` and then re-ingesting it with `last_seen_at = 100` leaves
the CI at 100, not at `max 200 100`, so `last_seen_at` decreased across two
reconciliations. -/
theorem last_seen_monotone_counterexample :
    (getCI exStep1.db 0).map (fun c => c.last_seen_at) = some 200 ∧
    (getCI exStep2.db 0).map (fun c => c.last_seen_at) = some 100 ∧
    max (200 : Int) 100 = 200 ∧ (100 : Int) < 200 := by
  refine ⟨by decide, by decide, by decide, by decide⟩

/-- Claim C1, amended: for every reconciliation of a payload that matches an
existing CI, the CI's `last_seen_at` after the call equals the incoming
timestamp (payload `last_seen_at` normalized to UTC-naive, or `now()` when
absent), with no maximum taken against the stored value; it therefore
decreases whenever the payload carries an older explicit timestamp. -/
theorem reconcile_sets_last_seen_to_incoming (st : Settings) (db : Db) (source : String)
    (payload : CIPayload) (now : Timestamp) (c : CIRec) (rest : List CIRec)
    (hm : matchedCIs db payload.identities = c :: rest) :
    (getCI (reconcile_ci_payload st db source payload now).db c.id).map
        (fun x => x.last_seen_at)
      = some ((normalize_utc_naive payload.last_seen_at).getD now) := by
  have hc := matched_head_getCI hm
  unfold reconcile_ci_payload
  rw [hm, getCI_reconcileMatched st db source payload _ c rest hc]
  by_cases hp : _incoming_has_precedence st c.source source = true
  · simp [hp]
  · simp [hp]

/-- Witness for the amended C1 theorem at the concrete two-step scenario. -/
theorem reconcile_sets_last_seen_to_incoming_witness :
    (getCI (reconcile_ci_payload defaultSettings exStep1.db "manual" exPayloadNew 0).db
        exExistingCI.id).map (fun x => x.last_seen_at) = some 100 := by
  have h := reconcile_sets_last_seen_to_incoming defaultSettings exStep1.db "manual"
    exPayloadNew 0 exExistingCI [] (by decide)
  exact h.trans (by decide)

/-! ## Claim C3 -/

/-- Claim C3: for every reconciliation that matches an existing CI (survivor
`c`), if the incoming source ranks lower-or-equal (lower index in
`source_precedence` is higher precedence, absent sources rank last, ties count
as incoming wins — that is exactly `_incoming_has_precedence`), then `name`,
`ci_type`, `owner`, `attributes` and `source` are all overwritten from the
payload and exactly one `ci.updated` event is appended; otherwise none of the
five fields changes and exactly one `ci.reconcile.skipped_by_precedence`
event is appended. -/
theorem reconcile_precedence_gating (st : Settings) (db : Db) (source : String)
    (payload : CIPayload) (now : Timestamp) (c : CIRec) (rest : List CIRec)
    (hm : matchedCIs db payload.identities = c :: rest) :
    (reconcile_ci_payload st db source payload now).created = false ∧
    (_incoming_has_precedence st c.source source = true →
      getCI (reconcile_ci_payload st db source payload now).db c.id =
        some { c with name := payload.name, ci_type := payload.ci_type,
                      owner := payload.owner, attributes := payload.attributes,
                      source := source,
                      last_seen_at := (normalize_utc_naive payload.last_seen_at).getD now } ∧
      countEvents (reconcile_ci_payload st db source payload now).db
          "ci.updated" (some c.id)
        = countEvents db "ci.updated" (some c.id) + 1 ∧
      countEvents (reconcile_ci_payload st db source payload now).db
          "ci.reconcile.skipped_by_precedence" (some c.id)
        = countEvents db "ci.reconcile.skipped_by_precedence" (some c.id)) ∧
    (_incoming_has_precedence st c.source source = false →
      getCI (reconcile_ci_payload st db source payload now).db c.id =
        some { c with last_seen_at := (normalize_utc_naive payload.last_seen_at).getD now } ∧
      countEvents (reconcile_ci_payload st db source payload now).db
          "ci.updated" (some c.id)
        = countEvents db "ci.updated" (some c.id) ∧
      countEvents (reconcile_ci_payload st db source payload now).db
          "ci.reconcile.skipped_by_precedence" (some c.id)
        = countEvents db "ci.reconcile.skipped_by_precedence" (some c.id) + 1) := by
  have hc := matched_head_getCI hm
  unfold reconcile_ci_payload
  rw [hm]
  refine ⟨rfl, ?_, ?_⟩
  · intro hp
    refine ⟨?_, ?_, ?_⟩
    · rw [getCI_reconcileMatched st db source payload _ c rest hc, if_pos hp]
    · rw [countEvents_reconcileMatched st db source payload _ c rest _ _ (by decide) (by decide),
          if_pos hp]
      simp
    · rw [countEvents_reconcileMatched st db source payload _ c rest _ _ (by decide) (by decide),
          if_pos hp]
      simp
  · intro hp
    have hp2 : ¬ _incoming_has_precedence st c.source source = true := by simp [hp]
    refine ⟨?_, ?_, ?_⟩
    · rw [getCI_reconcileMatched st db source payload _ c rest hc, if_neg hp2]
    · rw [countEvents_reconcileMatched st db source payload _ c rest _ _ (by decide) (by decide),
          if_neg hp2]
      simp
    · rw [countEvents_reconcileMatched st db source payload _ c rest _ _ (by decide) (by decide),
          if_neg hp2]
      simp

/-- Witness for claim C3 at the precedence scenario of the spec: `manual`
overwrites a CI owned by `azure` and emits one `ci.updated`. -/
theorem reconcile_precedence_gating_witness :
    (reconcile_ci_payload defaultSettings exStep1.db "manual" exPayloadNew 0).created = false ∧
    getCI (reconcile_ci_payload defaultSettings exStep1.db "manual" exPayloadNew 0).db 0 =
      some { exExistingCI with name := "new", owner := some "x", source := "manual",
                               last_seen_at := 100 } ∧
    countEvents (reconcile_ci_payload defaultSettings exStep1.db "manual" exPayloadNew 0).db
        "ci.updated" (some 0) = 1 := by
  have h := reconcile_precedence_gating defaultSettings exStep1.db "manual" exPayloadNew 0
    exExistingCI [] (by decide)
  obtain ⟨h1, h2, _⟩ := h
  obtain ⟨g1, g2, _⟩ := h2 (by decide)
  refine ⟨h1, ?_, ?_⟩
  · exact g1.trans (by decide)
  · exact g2.trans (by decide)

/-! ## Claim C10 -/

/-- Single-call core of claim C10: an identity-less payload is accepted and
always creates a fresh CI, writes no identity rows and reports zero
collisions. -/
theorem reconcile_no_identities (st : Settings) (db : Db) (source : String)
    (payload : CIPayload) (now : Timestamp) (h : payload.identities = []) :
    (reconcile_ci_payload st db source payload now).created = true ∧
    (reconcile_ci_payload st db source payload now).collisions = 0 ∧
    (reconcile_ci_payload st db source payload now).ci_id = db.next_ci_id ∧
    (reconcile_ci_payload st db source payload now).db.identities = db.identities ∧
    (reconcile_ci_payload st db source payload now).db.cis.length = db.cis.length + 1 := by
  have hmatch : matchedCIs db payload.identities = [] := by
    rw [h]; rfl
  unfold reconcile_ci_payload
  rw [hmatch]
  unfold reconcileCreate
  simp only [_ensure_identities, h, List.foldl_nil]
  by_cases ho : ownerMissing payload.owner = true
  · simp [ho, append_audit_event, jira_create_issue]
  · simp [ho, append_audit_event]

/-- Claim C10: the payload schema places no lower bound on `identities`; an
empty-identity payload matches nothing, so `reconcile_ci_payload` always
creates a brand-new CI with zero identities and returns
`(ci, created := true, collisions := 0)` — repeated ingestion of the same
identity-less payload creates a new CI each time. -/
theorem reconcile_empty_identities_creates_each_time (st : Settings) (db : Db)
    (source : String) (payload : CIPayload) (now1 now2 : Timestamp)
    (h : payload.identities = []) :
    (reconcile_ci_payload st db source payload now1).created = true ∧
    (reconcile_ci_payload st db source payload now1).collisions = 0 ∧
    (reconcile_ci_payload st db source payload now1).db.identities = db.identities ∧
    (reconcile_ci_payload st
        (reconcile_ci_payload st db source payload now1).db source payload now2).created
      = true ∧
    (reconcile_ci_payload st
        (reconcile_ci_payload st db source payload now1).db source payload now2).db.cis.length
      = db.cis.length + 2 := by
  obtain ⟨h1, h2, _, h4, h5⟩ := reconcile_no_identities st db source payload now1 h
  obtain ⟨g1, _, _, _, g5⟩ :=
    reconcile_no_identities st (reconcile_ci_payload st db source payload now1).db
      source payload now2 h
  exact ⟨h1, h2, h4, g1, by omega⟩

/-- Witness for claim C10 at a concrete identity-less payload. -/
theorem reconcile_empty_identities_witness :
    (reconcile_ci_payload defaultSettings emptyDb "azure"
      { name := "n", ci_type := "t", owner := none, attributes := JsonObj.nil,
        identities := [], last_seen_at := none } 7).created = true ∧
    (reconcile_ci_payload defaultSettings
        (reconcile_ci_payload defaultSettings emptyDb "azure"
          { name := "n", ci_type := "t", owner := none, attributes := JsonObj.nil,
            identities := [], last_seen_at := none } 7).db "azure"
        { name := "n", ci_type := "t", owner := none, attributes := JsonObj.nil,
          identities := [], last_seen_at := none } 8).db.cis.length = 2 := by
  have h := reconcile_empty_identities_creates_each_time defaultSettings emptyDb "azure"
    { name := "n", ci_type := "t", owner := none, attributes := JsonObj.nil,
      identities := [], last_seen_at := none } 7 8 rfl
  exact ⟨h.1, h.2.2.2.2⟩

/-! ## Character and digit round-trip lemmas -/

theorem charToNat_ofNat (n : Nat) (h : Nat.isValidChar n) : (Char.ofNat n).toNat = n := by
  unfold Char.ofNat
  rw [dif_pos h]
  unfold Char.ofNatAux Char.toNat
  simp [UInt32.toNat]

theorem char_eq_of_toNat {c d : Char} (h : c.toNat = d.toNat) : c = d := by
  have h1 := Char.ofNat_toNat c
  have h2 := Char.ofNat_toNat d
  rw [h] at h1
  exact h1.symm.trans h2

theorem char_valid (c : Char) : Nat.isValidChar c.toNat := by
  have h := c.valid
  unfold Char.toNat
  rcases h with h | ⟨h1, h2⟩
  · exact Or.inl h
  · exact Or.inr ⟨h1, h2⟩

theorem digit_isDigit_all : ∀ m, m < 10 → (Char.ofNat (48 + m)).isDigit = true := by decide

theorem digit_isDigit (m : Nat) (h : m < 10) : (Char.ofNat (48 + m)).isDigit = true :=
  digit_isDigit_all m h

theorem digit_toNat (m : Nat) (h : m < 10) : (Char.ofNat (48 + m)).toNat = 48 + m :=
  charToNat_ofNat _ (Or.inl (by omega))

theorem natToCharsAux_all_digits (fuel : Nat) :
    ∀ n, n ≤ fuel → ∀ c ∈ natToCharsAux fuel n, c.isDigit = true := by
  induction fuel with
  | zero =>
      intro n _ c hc
      unfold natToCharsAux at hc
      rcases List.mem_singleton.mp hc with rfl
      exact digit_isDigit _ (by omega)
  | succ fuel ih =>
      intro n hn c hc
      unfold natToCharsAux at hc
      by_cases h : n < 10
      · rw [if_pos h] at hc
        rcases List.mem_singleton.mp hc with rfl
        exact digit_isDigit _ h
      · rw [if_neg h] at hc
        rcases List.mem_append.mp hc with hc | hc
        · exact ih (n / 10) (by omega) c hc
        · rcases List.mem_singleton.mp hc with rfl
          exact digit_isDigit _ (by omega)

theorem foldl_natToCharsAux (fuel : Nat) :
    ∀ n acc, n ≤ fuel →
      (natToCharsAux fuel n).foldl (fun a c => a * 10 + (c.toNat - 48)) acc
        = acc * 10 ^ (natToCharsAux fuel n).length + n := by
  induction fuel with
  | zero =>
      intro n acc hn
      have hn0 : n = 0 := by omega
      subst hn0
      unfold natToCharsAux
      simp [digit_toNat 0 (by omega)]
  | succ fuel ih =>
      intro n acc hn
      unfold natToCharsAux
      by_cases h : n < 10
      · rw [if_pos h]
        simp [digit_toNat n h]
      · rw [if_neg h]
        rw [List.foldl_append, List.length_append]
        rw [ih (n / 10) acc (by omega)]
        simp only [List.foldl_cons, List.foldl_nil, List.length_singleton]
        rw [digit_toNat (n % 10) (by omega), pow_succ]
        have hmod : 48 + n % 10 - 48 = n % 10 := by omega
        rw [hmod]
        have := Nat.div_add_mod n 10
        set L := 10 ^ (natToCharsAux fuel (n / 10)).length
        ring_nf
        omega

theorem charsVal_natToChars (n : Nat) : charsVal (natToChars n) = n := by
  unfold charsVal natToChars
  rw [foldl_natToCharsAux n n 0 (le_refl n)]
  simp

theorem parseDigits_cons (c : Char) (l : List Char) (acc : Nat) :
    parseDigits (c :: l) acc
      = if c.isDigit then parseDigits l (acc * 10 + (c.toNat - 48)) else (acc, c :: l) := rfl

theorem parseDigits_digit_run (A : List Char) :
    ∀ r acc, (∀ c ∈ A, c.isDigit = true) →
      parseDigits (A ++ r) acc = parseDigits r (A.foldl (fun a c => a * 10 + (c.toNat - 48)) acc) := by
  induction A with
  | nil => intro r acc _; rfl
  | cons c tl ih =>
      intro r acc hall
      rw [List.cons_append, parseDigits_cons, if_pos (hall c (List.mem_cons_self _ _)),
          ih r _ (fun x hx => hall x (List.mem_cons_of_mem _ hx)), List.foldl_cons]

theorem parseDigits_stop (r : List Char) (acc : Nat) (h : headNotDigit r) :
    parseDigits r acc = (acc, r) := by
  cases r with
  | nil => rfl
  | cons c tl =>
      unfold parseDigits
      unfold headNotDigit at h
      rw [h]
      simp

theorem parseDigits_natToChars (n : Nat) (r : List Char) (h : headNotDigit r) :
    parseDigits (natToChars n ++ r) 0 = (n, r) := by
  rw [parseDigits_digit_run (natToChars n) r 0
        (natToCharsAux_all_digits n n (le_refl n)),
      parseDigits_stop r _ h]
  have := charsVal_natToChars n
  unfold charsVal at this
  rw [this]

theorem parseHexDigit_hexDigit : ∀ d, d < 16 → parseHexDigit (hexDigit d) = some d := by decide

theorem parseHex4_hex4 (n : Nat) (h : n < 65536) (r : List Char) :
    parseHex4 (hex4 n ++ r) = some (n, r) := by
  show parseHex4
      (hexDigit (n / 4096 % 16) :: hexDigit (n / 256 % 16) :: hexDigit (n / 16 % 16)
        :: hexDigit (n % 16) :: r) = some (n, r)
  show (match parseHexDigit (hexDigit (n / 4096 % 16)), parseHexDigit (hexDigit (n / 256 % 16)),
        parseHexDigit (hexDigit (n / 16 % 16)), parseHexDigit (hexDigit (n % 16)) with
      | some d1, some d2, some d3, some d4 =>
          some (d1 * 4096 + d2 * 256 + d3 * 16 + d4, r)
      | _, _, _, _ => none) = some (n, r)
  rw [parseHexDigit_hexDigit _ (by omega), parseHexDigit_hexDigit _ (by omega), parseHexDigit_hexDigit _ (by omega), parseHexDigit_hexDigit _ (by omega)]
  dsimp only
  congr 2
  omega

theorem parseEscape_quote (r : List Char) : parseEscape ('"' :: r) = some ('"', r) := rfl

theorem parseEscape_backslash (r : List Char) : parseEscape ('\\' :: r) = some ('\\', r) := rfl

theorem parseEscape_b (r : List Char) : parseEscape ('b' :: r) = some (Char.ofNat 8, r) := rfl

theorem parseEscape_f (r : List Char) : parseEscape ('f' :: r) = some (Char.ofNat 12, r) := rfl

theorem parseEscape_n (r : List Char) : parseEscape ('n' :: r) = some ('\n', r) := rfl

theorem parseEscape_r (r : List Char) : parseEscape ('r' :: r) = some ('\r', r) := rfl

theorem parseEscape_t (r : List Char) : parseEscape ('t' :: r) = some ('\t', r) := rfl

theorem parseEscape_u (c1 c2 c3 c4 : Char) (r : List Char) :
    parseEscape ('u' :: c1 :: c2 :: c3 :: c4 :: r) =
      match parseHex4 (c1 :: c2 :: c3 :: [c4]) with
      | none => none
      | some (n, _) =>
        if 55296 ≤ n ∧ n ≤ 56319 then
          match r with
          | b1 :: b2 :: d1 :: d2 :: d3 :: d4 :: r2 =>
            if b1 = '\\' ∧ b2 = 'u' then
              match parseHex4 (d1 :: d2 :: d3 :: [d4]) with
              | none => none
              | some (m, _) =>
                if 56320 ≤ m ∧ m ≤ 57343 then
                  some (Char.ofNat (65536 + (n - 55296) * 1024 + (m - 56320)), r2)
                else none
            else none
          | _ => none
        else if 56320 ≤ n ∧ n ≤ 57343 then none
        else some (Char.ofNat n, r) := rfl

theorem parseEscape_u_bmp (n : Nat) (h1 : n < 65536) (hno : ¬(55296 ≤ n ∧ n ≤ 56319))
    (hno2 : ¬(56320 ≤ n ∧ n ≤ 57343)) (r : List Char) :
    parseEscape ('u' :: (hex4 n ++ r)) = some (Char.ofNat n, r) := by
  simp only [hex4, List.cons_append, List.nil_append]
  rw [parseEscape_u]
  rw [show (hexDigit (n / 4096 % 16) :: hexDigit (n / 256 % 16) :: hexDigit (n / 16 % 16)
        :: [hexDigit (n % 16)]) = hex4 n ++ [] from by simp [hex4]]
  rw [parseHex4_hex4 n h1 []]
  dsimp only
  rw [if_neg hno, if_neg hno2]

theorem parseEscape_u_pair (n m : Nat) (hn1 : 55296 ≤ n) (hn2 : n ≤ 56319)
    (hm1 : 56320 ≤ m) (hm2 : m ≤ 57343) (r : List Char) :
    parseEscape ('u' :: (hex4 n ++ ('\\' :: 'u' :: (hex4 m ++ r)))) =
      some (Char.ofNat (65536 + (n - 55296) * 1024 + (m - 56320)), r) := by
  simp only [hex4, List.cons_append, List.nil_append]
  rw [parseEscape_u]
  rw [show (hexDigit (n / 4096 % 16) :: hexDigit (n / 256 % 16) :: hexDigit (n / 16 % 16)
        :: [hexDigit (n % 16)]) = hex4 n ++ [] from by simp [hex4]]
  rw [parseHex4_hex4 n (by omega) []]
  dsimp only
  rw [if_pos (And.intro hn1 hn2)]
  rw [if_pos (And.intro rfl rfl)]
  rw [show (hexDigit (m / 4096 % 16) :: hexDigit (m / 256 % 16) :: hexDigit (m / 16 % 16)
        :: [hexDigit (m % 16)]) = hex4 m ++ [] from by simp [hex4]]
  rw [parseHex4_hex4 m (by omega) []]
  dsimp only
  rw [if_pos (And.intro hm1 hm2)]

theorem parseStringBody_cons (fuel : Nat) (c : Char) (rest : List Char) :
    parseStringBody (fuel + 1) (c :: rest) =
      if c = '"' then some ([], rest)
      else if c = '\\' then
        match parseEscape rest with
        | none => none
        | some (ch, rest2) =>
          match parseStringBody fuel rest2 with
          | none => none
          | some (s, r) => some (ch :: s, r)
      else if c.toNat < 32 then none
      else
        match parseStringBody fuel rest with
        | none => none
        | some (s, r) => some (c :: s, r) := rfl

theorem parseStringBody_escape (s : List Char) :
    ∀ fuel rest, s.length < fuel →
      parseStringBody fuel (escapeChars s ++ '"' :: rest) = some (s, rest) := by
  induction s with
  | nil =>
      intro fuel rest hf
      cases fuel with
      | zero => omega
      | succ f =>
          show parseStringBody (f + 1) ('"' :: rest) = some ([], rest)
          rw [parseStringBody_cons, if_pos rfl]
  | cons c cs ih =>
      intro fuel rest hf
      cases fuel with
      | zero => omega
      | succ f =>
          have hf2 : cs.length < f := by
            have := hf
            simp only [List.length_cons] at this
            omega
          show parseStringBody (f + 1) ((escapeChar c ++ escapeChars cs) ++ '"' :: rest)
            = some (c :: cs, rest)
          rw [List.append_assoc]
          have hv := char_valid c
          unfold escapeChar
          simp only
          by_cases h1 : c = '"'
          · rw [if_pos h1]
            subst h1
            simp only [List.cons_append, List.nil_append]
            rw [parseStringBody_cons, if_neg (by decide), if_pos rfl, parseEscape_quote]
            dsimp only
            rw [ih f rest hf2]
          rw [if_neg h1]
          by_cases h2 : c = '\\'
          · rw [if_pos h2]
            subst h2
            simp only [List.cons_append, List.nil_append]
            rw [parseStringBody_cons, if_neg (by decide), if_pos rfl, parseEscape_backslash]
            dsimp only
            rw [ih f rest hf2]
          rw [if_neg h2]
          by_cases h3 : c = '\n'
          · rw [if_pos h3]
            subst h3
            simp only [List.cons_append, List.nil_append]
            rw [parseStringBody_cons, if_neg (by decide), if_pos rfl, parseEscape_n]
            dsimp only
            rw [ih f rest hf2]
          rw [if_neg h3]
          by_cases h4 : c = '\r'
          · rw [if_pos h4]
            subst h4
            simp only [List.cons_append, List.nil_append]
            rw [parseStringBody_cons, if_neg (by decide), if_pos rfl, parseEscape_r]
            dsimp only
            rw [ih f rest hf2]
          rw [if_neg h4]
          by_cases h5 : c = '\t'
          · rw [if_pos h5]
            subst h5
            simp only [List.cons_append, List.nil_append]
            rw [parseStringBody_cons, if_neg (by decide), if_pos rfl, parseEscape_t]
            dsimp only
            rw [ih f rest hf2]
          rw [if_neg h5]
          by_cases h6 : c.toNat = 8
          · rw [if_pos h6]
            have hc : Char.ofNat 8 = c := by rw [← h6]; exact Char.ofNat_toNat c
            simp only [List.cons_append, List.nil_append]
            rw [parseStringBody_cons, if_neg (by decide), if_pos rfl, parseEscape_b]
            dsimp only
            rw [ih f rest hf2, hc]
          rw [if_neg h6]
          by_cases h7 : c.toNat = 12
          · rw [if_pos h7]
            have hc : Char.ofNat 12 = c := by rw [← h7]; exact Char.ofNat_toNat c
            simp only [List.cons_append, List.nil_append]
            rw [parseStringBody_cons, if_neg (by decide), if_pos rfl, parseEscape_f]
            dsimp only
            rw [ih f rest hf2, hc]
          rw [if_neg h7]
          by_cases h8 : c.toNat < 32
          · rw [if_pos h8]
            simp only [hex4, List.cons_append, List.nil_append]
            rw [parseStringBody_cons, if_neg (by decide), if_pos rfl]
            rw [show hexDigit (c.toNat / 4096 % 16) :: hexDigit (c.toNat / 256 % 16)
                  :: hexDigit (c.toNat / 16 % 16) :: hexDigit (c.toNat % 16)
                  :: (escapeChars cs ++ '"' :: rest)
                = hex4 c.toNat ++ (escapeChars cs ++ '"' :: rest) from by simp [hex4]]
            rw [parseEscape_u_bmp c.toNat (by omega) (by omega) (by omega)]
            dsimp only
            rw [ih f rest hf2, Char.ofNat_toNat]
          rw [if_neg h8]
          by_cases h9 : c.toNat < 127
          · rw [if_pos h9]
            simp only [List.cons_append, List.nil_append]
            rw [parseStringBody_cons, if_neg h1, if_neg h2, if_neg h8]
            rw [ih f rest hf2]
          rw [if_neg h9]
          by_cases h10 : c.toNat < 65536
          · rw [if_pos h10]
            simp only [hex4, List.cons_append, List.nil_append]
            rw [parseStringBody_cons, if_neg (by decide), if_pos rfl]
            rw [show hexDigit (c.toNat / 4096 % 16) :: hexDigit (c.toNat / 256 % 16)
                  :: hexDigit (c.toNat / 16 % 16) :: hexDigit (c.toNat % 16)
                  :: (escapeChars cs ++ '"' :: rest)
                = hex4 c.toNat ++ (escapeChars cs ++ '"' :: rest) from by simp [hex4]]
            rw [parseEscape_u_bmp c.toNat (by omega)
                (by rcases hv with h | h <;> omega) (by rcases hv with h | h <;> omega)]
            dsimp only
            rw [ih f rest hf2, Char.ofNat_toNat]
          rw [if_neg h10]
          have hval : c.toNat < 1114112 := by rcases hv with h | h <;> omega
          simp only [hex4, List.cons_append, List.nil_append, List.append_assoc]
          rw [parseStringBody_cons, if_neg (by decide), if_pos rfl]
          rw [show hexDigit ((55296 + (c.toNat - 65536) / 1024) / 4096 % 16)
                :: hexDigit ((55296 + (c.toNat - 65536) / 1024) / 256 % 16)
                :: hexDigit ((55296 + (c.toNat - 65536) / 1024) / 16 % 16)
                :: hexDigit ((55296 + (c.toNat - 65536) / 1024) % 16)
                :: '\\' :: 'u'
                :: hexDigit ((56320 + (c.toNat - 65536) % 1024) / 4096 % 16)
                :: hexDigit ((56320 + (c.toNat - 65536) % 1024) / 256 % 16)
                :: hexDigit ((56320 + (c.toNat - 65536) % 1024) / 16 % 16)
                :: hexDigit ((56320 + (c.toNat - 65536) % 1024) % 16)
                :: (escapeChars cs ++ '"' :: rest)
              = hex4 (55296 + (c.toNat - 65536) / 1024)
                  ++ ('\\' :: 'u' :: (hex4 (56320 + (c.toNat - 65536) % 1024)
                    ++ (escapeChars cs ++ '"' :: rest))) from by simp [hex4]]
          rw [parseEscape_u_pair _ _ (by omega) (by omega) (by omega) (by omega)]
          dsimp only
          rw [ih f rest hf2]
          rw [show 65536 + (55296 + (c.toNat - 65536) / 1024 - 55296) * 1024
                + (56320 + (c.toNat - 65536) % 1024 - 56320) = c.toNat from by omega,
              Char.ofNat_toNat]


/-! ## Serializer shape lemmas -/

theorem char_ne_of_toNat_ne {c d : Char} (h : c.toNat ≠ d.toNat) : c ≠ d :=
  fun hh => h (by rw [hh])

theorem digit_range {c : Char} (h : c.isDigit = true) : 48 ≤ c.toNat ∧ c.toNat ≤ 57 := by
  unfold Char.isDigit at h
  simp only [Bool.and_eq_true, decide_eq_true_eq] at h
  obtain ⟨a, b⟩ := h
  have ha : (48 : UInt32).toNat ≤ c.val.toNat := a
  have hb : c.val.toNat ≤ (57 : UInt32).toNat := b
  have h1 : (48 : UInt32).toNat = 48 := rfl
  have h2 : (57 : UInt32).toNat = 57 := rfl
  unfold Char.toNat
  omega

theorem isJsonWs_false {c : Char} (h1 : c.toNat ≠ 32) (h2 : c.toNat ≠ 9)
    (h3 : c.toNat ≠ 10) (h4 : c.toNat ≠ 13) : isJsonWs c = false := by
  simp only [isJsonWs, Bool.or_eq_false_iff, decide_eq_false_iff_not]
  exact ⟨⟨⟨char_ne_of_toNat_ne (by intro hh; rw [hh] at h1; exact h1 rfl),
    char_ne_of_toNat_ne (by intro hh; rw [hh] at h2; exact h2 rfl)⟩,
    char_ne_of_toNat_ne (by intro hh; rw [hh] at h3; exact h3 rfl)⟩,
    char_ne_of_toNat_ne (by intro hh; rw [hh] at h4; exact h4 rfl)⟩

theorem skipWs_cons_nonws {c : Char} (r : List Char) (h : isJsonWs c = false) :
    skipWs (c :: r) = c :: r := by
  unfold skipWs; rw [h]; simp

theorem natToCharsAux_ne_nil (fuel n : Nat) : natToCharsAux fuel n ≠ [] := by
  cases fuel <;> unfold natToCharsAux
  · simp
  · split <;> simp

theorem natToChars_shape (n : Nat) :
    ∃ d ds, natToChars n = d :: ds ∧ d.isDigit = true
      ∧ ∀ c ∈ ds, c.isDigit = true := by
  have hne := natToCharsAux_ne_nil n n
  have hall := natToCharsAux_all_digits n n (le_refl n)
  unfold natToChars
  cases hl : natToCharsAux n n with
  | nil => exact absurd hl hne
  | cons d ds =>
      refine ⟨d, ds, rfl, ?_, ?_⟩
      · exact hall d (by rw [hl]; exact List.mem_cons_self _ _)
      · intro c hc
        exact hall c (by rw [hl]; exact List.mem_cons_of_mem _ hc)

theorem natToCharsAux_head_ne_zero (fuel : Nat) : ∀ n, n ≤ fuel → 1 ≤ n →
    ∀ d ds, natToCharsAux fuel n = d :: ds → d ≠ '0' := by
  induction fuel with
  | zero =>
      intro n h1 h2
      omega
  | succ fuel ih =>
      intro n h1 h2 d ds hd
      unfold natToCharsAux at hd
      by_cases hn : n < 10
      · rw [if_pos hn] at hd
        injection hd with h3 _
        subst h3
        exact char_ne_of_toNat_ne
          (by rw [digit_toNat n hn, show ('0').toNat = 48 from rfl]; omega)
      · rw [if_neg hn] at hd
        cases hx : natToCharsAux fuel (n / 10) with
        | nil => exact absurd hx (natToCharsAux_ne_nil fuel (n / 10))
        | cons d1 ds1 =>
            rw [hx, List.cons_append] at hd
            injection hd with h3 _
            subst h3
            exact ih (n / 10) (by omega) (by omega) d1 ds1 hx

/-- The decimal rendering of a positive number starts with a nonzero digit. -/
theorem natToChars_head_ne_zero (n : Nat) (h : 1 ≤ n) (d : Char) (ds : List Char)
    (hd : natToChars n = d :: ds) : d ≠ '0' :=
  natToCharsAux_head_ne_zero n n (le_refl n) h d ds hd

theorem dumpJson_shape (v : Json) :
    ∃ c cs, dumpJson v = c :: cs ∧ isJsonWs c = false ∧ c ≠ ']' ∧ c ≠ '\x7d' := by
  cases v with
  | null => exact ⟨'n', _, rfl, by decide, by decide, by decide⟩
  | bool b =>
      cases b
      · exact ⟨'f', _, rfl, by decide, by decide, by decide⟩
      · exact ⟨'t', _, rfl, by decide, by decide, by decide⟩
  | num i =>
      show ∃ c cs, intToChars i = c :: cs ∧ _
      unfold intToChars
      split
      · exact ⟨'-', _, rfl, by decide, by decide, by decide⟩
      · obtain ⟨d, ds, hd, hdig, _⟩ := natToChars_shape i.toNat
        obtain ⟨h48, h57⟩ := digit_range hdig
        refine ⟨d, ds, hd, isJsonWs_false (by omega) (by omega) (by omega) (by omega), ?_, ?_⟩
        · exact char_ne_of_toNat_ne (by intro hh; rw [show (']').toNat = 93 from rfl] at hh; omega)
        · exact char_ne_of_toNat_ne (by intro hh; rw [show ('\x7d').toNat = 125 from rfl] at hh; omega)
  | str s => exact ⟨'"', _, rfl, by decide, by decide, by decide⟩
  | arr xs => exact ⟨'[', _, rfl, by decide, by decide, by decide⟩
  | obj kvs => exact ⟨'\x7b', _, rfl, by decide, by decide, by decide⟩

theorem dumpJson_len (v : Json) : 1 ≤ (dumpJson v).length := by
  obtain ⟨c, cs, h, _⟩ := dumpJson_shape v
  rw [h]; simp

set_option maxHeartbeats 1000000 in
theorem escapeChar_len (c : Char) : 1 ≤ (escapeChar c).length := by
  unfold escapeChar
  simp only
  split_ifs <;> simp [hex4]

theorem escapeChars_len (s : List Char) : s.length ≤ (escapeChars s).length := by
  induction s with
  | nil => simp [escapeChars]
  | cons c cs ih =>
      show cs.length + 1 ≤ (escapeChar c ++ escapeChars cs).length
      rw [List.length_append]
      have := escapeChar_len c
      omega

mutual
/-- The parser call depth of a value is at most its serialized length. -/
theorem depthV_le (v : Json) : depthV v ≤ (dumpJson v).length := by
  cases v with
  | null => decide
  | bool b => cases b <;> decide
  | num i =>
      show 1 ≤ (dumpJson (.num i)).length
      exact dumpJson_len _
  | str s =>
      show 1 ≤ (dumpJson (.str s)).length
      exact dumpJson_len _
  | arr xs =>
      show 1 + depthL xs ≤ ('[' :: (dumpList xs ++ [']'])).length
      have := depthL_le xs
      simp only [List.length_cons, List.length_append, List.length_singleton]
      omega
  | obj kvs =>
      show 1 + depthO kvs ≤ ('\x7b' :: (dumpObj kvs ++ ['\x7d'])).length
      have := depthO_le kvs
      simp only [List.length_cons, List.length_append, List.length_singleton]
      omega
theorem depthL_le (xs : JsonList) : depthL xs ≤ (dumpList xs).length + 1 := by
  cases xs with
  | nil => decide
  | cons x tl =>
      have hx := depthV_le x
      have h1 := dumpJson_len x
      cases tl with
      | nil =>
          show 1 + max (depthV x) (depthL .nil) ≤ (dumpJson x).length + 1
          have : depthL JsonList.nil = 0 := rfl
          rw [this, Nat.max_eq_left (Nat.zero_le _)]
          omega
      | cons y tl2 =>
          have htl := depthL_le (JsonList.cons y tl2)
          show 1 + max (depthV x) (depthL (.cons y tl2))
            ≤ (dumpJson x ++ ',' :: dumpList (.cons y tl2)).length + 1
          simp only [List.length_append, List.length_cons]
          have hm : max (depthV x) (depthL (JsonList.cons y tl2))
              ≤ (dumpJson x).length + (dumpList (JsonList.cons y tl2)).length + 1 := by
            apply Nat.max_le.mpr
            constructor <;> omega
          omega
theorem depthO_le (kvs : JsonObj) : depthO kvs ≤ (dumpObj kvs).length + 1 := by
  cases kvs with
  | nil => decide
  | cons k v tl =>
      have hv := depthV_le v
      have h1 := dumpJson_len v
      cases tl with
      | nil =>
          show 1 + max (depthV v) (depthO .nil)
            ≤ ('"' :: (escapeChars k.data ++ '"' :: ':' :: dumpJson v)).length + 1
          have h0 : depthO JsonObj.nil = 0 := rfl
          rw [h0, Nat.max_eq_left (Nat.zero_le _)]
          simp only [List.length_cons, List.length_append]
          omega
      | cons k2 v2 tl2 =>
          have htl := depthO_le (JsonObj.cons k2 v2 tl2)
          show 1 + max (depthV v) (depthO (.cons k2 v2 tl2))
            ≤ (('"' :: (escapeChars k.data ++ '"' :: ':' :: dumpJson v))
                ++ ',' :: dumpObj (.cons k2 v2 tl2)).length + 1
          simp only [List.length_append, List.length_cons]
          have hm : max (depthV v) (depthO (JsonObj.cons k2 v2 tl2))
              ≤ (escapeChars k.data).length + (dumpJson v).length
                + (dumpObj (JsonObj.cons k2 v2 tl2)).length + 3 := by
            apply Nat.max_le.mpr
            constructor <;> omega
          omega
end

/-! ## Python dict insertion lemmas -/

theorem keyAbsent_objInsert (k2 k : String) (v : Json) (o : JsonObj)
    (hne : k2 ≠ k) (h : keyAbsent k2 o = true) :
    keyAbsent k2 (objInsert k v o) = true := by
  cases o with
  | nil =>
      show (!(k2 == k) && keyAbsent k2 .nil) = true
      simp [keyAbsent, hne]
  | cons kk vv tl =>
      unfold keyAbsent at h
      rw [Bool.and_eq_true] at h
      unfold objInsert
      split
      · show (!(k2 == kk) && keyAbsent k2 tl) = true
        rw [Bool.and_eq_true]
        exact ⟨h.1, h.2⟩
      · show (!(k2 == kk) && keyAbsent k2 (objInsert k v tl)) = true
        rw [Bool.and_eq_true]
        exact ⟨h.1, keyAbsent_objInsert k2 k v tl hne h.2⟩

theorem keyAbsent_oconc (k : String) (a b : JsonObj) :
    keyAbsent k (oconc a b) = (keyAbsent k a && keyAbsent k b) := by
  cases a with
  | nil => simp [oconc, keyAbsent]
  | cons kk vv tl =>
      show (!(k == kk) && keyAbsent k (oconc tl b))
        = ((!(k == kk) && keyAbsent k tl) && keyAbsent k b)
      rw [keyAbsent_oconc k tl b, Bool.and_assoc]

theorem oconc_assoc (a b c : JsonObj) : oconc (oconc a b) c = oconc a (oconc b c) := by
  cases a with
  | nil => rfl
  | cons kk vv tl =>
      show JsonObj.cons kk vv (oconc (oconc tl b) c) = _
      rw [oconc_assoc tl b c]
      rfl

theorem oconc_nil_right (a : JsonObj) : oconc a .nil = a := by
  cases a with
  | nil => rfl
  | cons kk vv tl =>
      show JsonObj.cons kk vv (oconc tl .nil) = _
      rw [oconc_nil_right tl]

theorem objInsert_absent (k : String) (v : Json) (o : JsonObj)
    (h : keyAbsent k o = true) : objInsert k v o = oconc o (.cons k v .nil) := by
  cases o with
  | nil => rfl
  | cons kk vv tl =>
      unfold keyAbsent at h
      rw [Bool.and_eq_true] at h
      unfold objInsert
      rw [if_neg (by simpa using h.1), objInsert_absent k v tl h.2]
      rfl

theorem keysAbsent_nil_left (kvs : JsonObj) : keysAbsent .nil kvs = true := by
  cases kvs with
  | nil => rfl
  | cons k v tl =>
      show (keyAbsent k .nil && keysAbsent .nil tl) = true
      simp [keyAbsent, keysAbsent_nil_left tl]

theorem keysAbsent_oconc (a b tl : JsonObj) :
    keysAbsent (oconc a b) tl = (keysAbsent a tl && keysAbsent b tl) := by
  cases tl with
  | nil => rfl
  | cons k v tl2 =>
      show (keyAbsent k (oconc a b) && keysAbsent (oconc a b) tl2) = _
      rw [keyAbsent_oconc, keysAbsent_oconc a b tl2]
      show _ = (keyAbsent k a && keysAbsent a tl2 && (keyAbsent k b && keysAbsent b tl2))
      cases keyAbsent k a <;> cases keysAbsent a tl2
        <;> cases keyAbsent k b <;> cases keysAbsent b tl2 <;> rfl

theorem keysAbsent_single (k : String) (v : Json) (tl : JsonObj)
    (h : keyAbsent k tl = true) : keysAbsent (.cons k v .nil) tl = true := by
  cases tl with
  | nil => rfl
  | cons k2 v2 tl2 =>
      unfold keyAbsent at h
      rw [Bool.and_eq_true] at h
      show (keyAbsent k2 (.cons k v .nil) && keysAbsent (.cons k v .nil) tl2) = true
      rw [Bool.and_eq_true]
      constructor
      · show (!(k2 == k) && keyAbsent k2 .nil) = true
        have hne : k ≠ k2 := by simpa using h.1
        simp [keyAbsent, Ne.symm hne]
      · exact keysAbsent_single k v tl2 h.2

theorem objAppend_oconc (kvs : JsonObj) : ∀ acc, keysAbsent acc kvs = true →
    nodupO kvs = true → objAppend acc kvs = oconc acc kvs := by
  cases kvs with
  | nil =>
      intro acc _ _
      show acc = oconc acc .nil
      rw [oconc_nil_right]
  | cons k v tl =>
      intro acc hka hnd
      unfold keysAbsent at hka
      rw [Bool.and_eq_true] at hka
      unfold nodupO at hnd
      rw [Bool.and_eq_true, Bool.and_eq_true] at hnd
      show objAppend (objInsert k v acc) tl = _
      rw [objInsert_absent k v acc hka.1]
      rw [objAppend_oconc tl (oconc acc (.cons k v .nil))
            (by rw [keysAbsent_oconc, Bool.and_eq_true]
                exact ⟨hka.2, keysAbsent_single k v tl hnd.1.1⟩)
            hnd.2]
      rw [oconc_assoc]
      rfl

theorem objAppend_nil (kvs : JsonObj) (h : nodupO kvs = true) :
    objAppend .nil kvs = kvs := by
  rw [objAppend_oconc kvs .nil (keysAbsent_nil_left kvs) h]
  rfl


/-! ## Parser unfolding equations -/

theorem parseVal_succ (fuel : Nat) (l : List Char) :
    parseVal (fuel + 1) l =
      match skipWs l with
      | [] => none
      | c :: rest =>
        if c = 'n' then
          match rest with
          | 'u' :: 'l' :: 'l' :: r => some (.null, r)
          | _ => none
        else if c = 't' then
          match rest with
          | 'r' :: 'u' :: 'e' :: r => some (.bool true, r)
          | _ => none
        else if c = 'f' then
          match rest with
          | 'a' :: 'l' :: 's' :: 'e' :: r => some (.bool false, r)
          | _ => none
        else if c = '"' then
          (parseStringBody (rest.length + 1) rest).map (fun p => (.str (String.mk p.1), p.2))
        else if c = '-' then
          match rest with
          | d :: r2 =>
              if d.isDigit then
                if d = '0' then some (.num (-(0 : Int)), r2)
                else
                  let p := parseDigits (d :: r2) 0
                  some (.num (-(p.1 : Int)), p.2)
              else none
          | [] => none
        else if c.isDigit then
          if c = '0' then some (.num 0, rest)
          else
            let p := parseDigits (c :: rest) 0
            some (.num (p.1 : Int), p.2)
        else if c = '[' then
          match skipWs rest with
          | c2 :: r2 =>
              if c2 = ']' then some (.arr .nil, r2)
              else parseElems fuel (c2 :: r2)
          | [] => none
        else if c = '\x7b' then
          match skipWs rest with
          | c2 :: r2 =>
              if c2 = '\x7d' then some (.obj .nil, r2)
              else parseMembers fuel (c2 :: r2) JsonObj.nil
          | [] => none
        else none := rfl

theorem parseElems_succ (fuel : Nat) (l : List Char) :
    parseElems (fuel + 1) l =
      match parseVal fuel l with
      | none => none
      | some (v, r) =>
        match skipWs r with
        | ',' :: r2 =>
            match parseElems fuel r2 with
            | some (Json.arr tl, r3) => some (.arr (.cons v tl), r3)
            | _ => none
        | ']' :: r2 => some (.arr (.cons v .nil), r2)
        | _ => none := rfl

theorem parseMembers_succ (fuel : Nat) (l : List Char) (acc : JsonObj) :
    parseMembers (fuel + 1) l acc =
      match skipWs l with
      | c :: rest =>
        if c = '"' then
          match parseStringBody (rest.length + 1) rest with
          | none => none
          | some (ks, r1) =>
            match skipWs r1 with
            | ':' :: r2 =>
              match parseVal fuel r2 with
              | none => none
              | some (v, r3) =>
                let acc2 := objInsert (String.mk ks) v acc
                match skipWs r3 with
                | ',' :: r4 => parseMembers fuel r4 acc2
                | c5 :: r5 => if c5 = '\x7d' then some (.obj acc2, r5) else none
                | [] => none
            | _ => none
        else none
      | [] => none := rfl

theorem dumpList_cons_shape (x : Json) (tl : JsonList) :
    ∃ c cs, dumpList (.cons x tl) = c :: cs ∧ isJsonWs c = false ∧ c ≠ ']' ∧ c ≠ '\x7d' := by
  obtain ⟨c, cs, hx, h1, h2, h3⟩ := dumpJson_shape x
  cases tl with
  | nil => exact ⟨c, cs, hx, h1, h2, h3⟩
  | cons y tl2 =>
      refine ⟨c, cs ++ ',' :: dumpList (.cons y tl2), ?_, h1, h2, h3⟩
      show dumpJson x ++ ',' :: dumpList (.cons y tl2) = _
      rw [hx]
      rfl

theorem dumpObj_cons_shape (k : String) (v : Json) (tl : JsonObj) :
    ∃ cs, dumpObj (.cons k v tl) = '"' :: cs := by
  cases tl with
  | nil => exact ⟨_, rfl⟩
  | cons k2 v2 tl2 =>
      refine ⟨(escapeChars k.data ++ '"' :: ':' :: dumpJson v)
        ++ ',' :: dumpObj (.cons k2 v2 tl2), ?_⟩
      rfl


theorem headNotDigit_cons (c : Char) (Z : List Char) (h : c.isDigit = false) :
    headNotDigit (c :: Z) := h

/-! ## The parser inverts the serializer -/

theorem parse_dump_all : ∀ fuel : Nat,
    (∀ w rest, depthV w < fuel → nodupV w = true → headNotDigit rest →
       parseVal fuel (dumpJson w ++ rest) = some (w, rest)) ∧
    (∀ xs rest, xs ≠ JsonList.nil → depthL xs < fuel → nodupL xs = true →
       parseElems fuel (dumpList xs ++ ']' :: rest) = some (.arr xs, rest)) ∧
    (∀ kvs acc rest, kvs ≠ JsonObj.nil → depthO kvs < fuel → nodupO kvs = true →
       parseMembers fuel (dumpObj kvs ++ '\x7d' :: rest) acc
         = some (.obj (objAppend acc kvs), rest)) := by
  intro fuel
  induction fuel with
  | zero =>
      refine ⟨?_, ?_, ?_⟩
      · intro w rest hf _ _
        exact absurd hf (Nat.not_lt_zero _)
      · intro xs rest _ hf _
        exact absurd hf (Nat.not_lt_zero _)
      · intro kvs acc rest _ hf _
        exact absurd hf (Nat.not_lt_zero _)
  | succ f ih =>
      obtain ⟨ihV, ihE, ihM⟩ := ih
      refine ⟨?_, ?_, ?_⟩
      · -- parseVal inverts dumpJson
        intro w rest hf hnd hrd
        cases w with
        | null => rfl
        | bool b => cases b <;> rfl
        | num i =>
            show parseVal (f + 1) (intToChars i ++ rest) = some (.num i, rest)
            by_cases hi : i < 0
            · unfold intToChars
              rw [if_pos hi]
              obtain ⟨d, ds, hd2, hdig, _⟩ := natToChars_shape (-i).toNat
              rw [parseVal_succ]
              rw [show ('-' :: natToChars (-i).toNat) ++ rest
                    = '-' :: (natToChars (-i).toNat ++ rest) from rfl]
              rw [skipWs_cons_nonws _ (by decide)]
              try dsimp only
              rw [if_neg (by decide), if_neg (by decide), if_neg (by decide),
                  if_neg (by decide), if_pos rfl]
              rw [hd2]
              dsimp only [List.cons_append]
              rw [if_pos hdig]
              try dsimp only
              rw [show d :: (ds ++ rest) = natToChars (-i).toNat ++ rest from by rw [hd2]; rfl]
              rw [parseDigits_natToChars _ rest hrd]
              try dsimp only
              rw [Int.toNat_of_nonneg (by omega), neg_neg]
              rw [if_neg (natToChars_head_ne_zero (-i).toNat (by omega) d ds hd2)]
            · unfold intToChars
              rw [if_neg hi]
              obtain ⟨d, ds, hd2, hdig, _⟩ := natToChars_shape i.toNat
              obtain ⟨h48, h57⟩ := digit_range hdig
              rw [parseVal_succ, hd2]
              dsimp only [List.cons_append]
              rw [skipWs_cons_nonws _
                    (isJsonWs_false (by omega) (by omega) (by omega) (by omega))]
              try dsimp only
              rw [if_neg (char_ne_of_toNat_ne (by rw [show ('n').toNat = 110 from rfl]; omega)),
                  if_neg (char_ne_of_toNat_ne (by rw [show ('t').toNat = 116 from rfl]; omega)),
                  if_neg (char_ne_of_toNat_ne (by rw [show ('f').toNat = 102 from rfl]; omega)),
                  if_neg (char_ne_of_toNat_ne (by rw [show ('"').toNat = 34 from rfl]; omega)),
                  if_neg (char_ne_of_toNat_ne (by rw [show ('-').toNat = 45 from rfl]; omega)),
                  if_pos hdig]
              try dsimp only
              rw [show d :: (ds ++ rest) = natToChars i.toNat ++ rest from by rw [hd2]; rfl]
              rw [parseDigits_natToChars _ rest hrd]
              try dsimp only
              rw [Int.toNat_of_nonneg (by omega)]
              by_cases hit : i.toNat = 0
              · rw [hit] at hd2
                have hd3 : (['0'] : List Char) = d :: ds := hd2
                injection hd3 with ha hb
                rw [← ha, ← hb, if_pos rfl]
                have hiz : i = 0 := by omega
                rw [hiz]
                rfl
              · rw [if_neg (natToChars_head_ne_zero i.toNat (by omega) d ds hd2)]
        | str s =>
            show parseVal (f + 1) (('"' :: (escapeChars s.data ++ ['"'])) ++ rest)
              = some (.str s, rest)
            rw [parseVal_succ]
            rw [show ('"' :: (escapeChars s.data ++ ['"'])) ++ rest
                  = '"' :: (escapeChars s.data ++ '"' :: rest) from by simp]
            rw [skipWs_cons_nonws _ (by decide)]
            try dsimp only
            rw [if_neg (by decide), if_neg (by decide), if_neg (by decide), if_pos rfl]
            rw [parseStringBody_escape s.data _ rest (by
                  simp only [List.length_append, List.length_cons]
                  have := escapeChars_len s.data
                  omega)]
            rfl
        | arr xs =>
            cases xs with
            | nil => rfl
            | cons x tl =>
                have hdL : depthL (.cons x tl) < f := by
                  have : depthV (.arr (.cons x tl)) = 1 + depthL (.cons x tl) := rfl
                  omega
                obtain ⟨c, cs, hx, hnw, hne1, _⟩ := dumpList_cons_shape x tl
                show parseVal (f + 1)
                    (('[' :: (dumpList (.cons x tl) ++ [']'])) ++ rest)
                  = some (.arr (.cons x tl), rest)
                rw [parseVal_succ]
                rw [show ('[' :: (dumpList (.cons x tl) ++ [']'])) ++ rest
                      = '[' :: (dumpList (.cons x tl) ++ ']' :: rest) from by simp]
                rw [skipWs_cons_nonws _ (by decide)]
                try dsimp only
                rw [if_neg (by decide), if_neg (by decide), if_neg (by decide),
                    if_neg (by decide), if_neg (by decide), if_neg (by decide), if_pos rfl]
                rw [show dumpList (.cons x tl) ++ ']' :: rest
                      = c :: (cs ++ ']' :: rest) from by rw [hx]; rfl]
                rw [skipWs_cons_nonws _ hnw]
                try dsimp only
                rw [if_neg hne1]
                rw [show c :: (cs ++ ']' :: rest)
                      = dumpList (.cons x tl) ++ ']' :: rest from by rw [hx]; rfl]
                exact ihE (.cons x tl) rest (by intro hh; cases hh) hdL hnd
        | obj kvs =>
            cases kvs with
            | nil => rfl
            | cons k v tl =>
                have hdO : depthO (.cons k v tl) < f := by
                  have : depthV (.obj (.cons k v tl)) = 1 + depthO (.cons k v tl) := rfl
                  omega
                obtain ⟨cs, hobj⟩ := dumpObj_cons_shape k v tl
                show parseVal (f + 1)
                    (('\x7b' :: (dumpObj (.cons k v tl) ++ ['\x7d'])) ++ rest)
                  = some (.obj (.cons k v tl), rest)
                rw [parseVal_succ]
                rw [show ('\x7b' :: (dumpObj (.cons k v tl) ++ ['\x7d'])) ++ rest
                      = '\x7b' :: (dumpObj (.cons k v tl) ++ '\x7d' :: rest) from by simp]
                rw [skipWs_cons_nonws _ (by decide)]
                try dsimp only
                rw [if_neg (by decide), if_neg (by decide), if_neg (by decide),
                    if_neg (by decide), if_neg (by decide), if_neg (by decide),
                    if_neg (by decide), if_pos rfl]
                rw [show dumpObj (.cons k v tl) ++ '\x7d' :: rest
                      = '"' :: (cs ++ '\x7d' :: rest) from by rw [hobj]; rfl]
                rw [skipWs_cons_nonws _ (by decide)]
                try dsimp only
                rw [if_neg (by decide)]
                rw [show ('"' : Char) :: (cs ++ '\x7d' :: rest)
                      = dumpObj (.cons k v tl) ++ '\x7d' :: rest from by rw [hobj]; rfl]
                rw [ihM (.cons k v tl) .nil rest (by intro hh; cases hh) hdO hnd]
                rw [objAppend_nil _ hnd]
      · -- parseElems inverts dumpList on nonempty lists
        intro xs rest hne hf hnd
        cases xs with
        | nil => exact absurd rfl hne
        | cons x tl =>
            have hmax : max (depthV x) (depthL tl) < f := by
              have : depthL (.cons x tl) = 1 + max (depthV x) (depthL tl) := rfl
              omega
            have hdx : depthV x < f := lt_of_le_of_lt (Nat.le_max_left _ _) hmax
            have hdtl : depthL tl < f := lt_of_le_of_lt (Nat.le_max_right _ _) hmax
            have hnd2 : (nodupV x && nodupL tl) = true := hnd
            rw [Bool.and_eq_true] at hnd2
            cases tl with
            | nil =>
                show parseElems (f + 1) (dumpJson x ++ ']' :: rest)
                  = some (.arr (.cons x .nil), rest)
                rw [parseElems_succ]
                rw [ihV x (']' :: rest) hdx hnd2.1 (headNotDigit_cons _ _ (by decide))]
                try dsimp only
                rw [skipWs_cons_nonws _ (by decide)]
                rfl
            | cons y tl2 =>
                show parseElems (f + 1)
                    ((dumpJson x ++ ',' :: dumpList (.cons y tl2)) ++ ']' :: rest)
                  = some (.arr (.cons x (.cons y tl2)), rest)
                rw [List.append_assoc]
                rw [parseElems_succ]
                rw [show (',' :: dumpList (.cons y tl2)) ++ ']' :: rest
                      = ',' :: (dumpList (.cons y tl2) ++ ']' :: rest) from rfl]
                rw [ihV x _ hdx hnd2.1 (headNotDigit_cons _ _ (by decide))]
                try dsimp only
                rw [skipWs_cons_nonws _ (by decide)]
                simp only []
                rw [ihE (.cons y tl2) rest (by intro hh; cases hh) hdtl hnd2.2]
      · -- parseMembers inverts dumpObj on nonempty objects
        intro kvs acc rest hne hf hnd
        cases kvs with
        | nil => exact absurd rfl hne
        | cons k v tl =>
            have hmax : max (depthV v) (depthO tl) < f := by
              have : depthO (.cons k v tl) = 1 + max (depthV v) (depthO tl) := rfl
              omega
            have hdv : depthV v < f := lt_of_le_of_lt (Nat.le_max_left _ _) hmax
            have hdtl : depthO tl < f := lt_of_le_of_lt (Nat.le_max_right _ _) hmax
            have hnd2 : (keyAbsent k tl && nodupV v && nodupO tl) = true := hnd
            rw [Bool.and_eq_true, Bool.and_eq_true] at hnd2
            cases tl with
            | nil =>
                show parseMembers (f + 1)
                    (('"' :: (escapeChars k.data ++ '"' :: ':' :: dumpJson v))
                      ++ '\x7d' :: rest) acc
                  = some (.obj (objAppend acc (.cons k v .nil)), rest)
                rw [parseMembers_succ]
                rw [show ('"' :: (escapeChars k.data ++ '"' :: ':' :: dumpJson v))
                        ++ '\x7d' :: rest
                      = '"' :: (escapeChars k.data
                          ++ '"' :: (':' :: (dumpJson v ++ '\x7d' :: rest))) from by simp]
                rw [skipWs_cons_nonws _ (by decide)]
                try dsimp only
                rw [if_pos rfl]
                rw [parseStringBody_escape k.data _ _ (by
                      simp only [List.length_append, List.length_cons]
                      have := escapeChars_len k.data
                      omega)]
                try dsimp only
                rw [skipWs_cons_nonws _ (by decide)]
                simp only []
                rw [ihV v ('\x7d' :: rest) hdv hnd2.1.2 (headNotDigit_cons _ _ (by decide))]
                try dsimp only
                rw [skipWs_cons_nonws _ (by decide)]
                rfl
            | cons k2 v2 tl2 =>
                show parseMembers (f + 1)
                    ((('"' :: (escapeChars k.data ++ '"' :: ':' :: dumpJson v))
                        ++ ',' :: dumpObj (.cons k2 v2 tl2)) ++ '\x7d' :: rest) acc
                  = some (.obj (objAppend acc (.cons k v (.cons k2 v2 tl2))), rest)
                rw [parseMembers_succ]
                rw [show (('"' :: (escapeChars k.data ++ '"' :: ':' :: dumpJson v))
                        ++ ',' :: dumpObj (.cons k2 v2 tl2)) ++ '\x7d' :: rest
                      = '"' :: (escapeChars k.data
                          ++ '"' :: (':' :: (dumpJson v
                            ++ ',' :: (dumpObj (.cons k2 v2 tl2) ++ '\x7d' :: rest))))
                      from by simp]
                rw [skipWs_cons_nonws _ (by decide)]
                try dsimp only
                rw [if_pos rfl]
                rw [parseStringBody_escape k.data _ _ (by
                      simp only [List.length_append, List.length_cons]
                      have := escapeChars_len k.data
                      omega)]
                try dsimp only
                rw [skipWs_cons_nonws _ (by decide)]
                simp only []
                rw [ihV v _ hdv hnd2.1.2 (headNotDigit_cons _ _ (by decide))]
                try dsimp only
                rw [skipWs_cons_nonws _ (by decide)]
                simp only []
                rw [ihM (.cons k2 v2 tl2) _ rest (by intro hh; cases hh) hdtl hnd2.2]
                rfl


/-! ## Key sorting: `sorted(d.items())` facts -/

theorem charsLt_asymm (a b : List Char) (h : charsLt a b = true) : charsLt b a = false := by
  cases a with
  | nil =>
      cases b with
      | nil => exact absurd h (by decide)
      | cons c cs => rfl
  | cons c cs =>
      cases b with
      | nil =>
          rw [show charsLt (c :: cs) [] = false from rfl] at h
          exact absurd h (by decide)
      | cons d ds =>
          unfold charsLt at h ⊢
          by_cases h1 : c.toNat < d.toNat
          · rw [if_neg (by omega), if_pos h1]
          · rw [if_neg h1] at h
            by_cases h2 : d.toNat < c.toNat
            · rw [if_pos h2] at h
              exact absurd h (by decide)
            · rw [if_neg h2] at h
              rw [if_neg h2, if_neg h1]
              exact charsLt_asymm cs ds h

theorem strLtb_asymm (a b : String) (h : strLtb a b = true) : strLtb b a = false :=
  charsLt_asymm a.data b.data h

theorem strBeq_comm (a b : String) : (a == b) = (b == a) := by
  by_cases h : a = b
  · rw [h]
  · have h2 : ¬ b = a := fun hh => h hh.symm
    simp [h, h2]

theorem insertObj_sorted (k : String) (v : Json) (o : JsonObj)
    (h : objSortedLe o = true) : objSortedLe (insertObj k v o) = true := by
  cases o with
  | nil => rfl
  | cons kk vv tl =>
      show objSortedLe
        (if strLtb kk k then .cons kk vv (insertObj k v tl) else .cons k v (.cons kk vv tl))
        = true
      by_cases hlt : strLtb kk k = true
      · rw [if_pos hlt]
        cases tl with
        | nil =>
            show (!(strLtb k kk) && objSortedLe (.cons k v .nil)) = true
            rw [strLtb_asymm kk k hlt]
            rfl
        | cons k3 v3 tl3 =>
            have h2 : (!(strLtb k3 kk) && objSortedLe (.cons k3 v3 tl3)) = true := h
            rw [Bool.and_eq_true] at h2
            have hins := insertObj_sorted k v (.cons k3 v3 tl3) h2.2
            by_cases h3 : strLtb k3 k = true
            · have hrw : insertObj k v (.cons k3 v3 tl3) = .cons k3 v3 (insertObj k v tl3) := by
                show (if strLtb k3 k then JsonObj.cons k3 v3 (insertObj k v tl3)
                  else .cons k v (.cons k3 v3 tl3)) = _
                rw [if_pos h3]
              rw [hrw]
              show (!(strLtb k3 kk) && objSortedLe (.cons k3 v3 (insertObj k v tl3))) = true
              rw [Bool.and_eq_true]
              refine ⟨h2.1, ?_⟩
              rw [hrw] at hins
              exact hins
            · have hrw : insertObj k v (.cons k3 v3 tl3) = .cons k v (.cons k3 v3 tl3) := by
                show (if strLtb k3 k then JsonObj.cons k3 v3 (insertObj k v tl3)
                  else .cons k v (.cons k3 v3 tl3)) = _
                rw [if_neg h3]
              rw [hrw]
              show (!(strLtb k kk) && objSortedLe (.cons k v (.cons k3 v3 tl3))) = true
              rw [Bool.and_eq_true]
              refine ⟨by rw [strLtb_asymm kk k hlt]; rfl, ?_⟩
              show (!(strLtb k3 k) && objSortedLe (.cons k3 v3 tl3)) = true
              rw [Bool.and_eq_true]
              have h3f : strLtb k3 k = false := by
                cases hb : strLtb k3 k
                · rfl
                · exact absurd hb h3
              exact ⟨by rw [h3f]; rfl, h2.2⟩
      · rw [if_neg hlt]
        show (!(strLtb kk k) && objSortedLe (.cons kk vv tl)) = true
        have hf : strLtb kk k = false := by
          cases hb : strLtb kk k
          · rfl
          · exact absurd hb hlt
        rw [Bool.and_eq_true, hf]
        exact ⟨rfl, h⟩

theorem sortObj_sorted (o : JsonObj) : objSortedLe (sortObj o) = true := by
  cases o with
  | nil => rfl
  | cons k v tl =>
      show objSortedLe (insertObj k v (sortObj tl)) = true
      exact insertObj_sorted k v _ (sortObj_sorted tl)

theorem insertObj_of_head_le (k : String) (v : Json) (o : JsonObj)
    (h : match o with | .nil => True | .cons k2 _ _ => strLtb k2 k = false) :
    insertObj k v o = .cons k v o := by
  cases o with
  | nil => rfl
  | cons k2 v2 tl =>
      unfold insertObj
      rw [if_neg (by rw [h]; exact Bool.false_ne_true)]

theorem sortObj_of_sorted (o : JsonObj) (h : objSortedLe o = true) : sortObj o = o := by
  cases o with
  | nil => rfl
  | cons k v tl =>
      show insertObj k v (sortObj tl) = .cons k v tl
      cases tl with
      | nil => rfl
      | cons k2 v2 tl2 =>
          have h2 : (!(strLtb k2 k) && objSortedLe (.cons k2 v2 tl2)) = true := h
          rw [Bool.and_eq_true] at h2
          rw [sortObj_of_sorted (.cons k2 v2 tl2) h2.2]
          apply insertObj_of_head_le
          show strLtb k2 k = false
          have := h2.1
          cases hb : strLtb k2 k
          · rfl
          · rw [hb] at this; exact absurd this (by decide)

theorem keyAbsent_insertObj2 (k k2 : String) (v : Json) (o : JsonObj) :
    keyAbsent k (insertObj k2 v o) = (!(k == k2) && keyAbsent k o) := by
  cases o with
  | nil =>
      show (!(k == k2) && keyAbsent k .nil) = _
      rfl
  | cons kk vv tl =>
      show keyAbsent k (if strLtb kk k2 then .cons kk vv (insertObj k2 v tl)
        else .cons k2 v (.cons kk vv tl)) = _
      by_cases hlt : strLtb kk k2 = true
      · rw [if_pos hlt]
        show (!(k == kk) && keyAbsent k (insertObj k2 v tl)) = _
        rw [keyAbsent_insertObj2 k k2 v tl]
        show _ = (!(k == k2) && (!(k == kk) && keyAbsent k tl))
        cases k == kk <;> cases k == k2 <;> cases keyAbsent k tl <;> rfl
      · rw [if_neg hlt]
        rfl

theorem keyAbsent_sortObj (k : String) (o : JsonObj) :
    keyAbsent k (sortObj o) = keyAbsent k o := by
  cases o with
  | nil => rfl
  | cons kk vv tl =>
      show keyAbsent k (insertObj kk vv (sortObj tl)) = _
      rw [keyAbsent_insertObj2, keyAbsent_sortObj k tl]
      rfl

theorem nodupO_insertObj (k : String) (v : Json) (o : JsonObj) :
    nodupO (insertObj k v o) = (keyAbsent k o && nodupV v && nodupO o) := by
  cases o with
  | nil => rfl
  | cons kk vv tl =>
      show nodupO (if strLtb kk k then .cons kk vv (insertObj k v tl)
        else .cons k v (.cons kk vv tl)) = _
      by_cases hlt : strLtb kk k = true
      · rw [if_pos hlt]
        show (keyAbsent kk (insertObj k v tl) && nodupV vv && nodupO (insertObj k v tl)) = _
        rw [keyAbsent_insertObj2, nodupO_insertObj k v tl]
        show _ = ((!(k == kk) && keyAbsent k tl) && nodupV v
          && (keyAbsent kk tl && nodupV vv && nodupO tl))
        rw [strBeq_comm kk k]
        cases k == kk <;> cases keyAbsent k tl <;> cases keyAbsent kk tl
          <;> cases nodupV v <;> cases nodupV vv <;> cases nodupO tl <;> rfl
      · rw [if_neg hlt]
        rfl

theorem nodupO_sortObj (o : JsonObj) : nodupO (sortObj o) = nodupO o := by
  cases o with
  | nil => rfl
  | cons k v tl =>
      show nodupO (insertObj k v (sortObj tl)) = _
      rw [nodupO_insertObj, keyAbsent_sortObj, nodupO_sortObj tl]
      rfl

theorem canonO_insertObj (k : String) (v : Json) (o : JsonObj) :
    canonO (insertObj k v o) = (canonV v && canonO o) := by
  cases o with
  | nil => rfl
  | cons kk vv tl =>
      show canonO (if strLtb kk k then .cons kk vv (insertObj k v tl)
        else .cons k v (.cons kk vv tl)) = _
      by_cases hlt : strLtb kk k = true
      · rw [if_pos hlt]
        show (canonV vv && canonO (insertObj k v tl)) = _
        rw [canonO_insertObj k v tl]
        show _ = (canonV v && (canonV vv && canonO tl))
        cases canonV v <;> cases canonV vv <;> cases canonO tl <;> rfl
      · rw [if_neg hlt]
        rfl

theorem canonO_sortObj (o : JsonObj) : canonO (sortObj o) = canonO o := by
  cases o with
  | nil => rfl
  | cons k v tl =>
      show canonO (insertObj k v (sortObj tl)) = _
      rw [canonO_insertObj, canonO_sortObj tl]
      rfl

theorem keyAbsent_deepSortO (k : String) (o : JsonObj) :
    keyAbsent k (deepSortO o) = keyAbsent k o := by
  cases o with
  | nil => rfl
  | cons kk vv tl =>
      show (!(k == kk) && keyAbsent k (deepSortO tl)) = _
      rw [keyAbsent_deepSortO k tl]
      rfl

mutual
/-- `deepSort` produces canonical values: every object sorted, at all levels. -/
theorem canonV_deepSort (v : Json) : canonV (deepSort v) = true := by
  cases v with
  | null => rfl
  | bool b => rfl
  | num i => rfl
  | str s => rfl
  | arr xs =>
      show canonL (deepSortL xs) = true
      exact canonL_deepSortL xs
  | obj kvs =>
      show (objSortedLe (sortObj (deepSortO kvs)) && canonO (sortObj (deepSortO kvs))) = true
      rw [sortObj_sorted, canonO_sortObj, canonO_deepSortO kvs]
      rfl
theorem canonL_deepSortL (xs : JsonList) : canonL (deepSortL xs) = true := by
  cases xs with
  | nil => rfl
  | cons x tl =>
      show (canonV (deepSort x) && canonL (deepSortL tl)) = true
      rw [canonV_deepSort x, canonL_deepSortL tl]
      rfl
theorem canonO_deepSortO (kvs : JsonObj) : canonO (deepSortO kvs) = true := by
  cases kvs with
  | nil => rfl
  | cons k v tl =>
      show (canonV (deepSort v) && canonO (deepSortO tl)) = true
      rw [canonV_deepSort v, canonO_deepSortO tl]
      rfl
end

mutual
/-- `deepSort` is the identity on canonical values. -/
theorem deepSort_of_canon (v : Json) (h : canonV v = true) : deepSort v = v := by
  cases v with
  | null => rfl
  | bool b => rfl
  | num i => rfl
  | str s => rfl
  | arr xs =>
      show Json.arr (deepSortL xs) = Json.arr xs
      rw [deepSortL_of_canon xs h]
  | obj kvs =>
      have h2 : (objSortedLe kvs && canonO kvs) = true := h
      rw [Bool.and_eq_true] at h2
      show Json.obj (sortObj (deepSortO kvs)) = Json.obj kvs
      rw [deepSortO_of_canon kvs h2.2, sortObj_of_sorted kvs h2.1]
theorem deepSortL_of_canon (xs : JsonList) (h : canonL xs = true) : deepSortL xs = xs := by
  cases xs with
  | nil => rfl
  | cons x tl =>
      have h2 : (canonV x && canonL tl) = true := h
      rw [Bool.and_eq_true] at h2
      show JsonList.cons (deepSort x) (deepSortL tl) = _
      rw [deepSort_of_canon x h2.1, deepSortL_of_canon tl h2.2]
theorem deepSortO_of_canon (kvs : JsonObj) (h : canonO kvs = true) : deepSortO kvs = kvs := by
  cases kvs with
  | nil => rfl
  | cons k v tl =>
      have h2 : (canonV v && canonO tl) = true := h
      rw [Bool.and_eq_true] at h2
      show JsonObj.cons k (deepSort v) (deepSortO tl) = _
      rw [deepSort_of_canon v h2.1, deepSortO_of_canon tl h2.2]
end

mutual
/-- `deepSort` preserves freedom from duplicate keys. -/
theorem nodupV_deepSort (v : Json) (h : nodupV v = true) : nodupV (deepSort v) = true := by
  cases v with
  | null => rfl
  | bool b => rfl
  | num i => rfl
  | str s => rfl
  | arr xs =>
      show nodupL (deepSortL xs) = true
      exact nodupL_deepSortL xs h
  | obj kvs =>
      show nodupO (sortObj (deepSortO kvs)) = true
      rw [nodupO_sortObj]
      exact nodupO_deepSortO kvs h
theorem nodupL_deepSortL (xs : JsonList) (h : nodupL xs = true) : nodupL (deepSortL xs) = true := by
  cases xs with
  | nil => rfl
  | cons x tl =>
      have h2 : (nodupV x && nodupL tl) = true := h
      rw [Bool.and_eq_true] at h2
      show (nodupV (deepSort x) && nodupL (deepSortL tl)) = true
      rw [nodupV_deepSort x h2.1, nodupL_deepSortL tl h2.2]
      rfl
theorem nodupO_deepSortO (kvs : JsonObj) (h : nodupO kvs = true) : nodupO (deepSortO kvs) = true := by
  cases kvs with
  | nil => rfl
  | cons k v tl =>
      have h2 : (keyAbsent k tl && nodupV v && nodupO tl) = true := h
      rw [Bool.and_eq_true, Bool.and_eq_true] at h2
      show (keyAbsent k (deepSortO tl) && nodupV (deepSort v) && nodupO (deepSortO tl)) = true
      rw [keyAbsent_deepSortO, h2.1.1, nodupV_deepSort v h2.1.2, nodupO_deepSortO tl h2.2]
      rfl
end

/-- Sorting an already-sorted value changes nothing. -/
theorem deepSort_idem (v : Json) : deepSort (deepSort v) = deepSort v :=
  deepSort_of_canon _ (canonV_deepSort v)


/-- Parsing the serialization of a duplicate-key-free value returns it. -/
theorem loads_mk (w : Json) (h : nodupV w = true) :
    loads (String.mk (dumpJson w)) = some w := by
  unfold loads
  have hdata : (String.mk (dumpJson w)).data = dumpJson w := rfl
  have hfuel : depthV w < (String.mk (dumpJson w)).length + 1 := by
    have h1 := depthV_le w
    have h2 : (String.mk (dumpJson w)).length = (dumpJson w).length := rfl
    omega
  have h1 := (parse_dump_all ((String.mk (dumpJson w)).length + 1)).1 w [] hfuel h trivial
  rw [List.append_nil] at h1
  rw [hdata, h1]
  rfl

/-- `json.loads` inverts `dumps` up to key sorting. -/
theorem loads_dumps (v : Json) (h : nodupV v = true) :
    loads (dumps v) = some (deepSort v) :=
  loads_mk (deepSort v) (nodupV_deepSort v h)

theorem dumps_ne_empty (v : Json) : dumps v ≠ "" := by
  intro hh
  have h2 : dumpJson (deepSort v) = [] := congrArg String.data hh
  have h3 := dumpJson_len (deepSort v)
  rw [h2] at h3
  exact absurd h3 (by decide)

theorem dumps_deepSort (v : Json) : dumps (deepSort v) = dumps v := by
  unfold dumps
  rw [deepSort_idem]


/-- **C8**: for a non-empty body declared `application/json` that parses as
JSON, `canonical_payload_hash` hashes the canonical re-serialization (sorted
keys, compact separators); for a body that does not parse, or a non-JSON
content type, it hashes the raw bytes; for an empty body it hashes the empty
byte string.  It is round-trip stable: hashing the canonical serialization of
a value reproduces the canonical digest of that value. -/
theorem canonical_payload_hash_spec :
    (∀ body ct v, loads body = some v →
        containsSub ((ct.getD "").data.map asciiLower) "application/json".data = true →
        body ≠ "" →
        canonical_payload_hash body ct = sha256hexOfBytes (utf8Bytes (dumps v)))
    ∧ (∀ body ct, loads body = none →
        canonical_payload_hash body ct = sha256hexOfBytes (utf8Bytes body))
    ∧ (∀ body ct,
        containsSub ((ct.getD "").data.map asciiLower) "application/json".data = false →
        canonical_payload_hash body ct = sha256hexOfBytes (utf8Bytes body))
    ∧ (∀ ct, canonical_payload_hash "" ct = sha256hexOfBytes [])
    ∧ (∀ v, nodupV v = true →
        canonical_payload_hash (dumps v) (some "application/json")
          = canonical_payload_hash_from_object (some v)) := by
  refine ⟨?_, ?_, ?_, ?_, ?_⟩
  · intro body ct v hl hct hne
    unfold canonical_payload_hash canonicalPayload
    dsimp only
    rw [if_pos ⟨hne, hct⟩, hl]
  · intro body ct hl
    unfold canonical_payload_hash canonicalPayload
    dsimp only
    by_cases hc : body ≠ ""
      ∧ containsSub ((ct.getD "").data.map asciiLower) "application/json".data = true
    · rw [if_pos hc, hl]
    · rw [if_neg hc]
  · intro body ct hct
    unfold canonical_payload_hash canonicalPayload
    dsimp only
    rw [if_neg (fun hc => by rw [hct] at hc; exact absurd hc.2 (by decide))]
  · intro ct
    unfold canonical_payload_hash canonicalPayload
    dsimp only
    rw [if_neg (fun hc => hc.1 rfl)]
    rfl
  · intro v hnd
    unfold canonical_payload_hash canonicalPayload
    dsimp only
    rw [if_pos ⟨dumps_ne_empty v, by decide⟩]
    rw [loads_dumps v hnd]
    simp only []
    rw [dumps_deepSort]
    rfl

set_option maxRecDepth 100000 in
/-- Concrete check of the canonical payload hash claim on explicit inputs. -/
theorem canonical_payload_hash_spec_witness :
    canonical_payload_hash "\x7b\"b\":2, \"a\":1\x7d" (some "application/json")
        = sha256hexOfBytes (utf8Bytes (dumps (Json.obj (.cons "b" (.num 2)
            (.cons "a" (.num 1) .nil)))))
      ∧ canonical_payload_hash "nope" (some "application/json")
          = sha256hexOfBytes (utf8Bytes "nope")
      ∧ canonical_payload_hash "1" (some "text/plain") = sha256hexOfBytes (utf8Bytes "1")
      ∧ canonical_payload_hash "" none = sha256hexOfBytes []
      ∧ canonical_payload_hash (dumps (Json.num 5)) (some "application/json")
          = canonical_payload_hash_from_object (some (Json.num 5)) :=
  ⟨canonical_payload_hash_spec.1 _ _ _ (by decide) (by decide) (by decide),
   canonical_payload_hash_spec.2.1 _ _ (by decide),
   canonical_payload_hash_spec.2.2.1 _ _ (by decide),
   canonical_payload_hash_spec.2.2.2.1 _,
   canonical_payload_hash_spec.2.2.2.2 _ (by decide)⟩


/-! ## The maker-checker gate and the handler transaction (C6) -/

theorem findApproval_upd (l : List ApprovalRec) (id : Nat) (f : ApprovalRec → ApprovalRec)
    (hid : ∀ a : ApprovalRec, (f a).id = a.id) :
    findApproval (updApproval l id f) id = (findApproval l id).map f := by
  induction l with
  | nil => rfl
  | cons a tl ih =>
      unfold updApproval
      by_cases ha : (a.id == id) = true
      · rw [if_pos ha]
        show List.find? (fun b : ApprovalRec => b.id == id) (f a :: tl)
          = Option.map f (List.find? (fun b : ApprovalRec => b.id == id) (a :: tl))
        rw [List.find?_cons_of_pos (p := fun b : ApprovalRec => b.id == id) _
              (by show ((f a).id == id) = true; rw [hid a]; exact ha),
            List.find?_cons_of_pos (p := fun b : ApprovalRec => b.id == id) _ ha]
        rfl
      · rw [if_neg ha]
        show List.find? (fun b : ApprovalRec => b.id == id) (a :: updApproval tl id f)
          = Option.map f (List.find? (fun b : ApprovalRec => b.id == id) (a :: tl))
        rw [List.find?_cons_of_neg (p := fun b : ApprovalRec => b.id == id) _ ha,
            List.find?_cons_of_neg (p := fun b : ApprovalRec => b.id == id) _ ha]
        exact ih

/-- Inversion of a passing gate: the approval exists, is APPROVED and
unexpired, and the flushed session state consumes exactly that row. -/
theorem enforce_passed_inv (enabled bind : Bool) (path : String) (aid : Nat)
    (db : List ApprovalRec) (now : Timestamp)
    (principal method req_path body : String) (ct : Option String)
    (sess : List ApprovalRec)
    (hpass : enforce_maker_checker enabled bind path (some aid) db now principal method
        req_path body ct = .passed sess) :
    (∃ a, findApproval db aid = some a
      ∧ a.status = ApprovalStatus.APPROVED ∧ now < a.expires_at)
    ∧ sess = updApproval db aid (fun b =>
        { b with status := .CONSUMED, consumed_at := some now }) := by
  unfold enforce_maker_checker at hpass
  by_cases h1 : enabled = true
  case neg =>
    rw [if_pos (by simp [h1])] at hpass
    simp at hpass
  rw [if_neg (by simp [h1])] at hpass
  by_cases h2 : charsStartsWith "/approvals".data path.data = true
  case pos =>
    rw [if_pos h2] at hpass
    simp at hpass
  rw [if_neg h2] at hpass
  simp only [] at hpass
  cases hfa : findApproval db aid with
  | none =>
      rw [hfa] at hpass
      simp at hpass
  | some a =>
      rw [hfa] at hpass
      simp only [] at hpass
      by_cases h3 : a.status ≠ ApprovalStatus.APPROVED
      case pos =>
        rw [if_pos h3] at hpass
        simp at hpass
      rw [if_neg h3] at hpass
      by_cases h4 : a.expires_at ≤ now
      case pos =>
        rw [if_pos h4] at hpass
        simp at hpass
      rw [if_neg h4] at hpass
      by_cases h5 : (bind = true) ∧ a.requested_by ≠ principal
      case pos =>
        rw [if_pos h5] at hpass
        simp at hpass
      rw [if_neg h5] at hpass
      by_cases h6 : a.method ≠ method
      case pos =>
        rw [if_pos h6] at hpass
        simp at hpass
      rw [if_neg h6] at hpass
      by_cases h7 : a.request_path ≠ req_path
      case pos =>
        rw [if_pos h7] at hpass
        simp at hpass
      rw [if_neg h7] at hpass
      by_cases h8 : a.payload_hash ≠ canonical_payload_hash body ct
      case pos =>
        rw [if_pos h8] at hpass
        simp at hpass
      rw [if_neg h8] at hpass
      refine ⟨⟨a, rfl, not_not.mp h3, not_le.mp h4⟩, ?_⟩
      injection hpass with h9
      exact h9.symm

/-- **C6**: for a gated mutating request whose gate passes, the approval is
persisted as CONSUMED with `consumed_at = now` exactly when the handler
commits; when the handler fails after the gate passed, the committed store is
unchanged and the approval remains APPROVED (its `consumed_at` untouched),
because the gate only flushes into the handler's own transaction. -/
theorem gate_consume_iff_commit (enabled bind : Bool) (path : String) (aid : Nat)
    (db : List ApprovalRec) (now : Timestamp)
    (principal method req_path body : String) (ct : Option String)
    (sess : List ApprovalRec) (a : ApprovalRec)
    (hfind : findApproval db aid = some a)
    (hpass : enforce_maker_checker enabled bind path (some aid) db now principal method
        req_path body ct = .passed sess) :
    ((run_gated_mutation enabled bind path (some aid) db now principal method req_path body ct
        .committed).1 = sess
      ∧ findApproval (run_gated_mutation enabled bind path (some aid) db now principal method
            req_path body ct .committed).1 aid
          = some { a with status := .CONSUMED, consumed_at := some now })
    ∧ ((run_gated_mutation enabled bind path (some aid) db now principal method req_path body ct
        .failed).1 = db
      ∧ findApproval (run_gated_mutation enabled bind path (some aid) db now principal method
            req_path body ct .failed).1 aid = some a
      ∧ a.status = ApprovalStatus.APPROVED ∧ now < a.expires_at
      ∧ ((run_gated_mutation enabled bind path (some aid) db now principal method req_path body ct
            .failed).1.map (fun b => b.consumed_at)) = db.map (fun b => b.consumed_at)) := by
  have hinv := enforce_passed_inv enabled bind path aid db now principal method req_path
    body ct sess hpass
  have hchar : a.status = ApprovalStatus.APPROVED ∧ now < a.expires_at
      ∧ sess = updApproval db aid (fun b =>
          { b with status := .CONSUMED, consumed_at := some now }) := by
    obtain ⟨⟨a0, hf0, hs0, he0⟩, hsess0⟩ := hinv
    rw [hfind] at hf0
    injection hf0 with h10
    subst h10
    exact ⟨hs0, he0, hsess0⟩
  obtain ⟨hst, hexp, hsess⟩ := hchar
  have hrunC : (run_gated_mutation enabled bind path (some aid) db now principal method
      req_path body ct .committed).1 = sess := by
    unfold run_gated_mutation
    rw [hpass]
  have hrunF : (run_gated_mutation enabled bind path (some aid) db now principal method
      req_path body ct .failed).1 = db := by
    unfold run_gated_mutation
    rw [hpass]
  refine ⟨⟨hrunC, ?_⟩, hrunF, ?_, hst, hexp, ?_⟩
  · rw [hrunC, hsess,
        findApproval_upd db aid
          (fun b => { b with status := .CONSUMED, consumed_at := some now }) (fun b => rfl),
        hfind]
    rfl
  · rw [hrunF]
    exact hfind
  · rw [hrunF]


set_option maxRecDepth 40000 in
/-- Concrete check of the consume-iff-commit claim: committed handler
persists CONSUMED, failed handler leaves the APPROVED row untouched. -/
theorem gate_consume_iff_commit_witness :
    (findApproval (run_gated_mutation true true "/cis" (some 1) [exGateApproval] 50
          "service:ops" "POST" "/cis" "" none .committed).1 1
        = some { exGateApproval with status := .CONSUMED, consumed_at := some 50 })
    ∧ (run_gated_mutation true true "/cis" (some 1) [exGateApproval] 50
          "service:ops" "POST" "/cis" "" none .failed).1 = [exGateApproval] :=
  ⟨(gate_consume_iff_commit true true "/cis" 1 [exGateApproval] 50 "service:ops" "POST" "/cis"
      "" none
      (updApproval [exGateApproval] 1
        (fun b => { b with status := .CONSUMED, consumed_at := some 50 }))
      exGateApproval rfl (by decide)).1.2,
   (gate_consume_iff_commit true true "/cis" 1 [exGateApproval] 50 "service:ops" "POST" "/cis"
      "" none
      (updApproval [exGateApproval] 1
        (fun b => { b with status := .CONSUMED, consumed_at := some 50 }))
      exGateApproval rfl (by decide)).2.1⟩


/-! ## The self-decision ban and the expiry sweeper (C7) -/

theorem cleaner_not_principal {r : String} (h : isPrincipal r = true) :
    (!("system:approval-cleaner" == r)) = true := by
  cases hb : ("system:approval-cleaner" == r)
  · rfl
  · have he : "system:approval-cleaner" = r := by simpa using hb
    rw [← he] at h
    exact absurd h (by decide)

theorem expireApproval_ok (now : Timestamp) (a : ApprovalRec)
    (h : approvalRowOk a = true) : approvalRowOk (expireApproval now a) = true := by
  unfold approvalRowOk at h
  rw [Bool.and_eq_true] at h
  unfold expireApproval
  split
  · unfold approvalRowOk
    rw [Bool.and_eq_true]
    refine ⟨h.1, ?_⟩
    show (!("system:approval-cleaner" == a.requested_by)) = true
    exact cleaner_not_principal h.1
  · unfold approvalRowOk
    rw [Bool.and_eq_true]
    exact h

theorem approvalsOk_expire (now : Timestamp) (l : List ApprovalRec)
    (h : approvalsOk l = true) : approvalsOk (expire_pending_approvals now l) = true := by
  induction l with
  | nil => rfl
  | cons a tl ih =>
      have h2 : (approvalRowOk a && approvalsOk tl) = true := h
      rw [Bool.and_eq_true] at h2
      show (approvalRowOk (expireApproval now a)
        && approvalsOk (expire_pending_approvals now tl)) = true
      rw [Bool.and_eq_true]
      exact ⟨expireApproval_ok now a h2.1, ih h2.2⟩

theorem approvalsOk_upd (l : List ApprovalRec) (id : Nat) (f : ApprovalRec → ApprovalRec)
    (h : approvalsOk l = true)
    (hf : ∀ a, findApproval l id = some a → approvalRowOk (f a) = true) :
    approvalsOk (updApproval l id f) = true := by
  induction l with
  | nil => rfl
  | cons a tl ih =>
      have h2 : (approvalRowOk a && approvalsOk tl) = true := h
      rw [Bool.and_eq_true] at h2
      unfold updApproval
      by_cases ha : (a.id == id) = true
      · rw [if_pos ha]
        show (approvalRowOk (f a) && approvalsOk tl) = true
        rw [Bool.and_eq_true]
        refine ⟨hf a ?_, h2.2⟩
        show List.find? (fun b : ApprovalRec => b.id == id) (a :: tl) = some a
        exact List.find?_cons_of_pos _ ha
      · rw [if_neg ha]
        show (approvalRowOk a && approvalsOk (updApproval tl id f)) = true
        rw [Bool.and_eq_true]
        refine ⟨h2.1, ih h2.2 ?_⟩
        intro b hb
        apply hf
        show List.find? (fun c : ApprovalRec => c.id == id) (a :: tl) = some b
        rw [List.find?_cons_of_neg (p := fun c : ApprovalRec => c.id == id) _ ha]
        exact hb

theorem rowOk_of_mem {l : List ApprovalRec} {a : ApprovalRec}
    (h : approvalsOk l = true) (ha : a ∈ l) : approvalRowOk a = true :=
  List.all_eq_true.mp h a ha

theorem sweepApprovals_approvals (db : ApprovalsDb) (now : Timestamp) :
    (sweepApprovals db now).approvals = expire_pending_approvals now db.approvals := rfl

theorem approve_approval_ok (db : ApprovalsDb) (id : Nat) (note : Option String)
    (approver : String) (now : Timestamp) (h : approvalsOk db.approvals = true) :
    approvalsOk (approve_approval db id note approver now).1.approvals = true := by
  have hswept := approvalsOk_expire now db.approvals h
  unfold approve_approval
  dsimp only
  rw [sweepApprovals_approvals]
  cases hfa : findApproval (expire_pending_approvals now db.approvals) id with
  | none => exact hswept
  | some a =>
      simp only []
      by_cases h1 : a.status ≠ ApprovalStatus.PENDING
      · rw [if_pos h1]
        exact hswept
      rw [if_neg h1]
      by_cases h2 : a.expires_at ≤ now
      · rw [if_pos h2]
        exact hswept
      rw [if_neg h2]
      by_cases h3 : a.requested_by = approver
      · rw [if_pos h3]
        exact hswept
      rw [if_neg h3]
      apply approvalsOk_upd _ _ _ hswept
      intro b hb
      rw [hfa] at hb
      injection hb with hb2
      subst hb2
      have hok := rowOk_of_mem hswept (List.mem_of_find?_eq_some hfa)
      unfold approvalRowOk at hok
      rw [Bool.and_eq_true] at hok
      unfold approvalRowOk
      rw [Bool.and_eq_true]
      refine ⟨hok.1, ?_⟩
      show (!(approver == a.requested_by)) = true
      have hne : approver ≠ a.requested_by := fun hh => h3 hh.symm
      simp [hne]

theorem reject_approval_ok (db : ApprovalsDb) (id : Nat) (note : Option String)
    (approver : String) (now : Timestamp) (h : approvalsOk db.approvals = true) :
    approvalsOk (reject_approval db id note approver now).1.approvals = true := by
  have hswept := approvalsOk_expire now db.approvals h
  unfold reject_approval
  dsimp only
  rw [sweepApprovals_approvals]
  cases hfa : findApproval (expire_pending_approvals now db.approvals) id with
  | none => exact hswept
  | some a =>
      simp only []
      by_cases h1 : a.status ≠ ApprovalStatus.PENDING
      · rw [if_pos h1]
        exact hswept
      rw [if_neg h1]
      by_cases h3 : a.requested_by = approver
      · rw [if_pos h3]
        exact hswept
      rw [if_neg h3]
      apply approvalsOk_upd _ _ _ hswept
      intro b hb
      rw [hfa] at hb
      injection hb with hb2
      subst hb2
      have hok := rowOk_of_mem hswept (List.mem_of_find?_eq_some hfa)
      unfold approvalRowOk at hok
      rw [Bool.and_eq_true] at hok
      unfold approvalRowOk
      rw [Bool.and_eq_true]
      refine ⟨hok.1, ?_⟩
      show (!(approver == a.requested_by)) = true
      have hne : approver ≠ a.requested_by := fun hh => h3 hh.symm
      simp [hne]

theorem create_approval_ok (db : ApprovalsDb) (newId : Nat)
    (method path payload_hash : String) (reason : Option String) (principal : String)
    (expires_at now : Timestamp) (h : approvalsOk db.approvals = true)
    (hp : isPrincipal principal = true) :
    approvalsOk (create_approval db newId method path payload_hash reason principal
      expires_at now).1.approvals = true := by
  have hswept := approvalsOk_expire now db.approvals h
  unfold create_approval
  dsimp only
  rw [sweepApprovals_approvals]
  show ((expire_pending_approvals now db.approvals ++ [_]).all approvalRowOk) = true
  rw [List.all_append]
  rw [show (expire_pending_approvals now db.approvals).all approvalRowOk = true from hswept]
  simp [approvalRowOk, hp]

theorem run_gated_ok (enabled bind : Bool) (path : String) (aid : Option Nat)
    (db : List ApprovalRec) (now : Timestamp)
    (principal method req_path body : String) (ct : Option String)
    (outcome : HandlerOutcome) (h : approvalsOk db = true) :
    approvalsOk (run_gated_mutation enabled bind path aid db now principal method req_path
      body ct outcome).1 = true := by
  unfold run_gated_mutation
  cases hg : enforce_maker_checker enabled bind path aid db now principal method req_path
      body ct with
  | failed code => exact h
  | skipped => cases outcome <;> exact h
  | passed sess =>
      cases outcome with
      | failed => exact h
      | committed =>
          cases aid with
          | none =>
              exfalso
              unfold enforce_maker_checker at hg
              by_cases h1 : enabled = true
              case neg =>
                rw [if_pos (by simp [h1])] at hg
                simp at hg
              rw [if_neg (by simp [h1])] at hg
              by_cases h2 : charsStartsWith "/approvals".data path.data = true
              case pos =>
                rw [if_pos h2] at hg
                simp at hg
              rw [if_neg h2] at hg
              simp at hg
          | some aid0 =>
              obtain ⟨_, hsess⟩ := enforce_passed_inv enabled bind path aid0 db now principal
                method req_path body ct sess hg
              show approvalsOk sess = true
              rw [hsess]
              apply approvalsOk_upd _ _ _ h
              intro a ha
              have hok := rowOk_of_mem h (List.mem_of_find?_eq_some ha)
              exact hok

theorem applyApprovalOp_ok (db : ApprovalsDb) (op : ApprovalOp)
    (h : approvalsOk db.approvals = true)
    (hp : ∀ newId method path payload_hash reason principal expires_at now,
        op = .create newId method path payload_hash reason principal expires_at now →
        isPrincipal principal = true) :
    approvalsOk (applyApprovalOp db op).approvals = true := by
  cases op with
  | create newId method path payload_hash reason principal expires_at now =>
      exact create_approval_ok db newId method path payload_hash reason principal
        expires_at now h (hp _ _ _ _ _ _ _ _ rfl)
  | approve id note approver now => exact approve_approval_ok db id note approver now h
  | reject id note approver now => exact reject_approval_ok db id note approver now h
  | sweep now => exact approvalsOk_expire now db.approvals h
  | consume path id principal method req_path body content_type outcome now =>
      exact run_gated_ok true true path (some id) db.approvals now principal method
        req_path body content_type outcome h

theorem runApprovalOps_ok (ops : List ApprovalOp) : ∀ db : ApprovalsDb,
    approvalsOk db.approvals = true → opsPrincipals ops = true →
    approvalsOk (runApprovalOps db ops).approvals = true := by
  induction ops with
  | nil => intro db h _; exact h
  | cons op rest ih =>
      intro db h hops
      show approvalsOk (runApprovalOps (applyApprovalOp db op) rest).approvals = true
      have hstep : approvalsOk (applyApprovalOp db op).approvals = true := by
        apply applyApprovalOp_ok db op h
        intro newId method path payload_hash reason principal expires_at now hop
        subst hop
        have : (isPrincipal principal && opsPrincipals rest) = true := hops
        rw [Bool.and_eq_true] at this
        exact this.1
      apply ih _ hstep
      cases op with
      | create _ _ _ _ _ principal _ _ =>
          have : (isPrincipal principal && opsPrincipals rest) = true := hops
          rw [Bool.and_eq_true] at this
          exact this.2
      | approve _ _ _ _ => exact hops
      | reject _ _ _ _ => exact hops
      | sweep _ => exact hops
      | consume _ _ _ _ _ _ _ _ _ => exact hops


/-- A self-approve attempt on an expired PENDING approval returns 409, yet the
request's initial expiry sweep has already transitioned the approval to
REJECTED (decided by `system:approval-cleaner`) and committed: the approval
does not stay unchanged. -/
theorem self_approval_counterexample :
    (approve_approval { approvals := [exSelfApproval], events := [] } 0 none
        "service:ops" 20).2 = some 409
    ∧ findApproval (approve_approval { approvals := [exSelfApproval], events := [] } 0 none
          "service:ops" 20).1.approvals 0 ≠ some exSelfApproval
    ∧ (findApproval (approve_approval { approvals := [exSelfApproval], events := [] } 0 none
          "service:ops" 20).1.approvals 0).map (fun a => a.status)
        = some ApprovalStatus.REJECTED := by decide

/-- **C7 (amended)**: across every sequence of approval operations whose
created approvals carry authenticated principals, every set `decided_by`
differs from `requested_by`; a self-approve or self-reject attempt always
fails with 409 and leaves the store exactly as the request's initial expiry
sweep left it — so the attempted approval is unchanged unless it was already
expired, in which case the sweep (not the decision) has rejected it. -/
theorem approvals_self_decision_amended :
    (∀ (db : ApprovalsDb) (ops : List ApprovalOp), approvalsOk db.approvals = true →
        opsPrincipals ops = true → approvalsOk (runApprovalOps db ops).approvals = true)
    ∧ (∀ (db : ApprovalsDb) (id : Nat) (note : Option String) (P : String) (now : Timestamp)
          (a : ApprovalRec),
        findApproval (expire_pending_approvals now db.approvals) id = some a →
        a.requested_by = P →
        ((approve_approval db id note P now).2 = some 409
          ∧ (approve_approval db id note P now).1.approvals
              = expire_pending_approvals now db.approvals)
        ∧ ((reject_approval db id note P now).2 = some 409
          ∧ (reject_approval db id note P now).1.approvals
              = expire_pending_approvals now db.approvals)) := by
  refine ⟨fun db ops h hops => runApprovalOps_ok ops db h hops, ?_⟩
  intro db id note P now a hfind hreq
  constructor
  · unfold approve_approval
    dsimp only
    rw [sweepApprovals_approvals, hfind]
    simp only []
    by_cases h1 : a.status ≠ ApprovalStatus.PENDING
    · rw [if_pos h1]
      exact ⟨rfl, rfl⟩
    rw [if_neg h1]
    by_cases h2 : a.expires_at ≤ now
    · rw [if_pos h2]
      exact ⟨rfl, rfl⟩
    rw [if_neg h2]
    rw [if_pos hreq]
    exact ⟨rfl, rfl⟩
  · unfold reject_approval
    dsimp only
    rw [sweepApprovals_approvals, hfind]
    simp only []
    by_cases h1 : a.status ≠ ApprovalStatus.PENDING
    · rw [if_pos h1]
      exact ⟨rfl, rfl⟩
    rw [if_neg h1]
    rw [if_pos hreq]
    exact ⟨rfl, rfl⟩

/-- Concrete check of the amended self-decision claim: a run of well-formed
operations keeps the decider/requester invariant, and a live self-approve
attempt 409s leaving the store as swept. -/
theorem approvals_self_decision_amended_witness :
    approvalsOk (runApprovalOps { approvals := [], events := [] }
        [.create 7 "POST" "/cis" "h" none "service:ops" 100 0,
         .approve 7 none "service:approver" 10]).approvals = true
    ∧ (approve_approval { approvals := [exSelfApproval], events := [] } 0 none
          "service:ops" 5).2 = some 409 :=
  ⟨approvals_self_decision_amended.1 { approvals := [], events := [] }
      [.create 7 "POST" "/cis" "h" none "service:ops" 100 0,
       .approve 7 none "service:approver" 10] (by decide) (by decide),
   (approvals_self_decision_amended.2 { approvals := [exSelfApproval], events := [] } 0 none
      "service:ops" 5 exSelfApproval (by decide) (by decide)).1.1⟩


/-! ## NetBox watermark advancement (C9) -/

theorem readSync_map_write_found (tl : List (String × String)) (k val : String)
    (h : (tl.find? (fun q : String × String => q.1 == k)).isSome = true) :
    readSync (tl.map (fun p => if p.1 == k then (p.1, val) else p)) k = some val := by
  induction tl with
  | nil => simp at h
  | cons p tl2 ih =>
      by_cases hp : (p.1 == k) = true
      · show readSync ((if p.1 == k then (p.1, val) else p) :: _) k = some val
        rw [if_pos hp]
        unfold readSync
        rw [List.find?_cons_of_pos (p := fun q : String × String => q.1 == k)
              (a := ((p.1 : String), val)) _ hp]
        rfl
      · show readSync ((if p.1 == k then (p.1, val) else p) :: _) k = some val
        rw [if_neg hp]
        unfold readSync
        rw [List.find?_cons_of_neg (p := fun q : String × String => q.1 == k) _ hp]
        apply ih
        rw [List.find?_cons_of_neg (p := fun q : String × String => q.1 == k) _ hp] at h
        exact h

theorem readSync_append_single_none (kv : List (String × String)) (k val : String)
    (h : kv.find? (fun q : String × String => q.1 == k) = none) :
    readSync (kv ++ [(k, val)]) k = some val := by
  induction kv with
  | nil =>
      show readSync [(k, val)] k = some val
      unfold readSync
      rw [List.find?_cons_of_pos (p := fun q : String × String => q.1 == k) _ (by simp)]
      rfl
  | cons p tl ih =>
      have hp : ¬ (p.1 == k) = true := by
        intro hh
        rw [List.find?_cons_of_pos (p := fun q : String × String => q.1 == k) _ hh] at h
        exact absurd h (by simp)
      show readSync (p :: (tl ++ [(k, val)])) k = some val
      unfold readSync
      rw [List.find?_cons_of_neg (p := fun q : String × String => q.1 == k) _ hp]
      rw [List.find?_cons_of_neg (p := fun q : String × String => q.1 == k) _ hp] at h
      exact ih h

theorem readSync_write_self (kv : List (String × String)) (k val : String) :
    readSync (writeSync kv k val) k = some val := by
  unfold writeSync
  by_cases hf : (kv.find? (fun q : String × String => q.1 == k)).isSome = true
  · rw [if_pos hf]
    exact readSync_map_write_found kv k val hf
  · rw [if_neg hf]
    apply readSync_append_single_none
    cases hx : kv.find? (fun q : String × String => q.1 == k) with
    | none => rfl
    | some q =>
        rw [hx] at hf
        exact absurd rfl hf

theorem readSync_map_write_other (tl : List (String × String)) (k2 val k : String)
    (hne : k ≠ k2) :
    readSync (tl.map (fun p => if p.1 == k2 then (p.1, val) else p)) k = readSync tl k := by
  induction tl with
  | nil => rfl
  | cons p tl2 ih =>
      show readSync ((if p.1 == k2 then (p.1, val) else p) :: _) k = readSync (p :: tl2) k
      have hkey : (if p.1 == k2 then (p.1, val) else p).1 = p.1 := by
        by_cases hp2 : (p.1 == k2) = true
        · rw [if_pos hp2]
        · rw [if_neg hp2]
      by_cases hp : (p.1 == k) = true
      · have hp2 : ¬ (p.1 == k2) = true := by
          intro hh
          have h1 : p.1 = k := by simpa using hp
          have h2 : p.1 = k2 := by simpa using hh
          exact hne (h1 ▸ h2)
        rw [if_neg hp2]
        unfold readSync
        rw [List.find?_cons_of_pos (p := fun q : String × String => q.1 == k) _ hp,
            List.find?_cons_of_pos (p := fun q : String × String => q.1 == k) _ hp]
      · unfold readSync
        rw [List.find?_cons_of_neg (p := fun q : String × String => q.1 == k) _
              (by show ¬((if p.1 == k2 then (p.1, val) else p).1 == k) = true
                  rw [hkey]
                  exact hp),
            List.find?_cons_of_neg (p := fun q : String × String => q.1 == k) _ hp]
        exact ih

theorem readSync_append_single_other (kv : List (String × String)) (k2 val k : String)
    (hne : k ≠ k2) : readSync (kv ++ [(k2, val)]) k = readSync kv k := by
  have hk2 : ¬ (((k2 : String), val).1 == k) = true := by
    intro hh
    have h2 : k2 = k := by simpa using hh
    exact hne h2.symm
  induction kv with
  | nil =>
      show readSync [(k2, val)] k = readSync [] k
      unfold readSync
      rw [List.find?_cons_of_neg (p := fun q : String × String => q.1 == k) _ hk2]
  | cons p tl ih =>
      show readSync (p :: (tl ++ [(k2, val)])) k = readSync (p :: tl) k
      unfold readSync
      by_cases hp : (p.1 == k) = true
      · rw [List.find?_cons_of_pos (p := fun q : String × String => q.1 == k) _ hp,
            List.find?_cons_of_pos (p := fun q : String × String => q.1 == k) _ hp]
      · rw [List.find?_cons_of_neg (p := fun q : String × String => q.1 == k) _ hp,
            List.find?_cons_of_neg (p := fun q : String × String => q.1 == k) _ hp]
        exact ih

theorem readSync_write_other (kv : List (String × String)) (k2 val k : String)
    (hne : k ≠ k2) : readSync (writeSync kv k2 val) k = readSync kv k := by
  unfold writeSync
  split
  · exact readSync_map_write_other kv k2 val k hne
  · exact readSync_append_single_other kv k2 val k hne


/-- **C9**: `run_netbox_import` advances each endpoint's stored watermark to
the maximum observed `last_updated` exactly when the run is non-dry-run,
incremental, that endpoint's pagination was exhausted and a maximum was
observed; in particular a pagination cut short by the item limit leaves the
watermark unchanged. -/
theorem netbox_watermark_spec (kv : List (String × String)) (limit : Nat)
    (dry incr : Bool) (devPages vmPages : List NbPage) (isoOf : Timestamp → String)
    (hiso : ∀ t, isoOf t ≠ "") (hlim : 1 ≤ limit) :
    (readSync (run_netbox_import_sync kv limit dry incr devPages vmPages isoOf)
        NETBOX_DEVICE_WATERMARK_KEY =
      if dry = false ∧ incr = true
          ∧ (netbox_collect (max 1 (limit / 2)) devPages).2.1 = true
          ∧ ((netbox_collect (max 1 (limit / 2)) devPages).2.2).isSome = true
      then ((netbox_collect (max 1 (limit / 2)) devPages).2.2).map isoOf
      else readSync kv NETBOX_DEVICE_WATERMARK_KEY)
    ∧ (readSync (run_netbox_import_sync kv limit dry incr devPages vmPages isoOf)
        NETBOX_VM_WATERMARK_KEY =
      if dry = false ∧ incr = true
          ∧ (netbox_collect (max 1 (limit - max 1 (limit / 2))) vmPages).2.1 = true
          ∧ ((netbox_collect (max 1 (limit - max 1 (limit / 2))) vmPages).2.2).isSome = true
      then ((netbox_collect (max 1 (limit - max 1 (limit / 2))) vmPages).2.2).map isoOf
      else readSync kv NETBOX_VM_WATERMARK_KEY) := by
  have hkeys : NETBOX_DEVICE_WATERMARK_KEY ≠ NETBOX_VM_WATERMARK_KEY := by decide
  unfold run_netbox_import_sync fetch_netbox_incremental
  rw [if_neg (show ¬ (limit < 1) from by omega)]
  dsimp only
  cases dry with
  | true =>
      rw [if_neg (by simp)]
      constructor <;> rw [if_neg (by simp)]
  | false =>
      cases incr with
      | false =>
          rw [if_neg (by simp)]
          constructor <;> rw [if_neg (by simp)]
      | true =>
          rw [if_pos (by simp)]
          cases hd : (netbox_collect (max 1 (limit / 2)) devPages).2.2 with
          | none =>
              simp only [Option.map]
              cases hv : (netbox_collect (max 1 (limit - max 1 (limit / 2))) vmPages).2.2 with
              | none =>
                  simp only [Option.map]
                  constructor <;> rw [if_neg (by simp [hd, hv])]
              | some tv =>
                  simp only [Option.map]
                  cases hvex : (netbox_collect (max 1 (limit - max 1 (limit / 2))) vmPages).2.1 with
                  | false =>
                      rw [if_neg (by simp [hvex, hiso tv])]
                      constructor
                      · rw [if_neg (by simp [hd])]
                      · rw [if_neg (by simp [hvex])]
                  | true =>
                      rw [if_pos (by simp [hvex, hiso tv])]
                      constructor
                      · rw [readSync_write_other _ _ _ _ hkeys, if_neg (by simp [hd])]
                      · rw [readSync_write_self, if_pos (by simp [hv, hvex])]
          | some td =>
              simp only [Option.map]
              cases hdex : (netbox_collect (max 1 (limit / 2)) devPages).2.1 with
              | false =>
                  rw [if_neg (by simp [hdex, hiso td])]
                  cases hv : (netbox_collect (max 1 (limit - max 1 (limit / 2))) vmPages).2.2 with
                  | none =>
                      simp only [Option.map]
                      constructor
                      · rw [if_neg (by simp [hdex])]
                      · rw [if_neg (by simp [hv])]
                  | some tv =>
                      simp only [Option.map]
                      cases hvex : (netbox_collect (max 1 (limit - max 1 (limit / 2))) vmPages).2.1 with
                      | false =>
                          rw [if_neg (by simp [hvex, hiso tv])]
                          constructor
                          · rw [if_neg (by simp [hdex])]
                          · rw [if_neg (by simp [hvex])]
                      | true =>
                          rw [if_pos (by simp [hvex, hiso tv])]
                          constructor
                          · rw [readSync_write_other _ _ _ _ hkeys, if_neg (by simp [hdex])]
                          · rw [readSync_write_self, if_pos (by simp [hv, hvex])]
              | true =>
                  rw [if_pos (by simp [hdex, hiso td])]
                  cases hv : (netbox_collect (max 1 (limit - max 1 (limit / 2))) vmPages).2.2 with
                  | none =>
                      simp only [Option.map]
                      constructor
                      · rw [readSync_write_self, if_pos (by simp [hd, hdex])]
                      · rw [readSync_write_other _ _ _ _ (Ne.symm hkeys), if_neg (by simp [hv])]
                  | some tv =>
                      simp only [Option.map]
                      cases hvex : (netbox_collect (max 1 (limit - max 1 (limit / 2))) vmPages).2.1 with
                      | false =>
                          rw [if_neg (by simp [hvex, hiso tv])]
                          constructor
                          · rw [readSync_write_self, if_pos (by simp [hd, hdex])]
                          · rw [readSync_write_other _ _ _ _ (Ne.symm hkeys), if_neg (by simp [hvex])]
                      | true =>
                          rw [if_pos (by simp [hvex, hiso tv])]
                          constructor
                          · rw [readSync_write_other _ _ _ _ hkeys, readSync_write_self,
                                if_pos (by simp [hd, hdex])]
                          · rw [readSync_write_self, if_pos (by simp [hv, hvex])]


/-- Concrete check of the watermark claim: an exhausted devices endpoint
advances its watermark while a limit-cut VM pagination leaves its watermark
unset. -/
theorem netbox_watermark_spec_witness :
    readSync (run_netbox_import_sync [] 2 false true exDevPages exVmPages
        (fun _ => "2024-01-01")) NETBOX_DEVICE_WATERMARK_KEY = some "2024-01-01"
    ∧ readSync (run_netbox_import_sync [] 2 false true exDevPages exVmPages
        (fun _ => "2024-01-01")) NETBOX_VM_WATERMARK_KEY = none :=
  ⟨((netbox_watermark_spec [] 2 false true exDevPages exVmPages (fun _ => "2024-01-01")
      (fun t => by show ("2024-01-01" : String) ≠ ""; decide) (by decide)).1).trans (by decide),
   ((netbox_watermark_spec [] 2 false true exDevPages exVmPages (fun _ => "2024-01-01")
      (fun t => by show ("2024-01-01" : String) ≠ ""; decide) (by decide)).2).trans (by decide)⟩

end CMDB
